import Mathlib

/-!
Shallow embedding of the data-preprocessing pipeline of
`notebooks/02_data_preprocessing.ipynb` (Animal Subspecies Classification).

The notebook defines three passes over a directory tree of labelled images:

* `clean_data(source_dir)`: for every class subdirectory, try to
  `Image.open(...).verify()` each entry; on failure print a log line and
  `os.remove` the file.
* `standardize_images(source_dir, target_dir, image_size)`: for every class
  subdirectory, `os.makedirs` the mirrored target class directory, then for
  every entry open, `resize(image_size)` and save under the same filename in
  the mirrored directory; failures are printed and skipped.
* `split_data(source_dir, train_dir, val_dir, test_dir, train_ratio, val_ratio)`:
  for every class subdirectory, list its files, run sklearn
  `train_test_split(images, train_size=train_ratio, random_state=42)`, then
  `train_test_split(temp, test_size=(1 - train_ratio - val_ratio) / (val_ratio + (1 - train_ratio)))`,
  and `shutil.copy` each file into the per-class subdirectory of the three
  target roots, created on demand with `os.makedirs(..., exist_ok=True)`.

Modelling choices, noted once here:

* A path is the list of its components (`os.path.join a b` is `a ++ [b]`).
* File bytes are abstracted to what PIL can observe of them: either they
  decode as an image of some width and height, or every PIL operation on
  them (open/verify/resize/save) raises; real-number ratio arithmetic of
  sklearn is modelled by exact rationals; the seeded (`random_state=42`)
  first-stage shuffle is a fixed oracle `permA : Nat → List Nat` giving one
  permutation per list length, while the unseeded second-stage shuffle is an
  arbitrary oracle consulted per class, so that distinct runs may use
  distinct second-stage oracles but share the first-stage one.
* `print(...)` log lines are recorded as the path of the file they reference.
* Python exceptions that escape a pass (`IsADirectoryError` from
  `os.remove`/`shutil.copy` on a directory, `FileExistsError` from
  `os.makedirs` over a file, sklearn `ValueError` from an empty split side)
  freeze the state: each pass returns its state together with an optional
  uncaught-exception message, and every later step of the pass is a no-op
  once that message is set.
-/

/-- A filesystem path, as the list of its components. -/
abbrev Fpath := List String

/-- Abstract file bytes as PIL observes them: either bytes decoding as an
image with the given width and height, or bytes on which PIL raises. -/
inductive Content where
  | image (w h : Nat)
  | invalid
deriving DecidableEq

/-- A directory entry: a subdirectory or a regular file. -/
inductive FsNode where
  | dir
  | file (c : Content)
deriving DecidableEq

/-- A filesystem: a list of entries keyed by parent path and name.
`os.listdir` returns names in entry order. -/
structure FS where
  ents : List (Fpath × String × FsNode)
deriving DecidableEq

/-- Does an entry carry the given (parent, name) key? -/
def keyMatches (d : Fpath) (n : String) (e : Fpath × String × FsNode) : Bool :=
  decide (e.1 = d ∧ e.2.1 = n)

/-- Resolve a (parent, name) key to its node, taking the first matching
entry. -/
def FS.lookup (fs : FS) (d : Fpath) (n : String) : Option FsNode :=
  (fs.ents.find? (keyMatches d n)).map (fun e => e.2.2)

/-- Model of `os.listdir`: the names of the entries whose parent is `d`, in
entry order. -/
def FS.listdir (fs : FS) (d : Fpath) : List String :=
  fs.ents.filterMap (fun e => if e.1 = d then some e.2.1 else none)

/-- Model of `os.path.isdir` on the child `n` of `d`. -/
def FS.isdir (fs : FS) (d : Fpath) (n : String) : Bool :=
  decide (fs.lookup d n = some FsNode.dir)

/-- Model of `os.remove`: drop the entry with the given key. -/
def FS.remove (fs : FS) (d : Fpath) (n : String) : FS :=
  ⟨fs.ents.filter (fun e => !(keyMatches d n e))⟩

/-- Write a file (used for `img.save` and `shutil.copy`): replace any entry
with the same key by a fresh file entry. -/
def FS.writeFile (fs : FS) (d : Fpath) (n : String) (c : Content) : FS :=
  ⟨fs.ents.filter (fun e => !(keyMatches d n e)) ++ [(d, n, FsNode.file c)]⟩

/-- One level of `os.makedirs(..., exist_ok=True)`: keep an existing
directory, raise `FileExistsError` over a file, create the directory when
absent. -/
def FS.mkdirOne (fs : FS) (d : Fpath) (n : String) : Except String FS :=
  match fs.lookup d n with
  | some FsNode.dir => Except.ok fs
  | some (FsNode.file _) => Except.error "FileExistsError"
  | none => Except.ok ⟨fs.ents ++ [(d, n, FsNode.dir)]⟩

/-- Recursive worker for `FS.makedirs`, creating `comps` below `base`. -/
def FS.makedirsAux (fs : FS) (base : Fpath) (comps : List String) : Except String FS :=
  match comps with
  | [] => Except.ok fs
  | c :: rest =>
    match fs.mkdirOne base c with
    | Except.error e => Except.error e
    | Except.ok fs1 => fs1.makedirsAux (base ++ [c]) rest

/-- Model of `os.makedirs(p, exist_ok=True)`: create every component of `p`
in turn. -/
def FS.makedirs (fs : FS) (p : Fpath) : Except String FS :=
  fs.makedirsAux [] p

/-- Well-formedness of a filesystem: entry keys are distinct, as they are on
a real filesystem. -/
def FS.Wf (fs : FS) : Prop :=
  (fs.ents.map (fun e => (e.1, e.2.1))).Nodup

/-- Does the key resolve to bytes that decode as an image? -/
def isImg (fs : FS) (d : Fpath) (n : String) : Bool :=
  match fs.lookup d n with
  | some (FsNode.file (Content.image _ _)) => true
  | _ => false

/-- Fpath `a` is a prefix of path `b` (so `b` lies in the subtree rooted at
`a`; `a` itself included). -/
def pathLE (a b : Fpath) : Prop := b.take a.length = a

instance (a b : Fpath) : Decidable (pathLE a b) :=
  inferInstanceAs (Decidable (b.take a.length = a))

/-- The subtrees rooted at `a` and at `b` are disjoint: neither path is a
prefix of the other. -/
def sepPaths (a b : Fpath) : Prop := ¬ pathLE a b ∧ ¬ pathLE b a

instance (a b : Fpath) : Decidable (sepPaths a b) :=
  inferInstanceAs (Decidable (¬ pathLE a b ∧ ¬ pathLE b a))

/-- State threaded through `clean_data` and `standardize_images`: the
filesystem, the paths referenced by `print` log lines so far, and the
uncaught exception, if one was raised. -/
structure PassSt where
  fs : FS
  logs : List Fpath
  err : Option String
deriving DecidableEq

/-- Body of `clean_data`'s inner loop for one entry `img_name` of class
`class_name`: `Image.open(img_path)` + `verify()`, and on failure
`print(...)` then `os.remove(img_path)` (which itself raises on a directory
or a missing file, uncaught). -/
def cleanFileStep (sourceDir : Fpath) (className : String)
    (st : PassSt) (imgName : String) : PassSt :=
  if st.err.isSome then st else
  match st.fs.lookup (sourceDir ++ [className]) imgName with
  | some (FsNode.file (Content.image _ _)) => st
  | some (FsNode.file Content.invalid) =>
      { st with fs := st.fs.remove (sourceDir ++ [className]) imgName,
                logs := st.logs ++ [sourceDir ++ [className, imgName]] }
  | some FsNode.dir =>
      { st with logs := st.logs ++ [sourceDir ++ [className, imgName]],
                err := some "IsADirectoryError" }
  | none =>
      { st with logs := st.logs ++ [sourceDir ++ [className, imgName]],
                err := some "FileNotFoundError" }

/-- Body of `clean_data`'s outer loop for one root entry `class_name`:
skip non-directories, else fold the inner loop over a snapshot of
`os.listdir(class_path)`. -/
def cleanClassStep (sourceDir : Fpath) (st : PassSt) (className : String) : PassSt :=
  if st.err.isSome then st else
  if st.fs.isdir sourceDir className then
    (st.fs.listdir (sourceDir ++ [className])).foldl (cleanFileStep sourceDir className) st
  else st

/-- Model of `clean_data(source_dir)`. -/
def clean_data (fs : FS) (sourceDir : Fpath) : PassSt :=
  (fs.listdir sourceDir).foldl (cleanClassStep sourceDir)
    { fs := fs, logs := [], err := none }

/-- Body of `standardize_images`' inner loop for one entry: open, resize to
`image_size` and save under the same filename in the mirrored class
directory; on any failure print a log line and continue. -/
def stdFileStep (sourceDir targetDir : Fpath) (className : String)
    (imageSize : Nat × Nat) (st : PassSt) (imgName : String) : PassSt :=
  if st.err.isSome then st else
  match st.fs.lookup (sourceDir ++ [className]) imgName with
  | some (FsNode.file (Content.image _ _)) =>
      { st with fs := st.fs.writeFile (targetDir ++ [className]) imgName
                        (Content.image imageSize.1 imageSize.2) }
  | _ => { st with logs := st.logs ++ [sourceDir ++ [className, imgName]] }

/-- Body of `standardize_images`' outer loop for one root entry: skip
non-directories, else `os.makedirs(target_class_dir, exist_ok=True)` and
fold the inner loop over `os.listdir(class_path)`. -/
def stdClassStep (sourceDir targetDir : Fpath) (imageSize : Nat × Nat)
    (st : PassSt) (className : String) : PassSt :=
  if st.err.isSome then st else
  if st.fs.isdir sourceDir className then
    match st.fs.makedirs (targetDir ++ [className]) with
    | Except.error e => { st with err := some e }
    | Except.ok fs1 =>
      (fs1.listdir (sourceDir ++ [className])).foldl
        (stdFileStep sourceDir targetDir className imageSize) { st with fs := fs1 }
  else st

/-- Model of `standardize_images(source_dir, target_dir, image_size)`. -/
def standardize_images (fs : FS) (sourceDir targetDir : Fpath)
    (imageSize : Nat × Nat) : PassSt :=
  (fs.listdir sourceDir).foldl (stdClassStep sourceDir targetDir imageSize)
    { fs := fs, logs := [], err := none }

/-- Element `i` of a list, if in range (numpy fancy indexing step of the
shuffle). -/
def nth {α : Type} : List α → Nat → Option α
  | [], _ => none
  | a :: _, 0 => some a
  | _ :: l, n + 1 => nth l n

/-- Reorder `l` by the index list `perm` (sklearn's shuffled permutation of
`range(len(l))`). -/
def applyPerm {α : Type} (l : List α) (perm : List Nat) : List α :=
  perm.filterMap (nth l)

/-- Side sizes sklearn computes for `train_test_split(l, train_size=f)` with
a float `f` and default `test_size=None`: `n_train = floor(f * n)` and the
complement as test size. -/
def splitCountsTrain (n : Nat) (f : ℚ) : Nat × Nat :=
  ((f * n).floor.toNat, n - (f * n).floor.toNat)

/-- Side sizes sklearn computes for `train_test_split(l, test_size=t)` with
a float `t` and default `train_size=None`: `n_test = ceil(t * n)` and the
complement as train size. -/
def splitCountsTest (n : Nat) (t : ℚ) : Nat × Nat :=
  (n - (t * n).ceil.toNat, (t * n).ceil.toNat)

/-- Model of sklearn `train_test_split` on one list: raise `ValueError`
when either computed side is empty, else shuffle by `perm` and return
`(train, test) = (shuffled[n_test : n_test + n_train], shuffled[:n_test])`. -/
def train_test_split {α : Type} (l : List α) (counts : Nat × Nat)
    (perm : List Nat) : Except String (List α × List α) :=
  if counts.1 = 0 ∨ counts.2 = 0 then
    Except.error "ValueError: one of the resulting splits would be empty"
  else
    Except.ok (((applyPerm l perm).drop counts.2).take counts.1,
               (applyPerm l perm).take counts.2)

/-- The second-stage `test_size` expression of `split_data`, exactly as the
source computes it: `(1 - train_ratio - val_ratio) / (val_ratio + (1 - train_ratio))`. -/
def computedTestSize (trainRatio valRatio : ℚ) : ℚ :=
  (1 - trainRatio - valRatio) / (valRatio + (1 - trainRatio))

/-- The two chained `train_test_split` calls of `split_data` on one class's
image list: first split off `train` (seeded shuffle `permA`), then split the
remainder into `val` and `test` (unseeded shuffle `permB`, consulted at the
remainder's length). -/
def splitClass (images : List String) (trainRatio valRatio : ℚ)
    (permA : List Nat) (permB : Nat → List Nat) :
    Except String (List String × List String × List String) :=
  match train_test_split images (splitCountsTrain images.length trainRatio) permA with
  | Except.error e => Except.error e
  | Except.ok (train, temp) =>
    match train_test_split temp
        (splitCountsTest temp.length (computedTestSize trainRatio valRatio))
        (permB temp.length) with
    | Except.error e => Except.error e
    | Except.ok (val, test) => Except.ok (train, val, test)

/-- State threaded through `split_data`: the filesystem, the per-class
`(class_name, train, val, test)` values the two splits produced, and the
uncaught exception, if one was raised. -/
structure SplitSt where
  fs : FS
  asgn : List (String × List String × List String × List String)
  err : Option String
deriving DecidableEq

/-- One `shutil.copy(os.path.join(class_path, img_name), dst)`: read the
source entry (raising on a directory or a missing file) and write its bytes
under `imgName` in `dstDir`. -/
def copyFileStep (fs : FS) (classPath : Fpath) (imgName : String)
    (dstDir : Fpath) : Except String FS :=
  match fs.lookup classPath imgName with
  | some (FsNode.file c) => Except.ok (fs.writeFile dstDir imgName c)
  | some FsNode.dir => Except.error "IsADirectoryError"
  | none => Except.error "FileNotFoundError"

/-- One copy loop of `split_data`: for each name, `os.makedirs` the
per-class target directory (inside the loop, as in the source) and copy the
file; an exception freezes the state. -/
def copyLoop (classPath dstRoot : Fpath) (className : String)
    (names : List String) (acc : FS × Option String) : FS × Option String :=
  names.foldl
    (fun a imgName =>
      if a.2.isSome then a else
      match a.1.makedirs (dstRoot ++ [className]) with
      | Except.error e => (a.1, some e)
      | Except.ok fs1 =>
        match copyFileStep fs1 classPath imgName (dstRoot ++ [className]) with
        | Except.error e => (fs1, some e)
        | Except.ok fs2 => (fs2, none))
    acc

/-- Body of `split_data`'s loop for one root entry `class_name`: skip
non-directories, else list the class, run the two splits, and copy the three
groups. -/
def splitClassStep (sourceDir trainDir valDir testDir : Fpath)
    (trainRatio valRatio : ℚ) (permA : Nat → List Nat)
    (permB : String → Nat → List Nat) (st : SplitSt) (className : String) : SplitSt :=
  if st.err.isSome then st else
  if st.fs.isdir sourceDir className then
    match splitClass (st.fs.listdir (sourceDir ++ [className])) trainRatio valRatio
        (permA (st.fs.listdir (sourceDir ++ [className])).length) (permB className) with
    | Except.error e => { st with err := some e }
    | Except.ok (train, val, test) =>
      let a1 := copyLoop (sourceDir ++ [className]) trainDir className train (st.fs, none)
      let a2 := copyLoop (sourceDir ++ [className]) valDir className val a1
      let a3 := copyLoop (sourceDir ++ [className]) testDir className test a2
      { fs := a3.1, asgn := st.asgn ++ [(className, train, val, test)], err := a3.2 }
  else st

/-- Model of `split_data(source_dir, train_dir, val_dir, test_dir,
train_ratio, val_ratio)`. -/
def split_data (fs : FS) (sourceDir trainDir valDir testDir : Fpath)
    (trainRatio valRatio : ℚ) (permA : Nat → List Nat)
    (permB : String → Nat → List Nat) : SplitSt :=
  (fs.listdir sourceDir).foldl
    (splitClassStep sourceDir trainDir valDir testDir trainRatio valRatio permA permB)
    { fs := fs, asgn := [], err := none }

/-- The three copy loops that `splitClassStep` chains for one class, as a
single function of the starting filesystem (used only to state lemmas). -/
def copyAll (sourceDir trainDir valDir testDir : Fpath) (c : String)
    (T V Te : List String) (fs : FS) : FS × Option String :=
  copyLoop (sourceDir ++ [c]) testDir c Te
    (copyLoop (sourceDir ++ [c]) valDir c V
      (copyLoop (sourceDir ++ [c]) trainDir c T (fs, none)))

instance (fs : FS) : Decidable fs.Wf := by
  unfold FS.Wf
  infer_instance

instance (a b : Fpath) : Decidable (pathLE a b) := by
  unfold pathLE
  infer_instance

instance (a b : Fpath) : Decidable (sepPaths a b) := by
  unfold sepPaths pathLE
  infer_instance

/-! ### Path lemmas -/

theorem pathLE_refl (a : Fpath) : pathLE a a := by
  simp [pathLE]

theorem pathLE_append_one (a : Fpath) (x : String) : pathLE a (a ++ [x]) := by
  simp [pathLE, List.take_append_of_le_length]

theorem pathLE_of_take {a p : Fpath} {i : Nat} (h : pathLE a (p.take i)) :
    pathLE a p := by
  unfold pathLE at h ⊢
  rw [List.take_take] at h
  rcases le_or_lt a.length i with hle | hlt
  · have : min a.length i = a.length := by omega
    rwa [this] at h
  · have hlen := congrArg List.length h
    simp [List.length_take] at hlen
    omega

theorem pathLE_append_one_cases {a b : Fpath} {x : String}
    (h : pathLE a (b ++ [x])) : pathLE a b ∨ a = b ++ [x] := by
  unfold pathLE at h ⊢
  rcases le_or_lt a.length b.length with hle | hlt
  · left
    rw [List.take_append_of_le_length hle] at h
    exact h
  · right
    rw [← h]
    exact List.take_of_length_le (by simp; omega)

theorem sepPaths_ne {a b : Fpath} (h : sepPaths a b) : a ≠ b := by
  intro hab
  exact h.1 (hab ▸ pathLE_refl a)

theorem sep_not_le_take {a b : Fpath} (h : sepPaths a b) (i : Nat) :
    ¬ pathLE a (b.take i) := fun hc => h.1 (pathLE_of_take hc)

theorem sep_not_le_child {a b : Fpath} (h : sepPaths a b) (x : String) :
    ¬ pathLE a (b ++ [x]) := by
  intro hc
  rcases pathLE_append_one_cases hc with h1 | h1
  · exact h.1 h1
  · exact h.2 (h1 ▸ pathLE_append_one b x)

theorem child_ne_of_sep {a b : Fpath} (h : sepPaths a b) (x y : String) :
    b ++ [x] ≠ a ++ [y] := by
  intro hc
  have hlen : b.length = a.length := by
    have := congrArg List.length hc
    simpa using this
  have : b = a := by
    have h1 := congrArg (List.take b.length) hc
    rw [List.take_append_of_le_length le_rfl, List.take_of_length_le (by omega),
      hlen, List.take_append_of_le_length le_rfl, List.take_of_length_le le_rfl] at h1
    exact h1
  exact sepPaths_ne h this.symm

theorem child_ne_parent (a : Fpath) (x : String) : a ++ [x] ≠ a := by
  intro h
  have := congrArg List.length h
  simp at this

/-! ### Filesystem primitive lemmas -/

theorem keyMatches_iff (d : Fpath) (n : String) (e : Fpath × String × FsNode) :
    keyMatches d n e = true ↔ e.1 = d ∧ e.2.1 = n := by
  simp [keyMatches]

theorem keyMatches_false_iff (d : Fpath) (n : String) (e : Fpath × String × FsNode) :
    keyMatches d n e = false ↔ ¬ (e.1 = d ∧ e.2.1 = n) := by
  simp [keyMatches]

theorem mem_listdir_iff {fs : FS} {d : Fpath} {n : String} :
    n ∈ fs.listdir d ↔ ∃ v, (d, n, v) ∈ fs.ents := by
  simp only [FS.listdir, List.mem_filterMap]
  constructor
  · rintro ⟨e, he, hif⟩
    by_cases h : e.1 = d
    · simp [h] at hif
      exact ⟨e.2.2, by rw [← h, ← hif]; exact he⟩
    · simp [h] at hif
  · rintro ⟨v, hv⟩
    exact ⟨(d, n, v), hv, by simp⟩

theorem name_mem_listdir {fs : FS} {e : Fpath × String × FsNode}
    (he : e ∈ fs.ents) (d : Fpath) (hd : e.1 = d) : e.2.1 ∈ fs.listdir d := by
  rw [mem_listdir_iff]
  exact ⟨e.2.2, by rw [← hd]; exact he⟩

theorem lookup_isSome_of_mem_listdir {fs : FS} {d : Fpath} {n : String}
    (h : n ∈ fs.listdir d) : ∃ v, fs.lookup d n = some v := by
  rw [mem_listdir_iff] at h
  obtain ⟨v, hv⟩ := h
  unfold FS.lookup
  cases hfind : fs.ents.find? (keyMatches d n) with
  | none =>
    rw [List.find?_eq_none] at hfind
    exact absurd (by rw [keyMatches_iff]; exact ⟨rfl, rfl⟩) (hfind _ hv)
  | some e => exact ⟨e.2.2, by simp⟩


theorem find?_filter_of_imp {α : Type} {p q : α → Bool} (l : List α)
    (h : ∀ e, p e = true → q e = true) :
    (l.filter q).find? p = l.find? p := by
  induction l with
  | nil => rfl
  | cons e t ih =>
    by_cases hp : p e = true
    · rw [List.filter_cons_of_pos (h e hp), List.find?_cons_of_pos _ hp,
        List.find?_cons_of_pos _ hp]
    · by_cases hq : q e = true
      · rw [List.filter_cons_of_pos hq, List.find?_cons_of_neg _ hp,
          List.find?_cons_of_neg _ hp]
        exact ih
      · rw [List.filter_cons_of_neg hq, List.find?_cons_of_neg _ hp]
        exact ih

theorem filterMap_filter_of_imp {α β : Type} {q : α → Bool} {f : α → Option β}
    (l : List α) (h : ∀ e, q e = false → f e = none) :
    (l.filter q).filterMap f = l.filterMap f := by
  induction l with
  | nil => rfl
  | cons e t ih =>
    by_cases hq : q e = true
    · rw [List.filter_cons_of_pos hq]
      cases hf : f e with
      | none => rw [List.filterMap_cons_none hf, List.filterMap_cons_none hf]; exact ih
      | some b => rw [List.filterMap_cons_some hf, List.filterMap_cons_some hf, ih]
    · rw [List.filter_cons_of_neg hq]
      rw [List.filterMap_cons_none (h e (Bool.not_eq_true _ ▸ hq))]
      exact ih

theorem lookup_of_mem_wf {fs : FS} (hwf : fs.Wf) {e : Fpath × String × FsNode}
    (he : e ∈ fs.ents) : fs.lookup e.1 e.2.1 = some e.2.2 := by
  obtain ⟨ents⟩ := fs
  unfold FS.Wf at hwf
  unfold FS.lookup
  simp only at *
  induction ents with
  | nil => cases he
  | cons h t ih =>
    simp only [List.map_cons, List.nodup_cons] at hwf
    rcases List.mem_cons.mp he with rfl | hmem
    · rw [List.find?_cons_of_pos _ (by rw [keyMatches_iff]; exact ⟨rfl, rfl⟩)]
      rfl
    · have hne : ¬ keyMatches e.1 e.2.1 h = true := by
        rw [keyMatches_iff]
        rintro ⟨h1, h2⟩
        exact hwf.1 (by
          rw [List.mem_map]
          exact ⟨e, hmem, by rw [h1, h2]⟩)
      rw [List.find?_cons_of_neg _ hne]
      exact ih hwf.2 hmem

theorem listdir_nodup {fs : FS} (hwf : fs.Wf) (d : Fpath) :
    (fs.listdir d).Nodup := by
  obtain ⟨ents⟩ := fs
  unfold FS.Wf at hwf
  unfold FS.listdir
  simp only at *
  induction ents with
  | nil => simp
  | cons h t ih =>
    simp only [List.map_cons, List.nodup_cons] at hwf
    by_cases hd : h.1 = d
    · have hstep : List.filterMap (fun e => if e.1 = d then some e.2.1 else none) (h :: t)
          = h.2.1 :: List.filterMap (fun e => if e.1 = d then some e.2.1 else none) t := by
        rw [List.filterMap_cons]
        simp [hd]
      rw [hstep]
      refine List.nodup_cons.mpr ⟨?_, ih hwf.2⟩
      intro hmem
      rw [List.mem_filterMap] at hmem
      obtain ⟨e, he, hif⟩ := hmem
      by_cases h1 : e.1 = d
      · have hif' : e.2.1 = h.2.1 := by
          simpa [h1] using hif
        exact hwf.1 (by
          rw [List.mem_map]
          exact ⟨e, he, by rw [h1, hif', hd]⟩)
      · simp [h1] at hif
    · rw [List.filterMap_cons_none (by simp [hd])]
      exact ih hwf.2

/-! ### Lookup and listdir across the primitive operations -/

theorem lookup_writeFile_self (fs : FS) (d : Fpath) (n : String) (c : Content) :
    (fs.writeFile d n c).lookup d n = some (FsNode.file c) := by
  unfold FS.writeFile FS.lookup
  rw [List.find?_append]
  have h1 : (fs.ents.filter (fun e => !(keyMatches d n e))).find? (keyMatches d n) = none := by
    rw [List.find?_eq_none]
    intro e he
    have := List.of_mem_filter he
    simp only [Bool.not_eq_true'] at this
    simp [this]
  rw [h1]
  simp only [Option.none_or]
  rw [List.find?_cons_of_pos _ (by rw [keyMatches_iff]; exact ⟨rfl, rfl⟩)]
  rfl

theorem lookup_writeFile_ne (fs : FS) {d : Fpath} {n : String} (c : Content)
    {d' : Fpath} {n' : String} (h : ¬ (d' = d ∧ n' = n)) :
    (fs.writeFile d n c).lookup d' n' = fs.lookup d' n' := by
  unfold FS.writeFile FS.lookup
  rw [List.find?_append]
  have h2 : List.find? (keyMatches d' n') [(d, n, FsNode.file c)] = none := by
    rw [List.find?_eq_none]
    intro e he
    simp only [List.mem_singleton] at he
    subst he
    rw [keyMatches_iff]
    simpa using fun h1 h2 => h ⟨h1.symm, h2.symm⟩
  rw [h2]
  rw [find?_filter_of_imp _ (fun e hp => by
    rw [keyMatches_iff] at hp
    simp only [Bool.not_eq_true', keyMatches_false_iff]
    rintro ⟨a, b⟩
    exact h ⟨by rw [← hp.1, a], by rw [← hp.2, b]⟩)]
  cases fs.ents.find? (keyMatches d' n') <;> simp

theorem lookup_remove_ne (fs : FS) {d : Fpath} {n : String}
    {d' : Fpath} {n' : String} (h : ¬ (d' = d ∧ n' = n)) :
    (fs.remove d n).lookup d' n' = fs.lookup d' n' := by
  unfold FS.remove FS.lookup
  rw [find?_filter_of_imp _ (fun e hp => by
    rw [keyMatches_iff] at hp
    simp only [Bool.not_eq_true', keyMatches_false_iff]
    rintro ⟨a, b⟩
    exact h ⟨by rw [← hp.1, a], by rw [← hp.2, b]⟩)]

theorem listdir_writeFile_ne (fs : FS) {d : Fpath} (n : String) (c : Content)
    {d' : Fpath} (h : d' ≠ d) :
    (fs.writeFile d n c).listdir d' = fs.listdir d' := by
  unfold FS.writeFile FS.listdir
  rw [List.filterMap_append]
  have h2 : List.filterMap (fun e => if e.1 = d' then some e.2.1 else none)
      [(d, n, FsNode.file c)] = ([] : List String) := by
    simp [Ne.symm h]
  rw [h2, List.append_nil]
  exact filterMap_filter_of_imp _ (fun e hq => by
    have hq' : e.1 = d ∧ e.2.1 = n := by
      rw [← keyMatches_iff d n e]
      simpa using hq
    simp [hq'.1, Ne.symm h])

theorem listdir_remove_ne (fs : FS) {d : Fpath} (n : String)
    {d' : Fpath} (h : d' ≠ d) :
    (fs.remove d n).listdir d' = fs.listdir d' := by
  unfold FS.remove FS.listdir
  exact filterMap_filter_of_imp _ (fun e hq => by
    have hq' : e.1 = d ∧ e.2.1 = n := by
      rw [← keyMatches_iff d n e]
      simpa using hq
    simp [hq'.1, Ne.symm h])

theorem mkdirOne_some_preserve {fs fs' : FS} {d : Fpath} {n : String}
    (h : fs.mkdirOne d n = Except.ok fs') {d' : Fpath} {n' : String} {v : FsNode}
    (hv : fs.lookup d' n' = some v) : fs'.lookup d' n' = some v := by
  unfold FS.mkdirOne at h
  cases hl : fs.lookup d n with
  | some w =>
    rw [hl] at h
    cases w with
    | dir =>
      simp only [Except.ok.injEq] at h
      rw [← h]
      exact hv
    | file c => cases h
  | none =>
    rw [hl] at h
    simp only [Except.ok.injEq] at h
    rw [← h]
    unfold FS.lookup at hv ⊢
    rw [List.find?_append]
    cases hfind : fs.ents.find? (keyMatches d' n') with
    | none => rw [hfind] at hv; cases hv
    | some e => rw [hfind] at hv; simpa using hv

theorem mkdirOne_lookup_ne {fs fs' : FS} {d : Fpath} {n : String}
    (h : fs.mkdirOne d n = Except.ok fs') {d' : Fpath} {n' : String}
    (hne : ¬ (d' = d ∧ n' = n)) : fs'.lookup d' n' = fs.lookup d' n' := by
  unfold FS.mkdirOne at h
  cases hl : fs.lookup d n with
  | some w =>
    rw [hl] at h
    cases w with
    | dir => simp only [Except.ok.injEq] at h; rw [← h]
    | file c => cases h
  | none =>
    rw [hl] at h
    simp only [Except.ok.injEq] at h
    rw [← h]
    unfold FS.lookup
    rw [List.find?_append]
    have h2 : List.find? (keyMatches d' n') [(d, n, FsNode.dir)] = none := by
      rw [List.find?_eq_none]
      intro e he
      simp only [List.mem_singleton] at he
      subst he
      rw [keyMatches_iff]
      simpa using fun h1 h2 => hne ⟨h1.symm, h2.symm⟩
    rw [h2]
    cases fs.ents.find? (keyMatches d' n') <;> simp

theorem mkdirOne_listdir_ne {fs fs' : FS} {d : Fpath} {n : String}
    (h : fs.mkdirOne d n = Except.ok fs') {d' : Fpath} (hne : d' ≠ d) :
    fs'.listdir d' = fs.listdir d' := by
  unfold FS.mkdirOne at h
  cases hl : fs.lookup d n with
  | some w =>
    rw [hl] at h
    cases w with
    | dir => simp only [Except.ok.injEq] at h; rw [← h]
    | file c => cases h
  | none =>
    rw [hl] at h
    simp only [Except.ok.injEq] at h
    rw [← h]
    unfold FS.listdir
    rw [List.filterMap_append]
    have h2 : List.filterMap (fun e => if e.1 = d' then some e.2.1 else none)
        [(d, n, FsNode.dir)] = ([] : List String) := by
      simp [Ne.symm hne]
    rw [h2, List.append_nil]

theorem mkdirOne_self {fs fs' : FS} {d : Fpath} {n : String}
    (h : fs.mkdirOne d n = Except.ok fs') : fs'.lookup d n = some FsNode.dir := by
  unfold FS.mkdirOne at h
  cases hl : fs.lookup d n with
  | some w =>
    rw [hl] at h
    cases w with
    | dir => simp only [Except.ok.injEq] at h; rw [← h]; exact hl
    | file c => cases h
  | none =>
    rw [hl] at h
    simp only [Except.ok.injEq] at h
    rw [← h]
    unfold FS.lookup at hl ⊢
    rw [List.find?_append]
    cases hfind : fs.ents.find? (keyMatches d n) with
    | none =>
      simp only [hfind, Option.none_or]
      rw [List.find?_cons_of_pos _ (by rw [keyMatches_iff]; exact ⟨rfl, rfl⟩)]
      rfl
    | some e => rw [hfind] at hl; cases hl

theorem mkdirOne_wf {fs fs' : FS} {d : Fpath} {n : String}
    (hwf : fs.Wf) (h : fs.mkdirOne d n = Except.ok fs') : fs'.Wf := by
  unfold FS.mkdirOne at h
  cases hl : fs.lookup d n with
  | some w =>
    rw [hl] at h
    cases w with
    | dir => simp only [Except.ok.injEq] at h; rw [← h]; exact hwf
    | file c => cases h
  | none =>
    rw [hl] at h
    simp only [Except.ok.injEq] at h
    rw [← h]
    unfold FS.Wf at hwf ⊢
    simp only [List.map_append, List.map_cons, List.map_nil]
    rw [List.nodup_append]
    refine ⟨hwf, List.nodup_singleton _, ?_⟩
    intro k hk hk2
    simp only [List.mem_singleton] at hk2
    subst hk2
    rw [List.mem_map] at hk
    obtain ⟨e, he, hke⟩ := hk
    unfold FS.lookup at hl
    cases hfind : fs.ents.find? (keyMatches d n) with
    | some x => rw [hfind] at hl; cases hl
    | none =>
      rw [List.find?_eq_none] at hfind
      exact hfind e he (by
        rw [keyMatches_iff]
        exact ⟨congrArg Prod.fst hke, congrArg Prod.snd hke⟩)

theorem makedirsAux_some_preserve {comps : List String} : ∀ {fs fs' : FS} {base : Fpath},
    fs.makedirsAux base comps = Except.ok fs' →
    ∀ {d' : Fpath} {n' : String} {v : FsNode},
    fs.lookup d' n' = some v → fs'.lookup d' n' = some v := by
  induction comps with
  | nil =>
    intro fs fs' base h d' n' v hv
    unfold FS.makedirsAux at h
    simp only [Except.ok.injEq] at h
    rw [← h]
    exact hv
  | cons c rest ih =>
    intro fs fs' base h d' n' v hv
    unfold FS.makedirsAux at h
    cases hmk : fs.mkdirOne base c with
    | error e => rw [hmk] at h; cases h
    | ok fs1 =>
      rw [hmk] at h
      exact ih h (mkdirOne_some_preserve hmk hv)

theorem makedirsAux_lookup_untouched {comps : List String} : ∀ {fs fs' : FS} {base : Fpath},
    fs.makedirsAux base comps = Except.ok fs' →
    ∀ {d' : Fpath}, (∀ i, i < comps.length → d' ≠ base ++ comps.take i) →
    ∀ (n' : String), fs'.lookup d' n' = fs.lookup d' n' := by
  induction comps with
  | nil =>
    intro fs fs' base h d' _ n'
    unfold FS.makedirsAux at h
    simp only [Except.ok.injEq] at h
    rw [← h]
  | cons c rest ih =>
    intro fs fs' base h d' hc n'
    unfold FS.makedirsAux at h
    cases hmk : fs.mkdirOne base c with
    | error e => rw [hmk] at h; cases h
    | ok fs1 =>
      rw [hmk] at h
      have h0 : d' ≠ base := by
        have := hc 0 (by simp)
        simpa using this
      have hrest : ∀ i, i < rest.length → d' ≠ (base ++ [c]) ++ rest.take i := by
        intro i hi
        have := hc (i + 1) (by simp; omega)
        simpa [List.append_assoc] using this
      rw [ih h hrest, mkdirOne_lookup_ne hmk (fun hcon => h0 hcon.1)]

theorem makedirsAux_listdir_untouched {comps : List String} : ∀ {fs fs' : FS} {base : Fpath},
    fs.makedirsAux base comps = Except.ok fs' →
    ∀ {d' : Fpath}, (∀ i, i < comps.length → d' ≠ base ++ comps.take i) →
    fs'.listdir d' = fs.listdir d' := by
  induction comps with
  | nil =>
    intro fs fs' base h d' _
    unfold FS.makedirsAux at h
    simp only [Except.ok.injEq] at h
    rw [← h]
  | cons c rest ih =>
    intro fs fs' base h d' hc
    unfold FS.makedirsAux at h
    cases hmk : fs.mkdirOne base c with
    | error e => rw [hmk] at h; cases h
    | ok fs1 =>
      rw [hmk] at h
      have h0 : d' ≠ base := by
        have := hc 0 (by simp)
        simpa using this
      have hrest : ∀ i, i < rest.length → d' ≠ (base ++ [c]) ++ rest.take i := by
        intro i hi
        have := hc (i + 1) (by simp; omega)
        simpa [List.append_assoc] using this
      rw [ih h hrest, mkdirOne_listdir_ne hmk h0]

theorem makedirsAux_creates {comps : List String} : ∀ {fs fs' : FS} {base : Fpath},
    fs.makedirsAux base comps = Except.ok fs' →
    ∀ {pre : List String} {c : String} {rest : List String},
    comps = pre ++ c :: rest → fs'.lookup (base ++ pre) c = some FsNode.dir := by
  induction comps with
  | nil =>
    intro fs fs' base h pre c rest hsplit
    cases pre <;> cases hsplit
  | cons c0 rest0 ih =>
    intro fs fs' base h pre c rest hsplit
    unfold FS.makedirsAux at h
    cases hmk : fs.mkdirOne base c0 with
    | error e => rw [hmk] at h; cases h
    | ok fs1 =>
      rw [hmk] at h
      cases pre with
      | nil =>
        simp only [List.nil_append] at hsplit
        injection hsplit with h1 h2
        subst h1
        rw [List.append_nil]
        exact makedirsAux_some_preserve h (mkdirOne_self hmk)
      | cons p ps =>
        simp only [List.cons_append] at hsplit
        injection hsplit with h1 h2
        subst h1
        have := ih h h2
        rwa [List.append_assoc, List.singleton_append] at this

theorem makedirsAux_wf {comps : List String} : ∀ {fs fs' : FS} {base : Fpath},
    fs.Wf → fs.makedirsAux base comps = Except.ok fs' → fs'.Wf := by
  induction comps with
  | nil =>
    intro fs fs' base hwf h
    unfold FS.makedirsAux at h
    simp only [Except.ok.injEq] at h
    rw [← h]
    exact hwf
  | cons c rest ih =>
    intro fs fs' base hwf h
    unfold FS.makedirsAux at h
    cases hmk : fs.mkdirOne base c with
    | error e => rw [hmk] at h; cases h
    | ok fs1 =>
      rw [hmk] at h
      exact ih (mkdirOne_wf hwf hmk) h

theorem makedirs_some_preserve {fs fs' : FS} {p : Fpath}
    (h : fs.makedirs p = Except.ok fs') {d' : Fpath} {n' : String} {v : FsNode}
    (hv : fs.lookup d' n' = some v) : fs'.lookup d' n' = some v :=
  makedirsAux_some_preserve h hv

theorem makedirs_lookup_untouched {fs fs' : FS} {p : Fpath}
    (h : fs.makedirs p = Except.ok fs') {d' : Fpath}
    (hc : ∀ i, i < p.length → d' ≠ p.take i) (n' : String) :
    fs'.lookup d' n' = fs.lookup d' n' :=
  makedirsAux_lookup_untouched h (by simpa using hc) n'

theorem makedirs_listdir_untouched {fs fs' : FS} {p : Fpath}
    (h : fs.makedirs p = Except.ok fs') {d' : Fpath}
    (hc : ∀ i, i < p.length → d' ≠ p.take i) :
    fs'.listdir d' = fs.listdir d' :=
  makedirsAux_listdir_untouched h (by simpa using hc)

theorem makedirs_creates_last {fs fs' : FS} {t : Fpath} {c : String}
    (h : fs.makedirs (t ++ [c]) = Except.ok fs') :
    fs'.lookup t c = some FsNode.dir := by
  have := makedirsAux_creates h (show t ++ [c] = t ++ c :: [] by rfl)
  simpa using this

theorem makedirs_wf {fs fs' : FS} {p : Fpath} (hwf : fs.Wf)
    (h : fs.makedirs p = Except.ok fs') : fs'.Wf :=
  makedirsAux_wf hwf h

theorem writeFile_wf {fs : FS} (hwf : fs.Wf) (d : Fpath) (n : String) (c : Content) :
    (fs.writeFile d n c).Wf := by
  unfold FS.writeFile FS.Wf at *
  rw [List.map_append]
  rw [List.nodup_append]
  refine ⟨List.Nodup.sublist (List.Sublist.map _ (List.filter_sublist _)) hwf, by simp, ?_⟩
  intro k hk hk2
  simp only [List.map_cons, List.map_nil, List.mem_singleton] at hk2
  subst hk2
  rw [List.mem_map] at hk
  obtain ⟨e, he, hke⟩ := hk
  have hfil := List.of_mem_filter he
  simp only [Bool.not_eq_true'] at hfil
  rw [keyMatches_false_iff] at hfil
  exact hfil ⟨congrArg Prod.fst hke, congrArg Prod.snd hke⟩

theorem remove_wf {fs : FS} (hwf : fs.Wf) (d : Fpath) (n : String) :
    (fs.remove d n).Wf := by
  unfold FS.remove FS.Wf at *
  exact List.Nodup.sublist (List.Sublist.map _ (List.filter_sublist _)) hwf

/-! ### Untouched-key conditions from subtree separation -/

theorem untouched_cond_of_sep {src tgt d' : Fpath} (hsep : sepPaths src tgt)
    (hd : pathLE src d') (c : String) :
    ∀ i, i < (tgt ++ [c]).length → d' ≠ (tgt ++ [c]).take i := by
  intro i hi hcon
  rw [hcon] at hd
  exact sep_not_le_child hsep c (pathLE_of_take hd)

theorem untouched_cond_child {t t' : Fpath} (hsep : sepPaths t' t) (x c : String) :
    ∀ i, i < (t ++ [c]).length → t' ++ [x] ≠ (t ++ [c]).take i := by
  intro i hi hcon
  have hle : pathLE t' ((t ++ [c]).take i) := by
    rw [← hcon]
    exact pathLE_append_one t' x
  exact sep_not_le_child hsep c (pathLE_of_take hle)

theorem untouched_cond_same {t : Fpath} (x c : String) :
    ∀ i, i < (t ++ [c]).length → t ++ [x] ≠ (t ++ [c]).take i := by
  intro i hi hcon
  have hlen := congrArg List.length hcon
  simp only [List.length_append, List.length_take, List.length_cons,
    List.length_nil] at hlen
  simp only [List.length_append, List.length_cons, List.length_nil] at hi
  omega

/-! ### Pure lemmas about the split arithmetic and shuffles -/

theorem nth_range_filterMap {α : Type} (l : List α) :
    (List.range l.length).filterMap (nth l) = l := by
  induction l with
  | nil => rfl
  | cons a t ih =>
    rw [List.length_cons, List.range_succ_eq_map]
    rw [List.filterMap_cons_some (show nth (a :: t) 0 = some a from rfl)]
    rw [List.filterMap_map]
    have hcomp : (nth (a :: t) ∘ Nat.succ) = nth t := funext (fun i => rfl)
    rw [hcomp, ih]

theorem applyPerm_perm {α : Type} {l : List α} {perm : List Nat}
    (h : perm.Perm (List.range l.length)) : (applyPerm l perm).Perm l := by
  unfold applyPerm
  have h2 := List.Perm.filterMap (nth l) h
  rwa [nth_range_filterMap] at h2

theorem applyPerm_length {α : Type} {l : List α} {perm : List Nat}
    (h : perm.Perm (List.range l.length)) : (applyPerm l perm).length = l.length :=
  (applyPerm_perm h).length_eq

theorem tts_ok_elim {α : Type} {l : List α} {counts : Nat × Nat} {p : List Nat}
    {A B : List α} (h : train_test_split l counts p = Except.ok (A, B)) :
    counts.1 ≠ 0 ∧ counts.2 ≠ 0 ∧
    A = ((applyPerm l p).drop counts.2).take counts.1 ∧
    B = (applyPerm l p).take counts.2 := by
  unfold train_test_split at h
  by_cases hc : counts.1 = 0 ∨ counts.2 = 0
  · rw [if_pos hc] at h; cases h
  · rw [if_neg hc] at h
    push_neg at hc
    simp only [Except.ok.injEq, Prod.mk.injEq] at h
    exact ⟨hc.1, hc.2, h.1.symm, h.2.symm⟩

theorem tts_perm {α : Type} {l : List α} {counts : Nat × Nat} {p : List Nat}
    {A B : List α} (h : train_test_split l counts p = Except.ok (A, B))
    (hperm : p.Perm (List.range l.length))
    (hsum : counts.1 + counts.2 = l.length) : (B ++ A).Perm l := by
  obtain ⟨h1, h2, hA, hB⟩ := tts_ok_elim h
  have hlen : (applyPerm l p).length = l.length := applyPerm_length hperm
  have hdroplen : ((applyPerm l p).drop counts.2).length = counts.1 := by
    rw [List.length_drop, hlen]
    omega
  have hAfull : A = (applyPerm l p).drop counts.2 := by
    rw [hA]
    exact List.take_of_length_le (le_of_eq hdroplen)
  rw [hAfull, hB, List.take_append_drop]
  exact applyPerm_perm hperm

theorem tts_lengths {α : Type} {l : List α} {counts : Nat × Nat} {p : List Nat}
    {A B : List α} (h : train_test_split l counts p = Except.ok (A, B))
    (hperm : p.Perm (List.range l.length))
    (hsum : counts.1 + counts.2 = l.length) :
    A.length = counts.1 ∧ B.length = counts.2 := by
  obtain ⟨h1, h2, hA, hB⟩ := tts_ok_elim h
  have hlen : (applyPerm l p).length = l.length := applyPerm_length hperm
  constructor
  · rw [hA, List.length_take, List.length_drop, hlen]
    omega
  · rw [hB, List.length_take, hlen]
    omega

theorem splitCountsTrain_sum {n : Nat} {f : ℚ}
    (h : (splitCountsTrain n f).2 ≠ 0) :
    (splitCountsTrain n f).1 + (splitCountsTrain n f).2 = n := by
  unfold splitCountsTrain at *
  simp only at *
  omega

theorem splitCountsTest_sum {n : Nat} {t : ℚ}
    (h : (splitCountsTest n t).1 ≠ 0) :
    (splitCountsTest n t).1 + (splitCountsTest n t).2 = n := by
  unfold splitCountsTest at *
  simp only at *
  omega

theorem splitClass_ok_elim {images : List String} {r1 r2 : ℚ}
    {pa : List Nat} {pb : Nat → List Nat}
    {T V Te : List String}
    (h : splitClass images r1 r2 pa pb = Except.ok (T, V, Te)) :
    ∃ temp,
      train_test_split images (splitCountsTrain images.length r1) pa
        = Except.ok (T, temp) ∧
      train_test_split temp
        (splitCountsTest temp.length (computedTestSize r1 r2)) (pb temp.length)
        = Except.ok (V, Te) := by
  unfold splitClass at h
  cases h1 : train_test_split images (splitCountsTrain images.length r1) pa with
  | error e =>
    simp only [h1] at h
    exact Except.noConfusion h
  | ok p1 =>
    obtain ⟨T1, temp⟩ := p1
    simp only [h1] at h
    cases h2 : train_test_split temp
        (splitCountsTest temp.length (computedTestSize r1 r2)) (pb temp.length) with
    | error e =>
      simp only [h2] at h
      exact Except.noConfusion h
    | ok p2 =>
      obtain ⟨V1, Te1⟩ := p2
      simp only [h2, Except.ok.injEq, Prod.mk.injEq] at h
      obtain ⟨hT, hV, hTe⟩ := h
      subst hT hV hTe
      exact ⟨temp, rfl, h2⟩

theorem splitClass_perm {images : List String} {r1 r2 : ℚ}
    {pa : List Nat} {pb : Nat → List Nat} {T V Te : List String}
    (h : splitClass images r1 r2 pa pb = Except.ok (T, V, Te))
    (hpa : pa.Perm (List.range images.length))
    (hpb : ∀ m, (pb m).Perm (List.range m)) :
    ((Te ++ V) ++ T).Perm images := by
  obtain ⟨temp, h1, h2⟩ := splitClass_ok_elim h
  have e1 := tts_ok_elim h1
  have hsum1 : (splitCountsTrain images.length r1).1
      + (splitCountsTrain images.length r1).2 = images.length :=
    splitCountsTrain_sum e1.2.1
  have hp1 : (temp ++ T).Perm images := tts_perm h1 hpa hsum1
  have e2 := tts_ok_elim h2
  have hsum2 : (splitCountsTest temp.length (computedTestSize r1 r2)).1
      + (splitCountsTest temp.length (computedTestSize r1 r2)).2 = temp.length :=
    splitCountsTest_sum e2.1
  have hp2 : (Te ++ V).Perm temp := tts_perm h2 (hpb temp.length) hsum2
  exact (hp2.append_right T).trans hp1

theorem splitClass_parts {images : List String} {r1 r2 : ℚ}
    {pa : List Nat} {pb : Nat → List Nat} {T V Te : List String}
    (h : splitClass images r1 r2 pa pb = Except.ok (T, V, Te))
    (hpa : pa.Perm (List.range images.length))
    (hpb : ∀ m, (pb m).Perm (List.range m))
    (hnodup : images.Nodup) :
    (∀ x, x ∈ images ↔ x ∈ T ∨ x ∈ V ∨ x ∈ Te) ∧
    (∀ x, x ∈ T → x ∉ V) ∧ (∀ x, x ∈ T → x ∉ Te) ∧ (∀ x, x ∈ V → x ∉ Te) := by
  have hperm := splitClass_perm h hpa hpb
  have hnd : ((Te ++ V) ++ T).Nodup := hperm.symm.nodup hnodup
  rw [List.nodup_append, List.nodup_append] at hnd
  refine ⟨?_, ?_, ?_, ?_⟩
  · intro x
    rw [← hperm.mem_iff]
    simp only [List.mem_append]
    tauto
  · intro x hT hV
    exact hnd.2.2 (List.mem_append.mpr (Or.inr hV)) hT
  · intro x hT hTe
    exact hnd.2.2 (List.mem_append.mpr (Or.inl hTe)) hT
  · intro x hV hTe
    exact hnd.1.2.2 hTe hV

theorem splitClass_nonempty {images : List String} {r1 r2 : ℚ}
    {pa : List Nat} {pb : Nat → List Nat} {T V Te : List String}
    (h : splitClass images r1 r2 pa pb = Except.ok (T, V, Te))
    (hpa : pa.Perm (List.range images.length))
    (hpb : ∀ m, (pb m).Perm (List.range m)) :
    T ≠ [] ∧ V ≠ [] ∧ Te ≠ [] := by
  obtain ⟨temp, h1, h2⟩ := splitClass_ok_elim h
  have e1 := tts_ok_elim h1
  have hsum1 := splitCountsTrain_sum e1.2.1
  have l1 := tts_lengths h1 hpa hsum1
  have e2 := tts_ok_elim h2
  have hsum2 := splitCountsTest_sum e2.1
  have l2 := tts_lengths h2 (hpb temp.length) hsum2
  refine ⟨?_, ?_, ?_⟩
  · intro hcon
    rw [hcon] at l1
    exact e1.1 l1.1.symm
  · intro hcon
    rw [hcon] at l2
    exact e2.1 l2.1.symm
  · intro hcon
    rw [hcon] at l2
    exact e2.2.1 l2.2.symm

theorem splitClass_train_indep (images : List String) (r1 r2 : ℚ)
    (pa : List Nat) (pb pb' : Nat → List Nat) :
    (splitClass images r1 r2 pa pb).map (fun t => t.1)
      = (splitClass images r1 r2 pa pb').map (fun t => t.1) := by
  unfold splitClass
  cases h1 : train_test_split images (splitCountsTrain images.length r1) pa with
  | error e => simp only [h1]
  | ok p1 =>
    obtain ⟨T, temp⟩ := p1
    simp only [h1]
    unfold train_test_split
    by_cases hc : (splitCountsTest temp.length (computedTestSize r1 r2)).1 = 0 ∨
        (splitCountsTest temp.length (computedTestSize r1 r2)).2 = 0
    · rw [if_pos hc]
      rw [if_pos hc]
    · rw [if_neg hc]
      rw [if_neg hc]
      rfl

unseal Rat.mul Rat.inv Rat.sub Rat.add in
theorem splitClass_small_err (images : List String)
    (pa : List Nat) (pb : Nat → List Nat) (hlen : images.length < 2) :
    splitClass images (7/10) (2/10) pa pb
      = Except.error "ValueError: one of the resulting splits would be empty" := by
  unfold splitClass
  have hcounts : (splitCountsTrain images.length (7/10)).1 = 0 := by
    interval_cases h : images.length
    · decide
    · decide
  clear hlen
  have herr : train_test_split images (splitCountsTrain images.length (7/10)) pa
      = Except.error "ValueError: one of the resulting splits would be empty" := by
    unfold train_test_split
    rw [if_pos (Or.inl hcounts)]
  simp only [herr]

/-! ### Lookup and listdir over entry filters -/

theorem filterMap_listdir_cons_some {d : Fpath} (e : Fpath × String × FsNode)
    (t : List (Fpath × String × FsNode)) (hd : e.1 = d) :
    List.filterMap (fun x => if x.1 = d then some x.2.1 else none) (e :: t)
      = e.2.1 :: List.filterMap (fun x => if x.1 = d then some x.2.1 else none) t := by
  rw [List.filterMap_cons]
  simp [hd]

theorem filterMap_listdir_cons_none {d : Fpath} (e : Fpath × String × FsNode)
    (t : List (Fpath × String × FsNode)) (hd : ¬ e.1 = d) :
    List.filterMap (fun x => if x.1 = d then some x.2.1 else none) (e :: t)
      = List.filterMap (fun x => if x.1 = d then some x.2.1 else none) t := by
  rw [List.filterMap_cons]
  simp [hd]

theorem listdir_filter_eq {fs : FS} {p : (Fpath × String × FsNode) → Bool} {d : Fpath}
    {q : String → Bool} (h : ∀ e ∈ fs.ents, e.1 = d → p e = q e.2.1) :
    FS.listdir ⟨fs.ents.filter p⟩ d = (fs.listdir d).filter q := by
  obtain ⟨ents⟩ := fs
  simp only at h
  unfold FS.listdir
  simp only
  induction ents with
  | nil => rfl
  | cons e t ih =>
    have ht := fun e' he' => h e' (List.mem_cons.mpr (Or.inr he'))
    have he := h e (List.mem_cons.mpr (Or.inl rfl))
    by_cases hd : e.1 = d
    · rw [filterMap_listdir_cons_some e t hd]
      by_cases hp : p e = true
      · rw [List.filter_cons_of_pos hp]
        rw [filterMap_listdir_cons_some e (List.filter p t) hd]
        rw [List.filter_cons_of_pos (by rw [← he hd]; exact hp)]
        rw [ih ht]
      · rw [List.filter_cons_of_neg hp]
        rw [List.filter_cons_of_neg (by rw [← he hd]; exact hp)]
        exact ih ht
    · by_cases hp : p e = true
      · rw [List.filter_cons_of_pos hp]
        rw [filterMap_listdir_cons_none e (List.filter p t) hd]
        rw [filterMap_listdir_cons_none e t hd]
        exact ih ht
      · rw [List.filter_cons_of_neg hp]
        rw [filterMap_listdir_cons_none e t hd]
        exact ih ht

theorem listdir_filter_all_true {fs : FS} {p : (Fpath × String × FsNode) → Bool}
    {d : Fpath} (h : ∀ e ∈ fs.ents, e.1 = d → p e = true) :
    FS.listdir ⟨fs.ents.filter p⟩ d = fs.listdir d := by
  rw [listdir_filter_eq (q := fun _ => true) h]
  exact List.filter_true _

theorem lookup_filter_eq {fs : FS} {p : (Fpath × String × FsNode) → Bool}
    {d : Fpath} {n : String}
    (h : ∀ e ∈ fs.ents, keyMatches d n e = true → p e = true) :
    FS.lookup ⟨fs.ents.filter p⟩ d n = fs.lookup d n := by
  obtain ⟨ents⟩ := fs
  simp only at h
  unfold FS.lookup
  simp only
  induction ents with
  | nil => rfl
  | cons e t ih =>
    have ht := fun e' he' => h e' (List.mem_cons.mpr (Or.inr he'))
    have he := h e (List.mem_cons.mpr (Or.inl rfl))
    by_cases hk : keyMatches d n e = true
    · rw [List.filter_cons_of_pos (he hk)]
      rw [List.find?_cons_of_pos _ hk, List.find?_cons_of_pos _ hk]
    · by_cases hp : p e = true
      · rw [List.filter_cons_of_pos hp]
        rw [List.find?_cons_of_neg _ hk, List.find?_cons_of_neg _ hk]
        exact ih ht
      · rw [List.filter_cons_of_neg hp]
        rw [List.find?_cons_of_neg _ hk]
        exact ih ht

theorem lookup_filter_none {fs : FS} {p : (Fpath × String × FsNode) → Bool}
    {d : Fpath} {n : String}
    (h : ∀ e ∈ fs.ents, keyMatches d n e = true → p e = false) :
    FS.lookup ⟨fs.ents.filter p⟩ d n = none := by
  obtain ⟨ents⟩ := fs
  simp only at h
  unfold FS.lookup
  simp only
  induction ents with
  | nil => rfl
  | cons e t ih =>
    have ht := fun e' he' => h e' (List.mem_cons.mpr (Or.inr he'))
    have he := h e (List.mem_cons.mpr (Or.inl rfl))
    by_cases hk : keyMatches d n e = true
    · rw [List.filter_cons_of_neg (by rw [he hk]; simp)]
      exact ih ht
    · by_cases hp : p e = true
      · rw [List.filter_cons_of_pos hp]
        rw [List.find?_cons_of_neg _ hk]
        exact ih ht
      · rw [List.filter_cons_of_neg hp]
        exact ih ht

theorem filter_wf {fs : FS} (hwf : fs.Wf) (p : (Fpath × String × FsNode) → Bool) :
    FS.Wf ⟨fs.ents.filter p⟩ :=
  List.Nodup.sublist (List.Sublist.map _ (List.filter_sublist _)) hwf

/-! ### The cleaning pass -/

/-- Which entries survive cleaning the names `L` of the class path `cp`:
everything except invalid files of `cp` listed in `L`. -/
def cleanKeepL (cp : Fpath) (L : List String) (e : Fpath × String × FsNode) : Bool :=
  !(decide (e.1 = cp) && decide (e.2.1 ∈ L) && decide (e.2.2 = FsNode.file Content.invalid))

theorem clean_inner {src : Fpath} {className : String} (L : List String) :
    ∀ st : PassSt, st.fs.Wf → st.err = none → L.Nodup →
    (∀ n ∈ L, ∃ cnt, st.fs.lookup (src ++ [className]) n = some (FsNode.file cnt)) →
    (L.foldl (cleanFileStep src className) st).err = none ∧
    (L.foldl (cleanFileStep src className) st).fs.ents
      = st.fs.ents.filter (cleanKeepL (src ++ [className]) L) ∧
    (L.foldl (cleanFileStep src className) st).logs
      = st.logs ++ (L.filter (fun n => decide (st.fs.lookup (src ++ [className]) n
          = some (FsNode.file Content.invalid)))).map (fun n => src ++ [className, n]) := by
  induction L with
  | nil =>
    intro st hwf herr _ _
    rw [List.foldl_nil]
    refine ⟨herr, ?_, by simp⟩
    have hall : ∀ e ∈ st.fs.ents, cleanKeepL (src ++ [className]) [] e = (fun _ => true) e := by
      intro e _
      simp [cleanKeepL]
    exact ((List.filter_congr hall).trans (List.filter_true _)).symm
  | cons n L' ih =>
    intro st hwf herr hnd hval
    rw [List.foldl_cons]
    obtain ⟨cnt, hlook⟩ := hval n (List.mem_cons.mpr (Or.inl rfl))
    have hndL' : L'.Nodup := (List.nodup_cons.mp hnd).2
    have hnmem : n ∉ L' := (List.nodup_cons.mp hnd).1
    cases cnt with
    | image w h =>
      have hstep : cleanFileStep src className st n = st := by
        unfold cleanFileStep
        rw [herr]
        simp [hlook]
      rw [hstep]
      have hval' : ∀ m ∈ L', ∃ cnt, st.fs.lookup (src ++ [className]) m
          = some (FsNode.file cnt) :=
        fun m hm => hval m (List.mem_cons.mpr (Or.inr hm))
      obtain ⟨e1, e2, e3⟩ := ih st hwf herr hndL' hval'
      refine ⟨e1, ?_, ?_⟩
      · rw [e2]
        apply List.filter_congr
        intro e he
        by_cases hdp : e.1 = src ++ [className]
        · by_cases hname : e.2.1 = n
          · have hx := lookup_of_mem_wf hwf he
            rw [hdp, hname] at hx
            have hnode : e.2.2 = FsNode.file (Content.image w h) :=
              Option.some.inj (hx.symm.trans hlook)
            simp [cleanKeepL, hdp, hname, hnode]
          · simp [cleanKeepL, hdp, hname, List.mem_cons]
        · simp [cleanKeepL, hdp]
      · rw [e3]
        have hcons : List.filter (fun m => decide (st.fs.lookup (src ++ [className]) m
              = some (FsNode.file Content.invalid))) (n :: L')
            = List.filter (fun m => decide (st.fs.lookup (src ++ [className]) m
              = some (FsNode.file Content.invalid))) L' := by
          rw [List.filter_cons]
          simp [hlook]
        rw [hcons]
    | invalid =>
      have hstep : cleanFileStep src className st n =
          { st with fs := st.fs.remove (src ++ [className]) n,
                    logs := st.logs ++ [src ++ [className, n]] } := by
        unfold cleanFileStep
        rw [herr]
        simp [hlook]
      rw [hstep]
      have hwf' : (st.fs.remove (src ++ [className]) n).Wf := remove_wf hwf _ _
      have hval' : ∀ m ∈ L', ∃ cnt,
          (st.fs.remove (src ++ [className]) n).lookup (src ++ [className]) m
            = some (FsNode.file cnt) := by
        intro m hm
        rw [lookup_remove_ne st.fs (fun hc => hnmem (by rw [← hc.2]; exact hm))]
        exact hval m (List.mem_cons.mpr (Or.inr hm))
      obtain ⟨e1, e2, e3⟩ := ih
        { st with fs := st.fs.remove (src ++ [className]) n,
                  logs := st.logs ++ [src ++ [className, n]] } hwf' herr hndL' hval'
      refine ⟨e1, ?_, ?_⟩
      · rw [e2]
        show (FS.remove st.fs (src ++ [className]) n).ents.filter
          (cleanKeepL (src ++ [className]) L') = _
        unfold FS.remove
        rw [List.filter_filter]
        apply List.filter_congr
        intro e he
        by_cases hdp : e.1 = src ++ [className]
        · by_cases hname : e.2.1 = n
          · have hx := lookup_of_mem_wf hwf he
            rw [hdp, hname] at hx
            have hnode : e.2.2 = FsNode.file Content.invalid :=
              Option.some.inj (hx.symm.trans hlook)
            simp [cleanKeepL, keyMatches, hdp, hname, hnode]
          · simp [cleanKeepL, keyMatches, hdp, hname, List.mem_cons]
        · simp [cleanKeepL, keyMatches, hdp]
      · rw [e3]
        show (st.logs ++ [src ++ [className, n]]) ++ (L'.filter (fun m =>
            decide ((st.fs.remove (src ++ [className]) n).lookup (src ++ [className]) m
              = some (FsNode.file Content.invalid)))).map (fun m => src ++ [className, m]) = _
        have hfilters : L'.filter (fun m =>
            decide ((st.fs.remove (src ++ [className]) n).lookup (src ++ [className]) m
              = some (FsNode.file Content.invalid)))
            = L'.filter (fun m => decide (st.fs.lookup (src ++ [className]) m
              = some (FsNode.file Content.invalid))) := by
          apply List.filter_congr
          intro m hm
          rw [lookup_remove_ne st.fs (fun hc => hnmem (by rw [← hc.2]; exact hm))]
        rw [hfilters]
        have hcons : List.filter (fun m => decide (st.fs.lookup (src ++ [className]) m
              = some (FsNode.file Content.invalid))) (n :: L')
            = n :: List.filter (fun m => decide (st.fs.lookup (src ++ [className]) m
              = some (FsNode.file Content.invalid))) L' := by
          rw [List.filter_cons]
          simp [hlook]
        rw [hcons]
        simp [List.append_assoc]

theorem cleanClassStep_spec (src : Fpath) (c : String) (st : PassSt)
    (hwf : st.fs.Wf) (herr : st.err = none)
    (hflat : st.fs.isdir src c = true →
      ∀ n, st.fs.lookup (src ++ [c]) n ≠ some FsNode.dir) :
    (cleanClassStep src st c).err = none ∧
    (cleanClassStep src st c).fs.ents
      = st.fs.ents.filter (fun e => !(decide (st.fs.isdir src c = true)
          && decide (e.1 = src ++ [c]) && decide (e.2.2 = FsNode.file Content.invalid))) ∧
    (cleanClassStep src st c).logs
      = st.logs ++ (if st.fs.isdir src c = true then
          ((st.fs.listdir (src ++ [c])).filter (fun n =>
            decide (st.fs.lookup (src ++ [c]) n = some (FsNode.file Content.invalid)))).map
              (fun n => src ++ [c, n])
          else []) := by
  unfold cleanClassStep
  rw [herr]
  simp only [Option.isSome_none, Bool.false_eq_true, if_false]
  cases hdir : st.fs.isdir src c with
  | false =>
    simp only [Bool.false_eq_true, if_false]
    refine ⟨herr, ?_, by simp⟩
    have hall : ∀ e ∈ st.fs.ents, (fun e => !(decide (False)
        && decide (e.1 = src ++ [c]) && decide (e.2.2 = FsNode.file Content.invalid))) e
        = (fun _ => true) e := by
      intro e _
      simp
    exact ((List.filter_congr hall).trans (List.filter_true _)).symm
  | true =>
    simp only [if_true]
    have hnd : (st.fs.listdir (src ++ [c])).Nodup := listdir_nodup hwf _
    have hval : ∀ n ∈ st.fs.listdir (src ++ [c]), ∃ cnt,
        st.fs.lookup (src ++ [c]) n = some (FsNode.file cnt) := by
      intro n hn
      obtain ⟨v, hv⟩ := lookup_isSome_of_mem_listdir hn
      cases v with
      | dir => exact absurd hv (hflat hdir n)
      | file cnt => exact ⟨cnt, hv⟩
    obtain ⟨e1, e2, e3⟩ := clean_inner (st.fs.listdir (src ++ [c])) st hwf herr hnd hval
    refine ⟨e1, ?_, e3⟩
    rw [e2]
    apply List.filter_congr
    intro e he
    by_cases hdp : e.1 = src ++ [c]
    · have hmem : e.2.1 ∈ st.fs.listdir (src ++ [c]) := name_mem_listdir he _ hdp
      simp [cleanKeepL, hdp, hmem]
    · simp [cleanKeepL, hdp]

/-- Which entries survive the whole cleaning pass over the root listing `CS`:
everything except invalid files inside listed class directories. -/
def cleanKeep (fs0 : FS) (src : Fpath) (CS : List String)
    (e : Fpath × String × FsNode) : Bool :=
  !(decide (∃ c, c ∈ CS ∧ fs0.isdir src c = true ∧ e.1 = src ++ [c]
      ∧ e.2.2 = FsNode.file Content.invalid))

theorem root_ne_child (src : Fpath) (c : String) : src ≠ src ++ [c] := by
  intro h
  have := congrArg List.length h
  simp at this

theorem append_last_inj {src : Fpath} {c c' : String}
    (h : src ++ [c] = src ++ [c']) : c = c' := by
  have := List.append_cancel_left h
  simpa using this

theorem clean_outer {fs0 : FS} {src : Fpath} (hwf0 : fs0.Wf)
    (hflat0 : ∀ c n, fs0.isdir src c = true →
      fs0.lookup (src ++ [c]) n ≠ some FsNode.dir) (rest : List String) :
    ∀ (processed : List String) (st : PassSt),
    (processed ++ rest).Nodup →
    st.fs.ents = fs0.ents.filter (cleanKeep fs0 src processed) →
    st.err = none →
    (∀ c ∈ processed, fs0.isdir src c = true → ∀ n ∈ fs0.listdir (src ++ [c]),
      fs0.lookup (src ++ [c]) n = some (FsNode.file Content.invalid)
        → (src ++ [c, n]) ∈ st.logs) →
    (∀ q ∈ st.logs, q.length = src.length + 2) →
    (rest.foldl (cleanClassStep src) st).err = none ∧
    (rest.foldl (cleanClassStep src) st).fs.ents
      = fs0.ents.filter (cleanKeep fs0 src (processed ++ rest)) ∧
    (∀ c ∈ processed ++ rest, fs0.isdir src c = true →
      ∀ n ∈ fs0.listdir (src ++ [c]),
      fs0.lookup (src ++ [c]) n = some (FsNode.file Content.invalid)
        → (src ++ [c, n]) ∈ (rest.foldl (cleanClassStep src) st).logs) ∧
    (∀ q ∈ (rest.foldl (cleanClassStep src) st).logs, q.length = src.length + 2) := by
  induction rest with
  | nil =>
    intro processed st hnd hents herr hpos hshape
    rw [List.foldl_nil]
    refine ⟨herr, by simpa using hents, by simpa using hpos, hshape⟩
  | cons c rest' ih =>
    intro processed st hnd hents herr hpos hshape
    rw [List.foldl_cons]
    have hstfs : st.fs = ⟨fs0.ents.filter (cleanKeep fs0 src processed)⟩ := by
      cases hst : st.fs with
      | mk ents =>
        rw [hst] at hents
        exact congrArg FS.mk hents
    have hwfst : st.fs.Wf := by
      rw [hstfs]
      exact filter_wf hwf0 _
    have hcne : c ∉ processed := by
      intro hc
      have := List.nodup_append.mp hnd
      exact this.2.2 hc (List.mem_cons.mpr (Or.inl rfl))
    -- lookups of st agree with fs0 at the root key (src, c) and inside src ++ [c]
    have hroot : ∀ m : String, st.fs.lookup src m = fs0.lookup src m := by
      intro m
      rw [hstfs]
      apply lookup_filter_eq
      intro e he hk
      rw [keyMatches_iff] at hk
      unfold cleanKeep
      simp only [Bool.not_eq_true', decide_eq_false_iff_not]
      rintro ⟨c', _, _, hpar, _⟩
      exact root_ne_child src c' (hk.1 ▸ hpar : src = src ++ [c'])
    have hinside : ∀ m : String, st.fs.lookup (src ++ [c]) m
        = fs0.lookup (src ++ [c]) m := by
      intro m
      rw [hstfs]
      apply lookup_filter_eq
      intro e he hk
      rw [keyMatches_iff] at hk
      unfold cleanKeep
      simp only [Bool.not_eq_true', decide_eq_false_iff_not]
      rintro ⟨c', hc', _, hpar, _⟩
      rw [hk.1] at hpar
      exact hcne (append_last_inj hpar ▸ hc')
    have hlist : st.fs.listdir (src ++ [c]) = fs0.listdir (src ++ [c]) := by
      rw [hstfs]
      apply listdir_filter_all_true
      intro e he hpar
      unfold cleanKeep
      simp only [Bool.not_eq_true', decide_eq_false_iff_not]
      rintro ⟨c', hc', _, hpar', _⟩
      rw [hpar] at hpar'
      exact hcne (append_last_inj hpar' ▸ hc')
    have hisdir : st.fs.isdir src c = fs0.isdir src c := by
      unfold FS.isdir
      rw [hroot]
    have hflatst : st.fs.isdir src c = true →
        ∀ n, st.fs.lookup (src ++ [c]) n ≠ some FsNode.dir := by
      intro hd n
      rw [hinside]
      exact hflat0 c n (hisdir ▸ hd)
    obtain ⟨s1, s2, s3⟩ := cleanClassStep_spec src c st hwfst herr hflatst
    -- rewrite the class-step entry filter in terms of fs0
    have hents' : (cleanClassStep src st c).fs.ents
        = fs0.ents.filter (cleanKeep fs0 src (processed ++ [c])) := by
      rw [s2, hents, List.filter_filter]
      apply List.filter_congr
      intro e he
      rw [hisdir, Bool.eq_iff_iff]
      unfold cleanKeep
      simp only [Bool.and_eq_true, Bool.not_eq_true', Bool.and_eq_false_iff,
        decide_eq_false_iff_not, decide_eq_true_eq, List.mem_append,
        List.mem_singleton]
      constructor
      · rintro ⟨h1, h2⟩ ⟨c', hc', hd', hp', hinv'⟩
        rcases hc' with hc' | hc'
        · exact h2 ⟨c', hc', hd', hp', hinv'⟩
        · rcases h1 with (h1 | h1) | h1
          · rw [hc'] at hd'; exact absurd hd' h1
          · rw [hc'] at hp'; exact absurd hp' h1
          · exact absurd hinv' h1
      · intro hno
        constructor
        · by_cases hd' : fs0.isdir src c = true
          · by_cases hp' : e.1 = src ++ [c]
            · refine Or.inr ?_
              intro hinv'
              exact hno ⟨c, Or.inr rfl, hd', hp', hinv'⟩
            · exact Or.inl (Or.inr hp')
          · exact Or.inl (Or.inl hd')
        · rintro ⟨c', hc', hd', hp', hinv'⟩
          exact hno ⟨c', Or.inl hc', hd', hp', hinv'⟩
    have hpos' : ∀ c' ∈ processed ++ [c], fs0.isdir src c' = true →
        ∀ n ∈ fs0.listdir (src ++ [c']),
        fs0.lookup (src ++ [c']) n = some (FsNode.file Content.invalid)
          → (src ++ [c', n]) ∈ (cleanClassStep src st c).logs := by
      intro c' hc' hd' n hn hbad
      rw [s3]
      rcases List.mem_append.mp hc' with hc' | hc'
      · exact List.mem_append.mpr (Or.inl (hpos c' hc' hd' n hn hbad))
      · rw [List.mem_singleton] at hc'
        rw [hc'] at hd' hn hbad ⊢
        refine List.mem_append.mpr (Or.inr ?_)
        rw [if_pos (by rw [hisdir]; exact hd')]
        rw [List.mem_map]
        refine ⟨n, ?_, rfl⟩
        rw [List.mem_filter]
        refine ⟨by rw [hlist]; exact hn, by rw [hinside]; simp [hbad]⟩
    have hshape' : ∀ q ∈ (cleanClassStep src st c).logs,
        q.length = src.length + 2 := by
      intro q hq
      rw [s3] at hq
      rcases List.mem_append.mp hq with hq | hq
      · exact hshape q hq
      · by_cases hd : st.fs.isdir src c = true
        · rw [if_pos hd, List.mem_map] at hq
          obtain ⟨n, _, hqe⟩ := hq
          rw [← hqe]
          simp
        · rw [if_neg hd] at hq
          cases hq
    have hnd' : ((processed ++ [c]) ++ rest').Nodup := by
      rwa [List.append_assoc, List.singleton_append]
    obtain ⟨r1, r2, r3, r4⟩ := ih (processed ++ [c]) (cleanClassStep src st c)
      hnd' hents' s1 hpos' hshape'
    refine ⟨r1, ?_, ?_, r4⟩
    · rw [r2, List.append_assoc, List.singleton_append]
    · intro c' hc' hd' n hn hbad
      apply r3 c' _ hd' n hn hbad
      rw [List.append_assoc, List.singleton_append]
      exact hc'

theorem isImg_true_elim {fs : FS} {d : Fpath} {n : String}
    (h : isImg fs d n = true) :
    ∃ w ht, fs.lookup d n = some (FsNode.file (Content.image w ht)) := by
  unfold isImg at h
  cases hl : fs.lookup d n with
  | none => rw [hl] at h; cases h
  | some v =>
    cases v with
    | dir => rw [hl] at h; cases h
    | file cnt =>
      cases cnt with
      | image w ht => exact ⟨w, ht, rfl⟩
      | invalid => rw [hl] at h; cases h

theorem isImg_of_lookup {fs : FS} {d : Fpath} {n : String} {w ht : Nat}
    (h : fs.lookup d n = some (FsNode.file (Content.image w ht))) :
    isImg fs d n = true := by
  unfold isImg
  rw [h]

theorem clean_main {fs0 : FS} {src : Fpath} (hwf0 : fs0.Wf)
    (hflat0 : ∀ c n, fs0.isdir src c = true →
      fs0.lookup (src ++ [c]) n ≠ some FsNode.dir) :
    (clean_data fs0 src).err = none ∧
    (clean_data fs0 src).fs.ents
      = fs0.ents.filter (cleanKeep fs0 src (fs0.listdir src)) ∧
    (∀ c ∈ fs0.listdir src, fs0.isdir src c = true →
      ∀ n ∈ fs0.listdir (src ++ [c]),
      fs0.lookup (src ++ [c]) n = some (FsNode.file Content.invalid)
        → (src ++ [c, n]) ∈ (clean_data fs0 src).logs) ∧
    (∀ q ∈ (clean_data fs0 src).logs, q.length = src.length + 2) := by
  unfold clean_data
  have h := clean_outer hwf0 hflat0 (fs0.listdir src) [] ⟨fs0, [], none⟩
    (by simpa using listdir_nodup hwf0 src)
    (by
      simp only
      have hall : ∀ e ∈ fs0.ents, cleanKeep fs0 src [] e = (fun _ => true) e := by
        intro e _
        simp [cleanKeep]
      exact ((List.filter_congr hall).trans (List.filter_true _)).symm)
    rfl (by simp) (by simp)
  simpa using h

/-- Claim C4: after `clean_data` runs on a root directory, every class
subdirectory contains exactly the files that successfully decode as images:
every file whose decode fails is deleted and a log line referencing its path
is emitted, and every file that decodes successfully is left in place
unchanged (and the pass raises no exception). Hypotheses: the filesystem has
distinct keys and class directories contain no nested directories. -/
theorem C4_clean_data_removes_invalid (fs0 : FS) (src : Fpath) (hwf0 : fs0.Wf)
    (hflat0 : ∀ c n, fs0.isdir src c = true →
      fs0.lookup (src ++ [c]) n ≠ some FsNode.dir)
    (c : String) (hc : c ∈ fs0.listdir src) (hcd : fs0.isdir src c = true) :
    (clean_data fs0 src).err = none ∧
    (clean_data fs0 src).fs.listdir (src ++ [c])
      = (fs0.listdir (src ++ [c])).filter (fun n => isImg fs0 (src ++ [c]) n) ∧
    (∀ n ∈ fs0.listdir (src ++ [c]), isImg fs0 (src ++ [c]) n = false →
      (clean_data fs0 src).fs.lookup (src ++ [c]) n = none ∧
      (src ++ [c, n]) ∈ (clean_data fs0 src).logs) ∧
    (∀ n, isImg fs0 (src ++ [c]) n = true →
      (clean_data fs0 src).fs.lookup (src ++ [c]) n
        = fs0.lookup (src ++ [c]) n) := by
  obtain ⟨m1, m2, m3, _⟩ := clean_main hwf0 hflat0
  have hfs : (clean_data fs0 src).fs
      = ⟨fs0.ents.filter (cleanKeep fs0 src (fs0.listdir src))⟩ := by
    cases hcl : (clean_data fs0 src).fs with
    | mk ents =>
      rw [hcl] at m2
      exact congrArg FS.mk m2
  -- every entry of fs0 below src ++ [c] is kept iff it is an image file
  have hkeep : ∀ e ∈ fs0.ents, e.1 = src ++ [c]
      → cleanKeep fs0 src (fs0.listdir src) e = isImg fs0 (src ++ [c]) e.2.1 := by
    intro e he hdp
    have hlook := lookup_of_mem_wf hwf0 he
    rw [hdp] at hlook
    cases hv : e.2.2 with
    | dir =>
      rw [hv] at hlook
      exact absurd hlook (hflat0 c e.2.1 hcd)
    | file cnt =>
      rw [hv] at hlook
      cases cnt with
      | image w ht =>
        rw [isImg_of_lookup hlook]
        unfold cleanKeep
        simp only [Bool.not_eq_true', Bool.not_eq_false]
        rw [decide_eq_false_iff_not]
        rintro ⟨c', _, _, hpar, hinv⟩
        rw [hdp] at hpar
        have hcc : c = c' := append_last_inj hpar
        rw [hv] at hinv
        cases hinv
      | invalid =>
        have himg : isImg fs0 (src ++ [c]) e.2.1 = false := by
          unfold isImg
          rw [hlook]
        rw [himg]
        unfold cleanKeep
        simp only [Bool.not_eq_false']
        rw [decide_eq_true_eq]
        exact ⟨c, hc, hcd, hdp ▸ rfl, hv⟩
  refine ⟨m1, ?_, ?_, ?_⟩
  · rw [hfs]
    exact listdir_filter_eq hkeep
  · intro n hn hbad
    have hlk : fs0.lookup (src ++ [c]) n = some (FsNode.file Content.invalid) := by
      obtain ⟨v, hv⟩ := lookup_isSome_of_mem_listdir hn
      cases v with
      | dir => exact absurd hv (hflat0 c n hcd)
      | file cnt =>
        cases cnt with
        | image w ht => rw [isImg_of_lookup hv] at hbad; cases hbad
        | invalid => exact hv
    constructor
    · rw [hfs]
      apply lookup_filter_none
      intro e he hk
      rw [keyMatches_iff] at hk
      have hlook := lookup_of_mem_wf hwf0 he
      rw [hk.1, hk.2] at hlook
      have hnode : e.2.2 = FsNode.file Content.invalid :=
        Option.some.inj (hlook.symm.trans hlk)
      unfold cleanKeep
      simp only [Bool.not_eq_false']
      rw [decide_eq_true_eq]
      exact ⟨c, hc, hcd, hk.1, hnode⟩
    · exact m3 c hc hcd n hn hlk
  · intro n himg
    obtain ⟨w, ht, hlk⟩ := isImg_true_elim himg
    rw [hfs]
    apply lookup_filter_eq
    intro e he hk
    rw [keyMatches_iff] at hk
    have hlook := lookup_of_mem_wf hwf0 he
    rw [hk.1, hk.2] at hlook
    have hnode : e.2.2 = FsNode.file (Content.image w ht) :=
      Option.some.inj (hlook.symm.trans hlk)
    unfold cleanKeep
    simp only [Bool.not_eq_true', Bool.not_eq_false]
    rw [decide_eq_false_iff_not]
    rintro ⟨c', _, _, _, hinv⟩
    rw [hnode] at hinv
    cases hinv

/-! ### The standardization pass -/

theorem makedirsAux_key_untouched {comps : List String} : ∀ {fs fs' : FS} {base : Fpath},
    fs.makedirsAux base comps = Except.ok fs' →
    ∀ {d' : Fpath} {n' : String},
    (∀ pre x post, comps = pre ++ x :: post → ¬ (d' = base ++ pre ∧ n' = x)) →
    fs'.lookup d' n' = fs.lookup d' n' := by
  induction comps with
  | nil =>
    intro fs fs' base h d' n' _
    unfold FS.makedirsAux at h
    simp only [Except.ok.injEq] at h
    rw [← h]
  | cons c rest ih =>
    intro fs fs' base h d' n' hc
    unfold FS.makedirsAux at h
    cases hmk : fs.mkdirOne base c with
    | error e => rw [hmk] at h; cases h
    | ok fs1 =>
      rw [hmk] at h
      have h0 : ¬ (d' = base ∧ n' = c) := by
        have := hc [] c rest (by simp)
        simpa using this
      have hrest : ∀ pre x post, rest = pre ++ x :: post
          → ¬ (d' = (base ++ [c]) ++ pre ∧ n' = x) := by
        intro pre x post hsplit
        have := hc (c :: pre) x post (by rw [hsplit]; simp)
        simpa [List.append_assoc] using this
      rw [ih h hrest, mkdirOne_lookup_ne hmk h0]

theorem makedirs_key_untouched {fs fs' : FS} {p : Fpath}
    (h : fs.makedirs p = Except.ok fs') {d' : Fpath} {n' : String}
    (hc : ∀ pre x post, p = pre ++ x :: post → ¬ (d' = pre ∧ n' = x)) :
    fs'.lookup d' n' = fs.lookup d' n' :=
  makedirsAux_key_untouched h (by simpa using hc)

theorem std_inner {src tgt : Fpath} {className : String} {W H : Nat} (L : List String)
    (hne : src ++ [className] ≠ tgt ++ [className]) :
    ∀ st : PassSt, st.err = none → L.Nodup →
    (L.foldl (stdFileStep src tgt className (W, H)) st).err = none ∧
    (∀ d n', (d ≠ tgt ++ [className] ∨ n' ∉ L) →
      (L.foldl (stdFileStep src tgt className (W, H)) st).fs.lookup d n'
        = st.fs.lookup d n') ∧
    (∀ d, d ≠ tgt ++ [className] →
      (L.foldl (stdFileStep src tgt className (W, H)) st).fs.listdir d
        = st.fs.listdir d) ∧
    (∀ n ∈ L, ∀ w h, st.fs.lookup (src ++ [className]) n
        = some (FsNode.file (Content.image w h)) →
      (L.foldl (stdFileStep src tgt className (W, H)) st).fs.lookup
          (tgt ++ [className]) n = some (FsNode.file (Content.image W H))) ∧
    (∀ n ∈ L, (∀ w h, st.fs.lookup (src ++ [className]) n
        ≠ some (FsNode.file (Content.image w h))) →
      (src ++ [className, n]) ∈ (L.foldl (stdFileStep src tgt className (W, H)) st).logs ∧
      (L.foldl (stdFileStep src tgt className (W, H)) st).fs.lookup
          (tgt ++ [className]) n = st.fs.lookup (tgt ++ [className]) n) ∧
    (∀ q ∈ st.logs, q ∈ (L.foldl (stdFileStep src tgt className (W, H)) st).logs) ∧
    (∀ q ∈ (L.foldl (stdFileStep src tgt className (W, H)) st).logs,
      q ∈ st.logs ∨ ∃ n ∈ L, q = src ++ [className, n]) ∧
    (st.fs.Wf → (L.foldl (stdFileStep src tgt className (W, H)) st).fs.Wf) := by
  induction L with
  | nil =>
    intro st herr _
    rw [List.foldl_nil]
    exact ⟨herr, fun d n' _ => rfl, fun d _ => rfl, fun n hn => absurd hn (by simp),
      fun n hn => absurd hn (by simp), fun q hq => hq, fun q hq => Or.inl hq,
      fun h => h⟩
  | cons n L' ih =>
    intro st herr hnd
    rw [List.foldl_cons]
    have hndL' : L'.Nodup := (List.nodup_cons.mp hnd).2
    have hnmem : n ∉ L' := (List.nodup_cons.mp hnd).1
    cases hlook : st.fs.lookup (src ++ [className]) n with
    | some v =>
      cases v with
      | file cnt =>
        cases cnt with
        | image w h =>
          -- the file is converted and written to the mirrored directory
          have hstep : stdFileStep src tgt className (W, H) st n =
              { st with fs := st.fs.writeFile (tgt ++ [className]) n
                          (Content.image W H) } := by
            unfold stdFileStep
            rw [herr]
            simp [hlook]
          rw [hstep]
          obtain ⟨e1, e2, e3, e4, e5, e6, e7, e8⟩ := ih
            { st with fs := st.fs.writeFile (tgt ++ [className]) n
                        (Content.image W H) } herr hndL'
          refine ⟨e1, ?_, ?_, ?_, ?_, e6, ?_, ?_⟩
          · intro d n' hd
            have hd' : d ≠ tgt ++ [className] ∨ n' ∉ L' := by
              rcases hd with hd | hd
              · exact Or.inl hd
              · exact Or.inr (fun hmem => hd (List.mem_cons.mpr (Or.inr hmem)))
            rw [e2 d n' hd']
            simp only
            rw [lookup_writeFile_ne st.fs _ (by
              rintro ⟨rfl, rfl⟩
              rcases hd with hd | hd
              · exact hd rfl
              · exact hd (List.mem_cons.mpr (Or.inl rfl)))]
          · intro d hd
            rw [e3 d hd]
            simp only
            rw [listdir_writeFile_ne st.fs _ _ hd]
          · intro m hm w' h' hm2
            rcases List.mem_cons.mp hm with rfl | hm
            · -- the head file itself: written now, untouched afterwards
              rw [e2 _ _ (Or.inr hnmem)]
              simp only
              rw [lookup_writeFile_self]
            · apply e4 m hm w' h'
              simp only
              rw [lookup_writeFile_ne st.fs _ (by
                rintro ⟨hc1, _⟩
                exact hne hc1)]
              exact hm2
          · intro m hm hbad
            rcases List.mem_cons.mp hm with rfl | hm
            · rw [hlook] at hbad
              exact absurd rfl (hbad w h)
            · obtain ⟨hlog, htgt⟩ := e5 m hm (fun w' h' => by
                simp only
                rw [lookup_writeFile_ne st.fs _ (by
                  rintro ⟨hc1, _⟩
                  exact hne hc1)]
                exact hbad w' h')
              refine ⟨hlog, ?_⟩
              rw [htgt]
              simp only
              rw [lookup_writeFile_ne st.fs _ (by
                rintro ⟨_, hmn⟩
                exact hnmem (by rw [← hmn]; exact hm))]
          · intro q hq
            rcases e7 q hq with hq' | ⟨m, hm, hq'⟩
            · exact Or.inl hq'
            · exact Or.inr ⟨m, List.mem_cons.mpr (Or.inr hm), hq'⟩
          · intro hwf
            exact e8 (writeFile_wf hwf _ _ _)
        | invalid =>
          have hstep : stdFileStep src tgt className (W, H) st n =
              { st with logs := st.logs ++ [src ++ [className, n]] } := by
            unfold stdFileStep
            rw [herr]
            simp [hlook]
          rw [hstep]
          obtain ⟨e1, e2, e3, e4, e5, e6, e7, e8⟩ := ih
            { st with logs := st.logs ++ [src ++ [className, n]] } herr hndL'
          refine ⟨e1, ?_, e3, ?_, ?_, ?_, ?_, e8⟩
          · intro d n' hd
            apply e2 d n'
            rcases hd with hd | hd
            · exact Or.inl hd
            · exact Or.inr (fun hmem => hd (List.mem_cons.mpr (Or.inr hmem)))
          · intro m hm w' h' hm2
            rcases List.mem_cons.mp hm with rfl | hm
            · rw [hlook] at hm2; cases hm2
            · exact e4 m hm w' h' hm2
          · intro m hm hbad
            rcases List.mem_cons.mp hm with rfl | hm
            · refine ⟨e6 _ (by simp), e2 _ _ (Or.inr hnmem)⟩
            · obtain ⟨hlog, htgt⟩ := e5 m hm hbad
              exact ⟨hlog, htgt⟩
          · intro q hq
            exact e6 q (List.mem_append.mpr (Or.inl hq))
          · intro q hq
            rcases e7 q hq with hq' | ⟨m, hm, hq'⟩
            · rcases List.mem_append.mp hq' with hq'' | hq''
              · exact Or.inl hq''
              · rw [List.mem_singleton] at hq''
                exact Or.inr ⟨n, List.mem_cons.mpr (Or.inl rfl), hq''⟩
            · exact Or.inr ⟨m, List.mem_cons.mpr (Or.inr hm), hq'⟩
      | dir =>
        have hstep : stdFileStep src tgt className (W, H) st n =
            { st with logs := st.logs ++ [src ++ [className, n]] } := by
          unfold stdFileStep
          rw [herr]
          simp [hlook]
        rw [hstep]
        obtain ⟨e1, e2, e3, e4, e5, e6, e7, e8⟩ := ih
          { st with logs := st.logs ++ [src ++ [className, n]] } herr hndL'
        refine ⟨e1, ?_, e3, ?_, ?_, ?_, ?_, e8⟩
        · intro d n' hd
          apply e2 d n'
          rcases hd with hd | hd
          · exact Or.inl hd
          · exact Or.inr (fun hmem => hd (List.mem_cons.mpr (Or.inr hmem)))
        · intro m hm w' h' hm2
          rcases List.mem_cons.mp hm with rfl | hm
          · rw [hlook] at hm2; cases hm2
          · exact e4 m hm w' h' hm2
        · intro m hm hbad
          rcases List.mem_cons.mp hm with rfl | hm
          · refine ⟨e6 _ (by simp), e2 _ _ (Or.inr hnmem)⟩
          · exact e5 m hm hbad
        · intro q hq
          exact e6 q (List.mem_append.mpr (Or.inl hq))
        · intro q hq
          rcases e7 q hq with hq' | ⟨m, hm, hq'⟩
          · rcases List.mem_append.mp hq' with hq'' | hq''
            · exact Or.inl hq''
            · rw [List.mem_singleton] at hq''
              exact Or.inr ⟨n, List.mem_cons.mpr (Or.inl rfl), hq''⟩
          · exact Or.inr ⟨m, List.mem_cons.mpr (Or.inr hm), hq'⟩
    | none =>
      have hstep : stdFileStep src tgt className (W, H) st n =
          { st with logs := st.logs ++ [src ++ [className, n]] } := by
        unfold stdFileStep
        rw [herr]
        simp [hlook]
      rw [hstep]
      obtain ⟨e1, e2, e3, e4, e5, e6, e7, e8⟩ := ih
        { st with logs := st.logs ++ [src ++ [className, n]] } herr hndL'
      refine ⟨e1, ?_, e3, ?_, ?_, ?_, ?_, e8⟩
      · intro d n' hd
        apply e2 d n'
        rcases hd with hd | hd
        · exact Or.inl hd
        · exact Or.inr (fun hmem => hd (List.mem_cons.mpr (Or.inr hmem)))
      · intro m hm w' h' hm2
        rcases List.mem_cons.mp hm with rfl | hm
        · rw [hlook] at hm2; cases hm2
        · exact e4 m hm w' h' hm2
      · intro m hm hbad
        rcases List.mem_cons.mp hm with rfl | hm
        · refine ⟨e6 _ (by simp), e2 _ _ (Or.inr hnmem)⟩
        · exact e5 m hm hbad
      · intro q hq
        exact e6 q (List.mem_append.mpr (Or.inl hq))
      · intro q hq
        rcases e7 q hq with hq' | ⟨m, hm, hq'⟩
        · rcases List.mem_append.mp hq' with hq'' | hq''
          · exact Or.inl hq''
          · rw [List.mem_singleton] at hq''
            exact Or.inr ⟨n, List.mem_cons.mpr (Or.inl rfl), hq''⟩
        · exact Or.inr ⟨m, List.mem_cons.mpr (Or.inr hm), hq'⟩

theorem sepPaths_symm {a b : Fpath} (h : sepPaths a b) : sepPaths b a :=
  ⟨h.2, h.1⟩

theorem pathLE_append (a l : Fpath) : pathLE a (a ++ l) := by
  unfold pathLE
  rw [List.take_append_of_le_length le_rfl, List.take_of_length_le le_rfl]

theorem pathLE_trans {a b c : Fpath} (h1 : pathLE a b) (h2 : pathLE b c) :
    pathLE a c := by
  unfold pathLE at *
  have hab : a.length ≤ b.length := by
    rw [← h1]
    simp [List.length_take]
  calc c.take a.length = (c.take b.length).take a.length := by
        rw [List.take_take]
        congr 1
        omega
    _ = b.take a.length := by rw [h2]
    _ = a := h1

theorem split_child_pathLE {t : Fpath} {c x : String} {pre post : List String}
    (h : t ++ [c] = pre ++ x :: post) : pathLE pre (t ++ [c]) := by
  rw [h]
  exact pathLE_append pre (x :: post)

theorem split_child_parent_eq {t : Fpath} {c x : String} {pre post : List String}
    (h : t ++ [c] = pre ++ x :: post) (hp : pre = t) : x = c := by
  subst hp
  have h2 := List.append_cancel_left h
  injection h2 with h3 _
  exact h3.symm

theorem split_child_len {t : Fpath} {c x : String} {pre post : List String}
    (h : t ++ [c] = pre ++ x :: post) : pre.length ≤ t.length := by
  have := congrArg List.length h
  simp at this
  omega

theorem lookup_some_mem_listdir {fs : FS} {d : Fpath} {n : String} {v : FsNode}
    (h : fs.lookup d n = some v) : n ∈ fs.listdir d := by
  unfold FS.lookup at h
  cases hfind : fs.ents.find? (keyMatches d n) with
  | none => rw [hfind] at h; cases h
  | some e =>
    have hmem := List.mem_of_find?_eq_some hfind
    have hk := List.find?_some hfind
    rw [keyMatches_iff] at hk
    have := name_mem_listdir hmem d hk.1
    rwa [hk.2] at this

theorem stdClassStep_frozen {src tgt : Fpath} {ims : Nat × Nat} {st : PassSt}
    (h : st.err.isSome) (c : String) :
    stdClassStep src tgt ims st c = st := by
  unfold stdClassStep
  rw [if_pos h]

theorem std_fold_frozen {src tgt : Fpath} {ims : Nat × Nat} (l : List String)
    {st : PassSt} (h : st.err.isSome) :
    l.foldl (stdClassStep src tgt ims) st = st := by
  induction l with
  | nil => rfl
  | cons c rest ih =>
    rw [List.foldl_cons, stdClassStep_frozen h]
    exact ih

theorem stdClassStep_skip {src tgt : Fpath} {ims : Nat × Nat} {st : PassSt}
    (herr : st.err = none) {c : String} (h : st.fs.isdir src c = false) :
    stdClassStep src tgt ims st c = st := by
  unfold stdClassStep
  rw [herr]
  simp [h]

theorem stdClassStep_spec {src tgt : Fpath} {W H : Nat} {st : PassSt} {c : String}
    (herr : st.err = none) (hwf : st.fs.Wf) (hsep : sepPaths src tgt)
    (hdir : st.fs.isdir src c = true)
    (hdone : (stdClassStep src tgt (W, H) st c).err = none) :
    (∀ d n', (∀ pre x post, tgt ++ [c] = pre ++ x :: post → ¬ (d = pre ∧ n' = x)) →
      d ≠ tgt ++ [c] →
      (stdClassStep src tgt (W, H) st c).fs.lookup d n' = st.fs.lookup d n') ∧
    (∀ d, (∀ i, i < (tgt ++ [c]).length → d ≠ (tgt ++ [c]).take i) → d ≠ tgt ++ [c] →
      (stdClassStep src tgt (W, H) st c).fs.listdir d = st.fs.listdir d) ∧
    (∀ n w h, st.fs.lookup (src ++ [c]) n = some (FsNode.file (Content.image w h)) →
      (stdClassStep src tgt (W, H) st c).fs.lookup (tgt ++ [c]) n
        = some (FsNode.file (Content.image W H))) ∧
    (∀ n ∈ st.fs.listdir (src ++ [c]),
      (∀ w h, st.fs.lookup (src ++ [c]) n ≠ some (FsNode.file (Content.image w h))) →
      (src ++ [c, n]) ∈ (stdClassStep src tgt (W, H) st c).logs ∧
      (stdClassStep src tgt (W, H) st c).fs.lookup (tgt ++ [c]) n
        = st.fs.lookup (tgt ++ [c]) n) ∧
    (stdClassStep src tgt (W, H) st c).fs.lookup tgt c = some FsNode.dir ∧
    (∀ q ∈ st.logs, q ∈ (stdClassStep src tgt (W, H) st c).logs) ∧
    (∀ q ∈ (stdClassStep src tgt (W, H) st c).logs,
      q ∈ st.logs ∨ ∃ n, q = src ++ [c, n]) ∧
    (stdClassStep src tgt (W, H) st c).fs.Wf := by
  have hne : src ++ [c] ≠ tgt ++ [c] :=
    child_ne_of_sep (sepPaths_symm hsep) c c
  have hunfold : stdClassStep src tgt (W, H) st c =
      match st.fs.makedirs (tgt ++ [c]) with
      | Except.error e => { st with err := some e }
      | Except.ok fs1 =>
        (fs1.listdir (src ++ [c])).foldl
          (stdFileStep src tgt c (W, H)) { st with fs := fs1 } := by
    unfold stdClassStep
    rw [herr]
    simp [hdir]
  cases hmk : st.fs.makedirs (tgt ++ [c]) with
  | error e =>
    rw [hunfold, hmk] at hdone
    cases hdone
  | ok fs1 =>
    rw [hunfold, hmk]
    rw [hunfold, hmk] at hdone
    have hcond : ∀ i, i < (tgt ++ [c]).length → ¬ pathLE src ((tgt ++ [c]).take i) := by
      intro i hi hcon
      exact sep_not_le_child hsep c (pathLE_of_take hcon)
    have hlistcp : fs1.listdir (src ++ [c]) = st.fs.listdir (src ++ [c]) := by
      apply makedirs_listdir_untouched hmk
      intro i hi hcon
      exact hcond i hi (by rw [← hcon]; exact pathLE_append_one src c)
    have hlookcp : ∀ n, fs1.lookup (src ++ [c]) n = st.fs.lookup (src ++ [c]) n := by
      intro n
      apply makedirs_lookup_untouched hmk
      intro i hi hcon
      exact hcond i hi (by rw [← hcon]; exact pathLE_append_one src c)
    have hwf1 : fs1.Wf := makedirs_wf hwf hmk
    obtain ⟨e1, e2, e3, e4, e5, e6, e7, e8⟩ :=
      std_inner (fs1.listdir (src ++ [c])) hne { st with fs := fs1 } herr
        (listdir_nodup hwf1 _)
    refine ⟨?_, ?_, ?_, ?_, ?_, ?_, ?_, e8 hwf1⟩
    · intro d n' hc hdne
      rw [e2 d n' (Or.inl hdne)]
      simp only
      apply makedirs_key_untouched hmk
      intro pre x post hsplit hcon
      exact hc pre x post hsplit hcon
    · intro d hc hdne
      rw [e3 d hdne]
      simp only
      apply makedirs_listdir_untouched hmk
      intro i hi
      exact hc i hi
    · intro n w h hlk
      apply e4 n
      · rw [hlistcp]
        exact lookup_some_mem_listdir hlk
      · simp only
        rw [hlookcp n]
        exact hlk
    · intro n hn hbad
      have hn1 : n ∈ fs1.listdir (src ++ [c]) := by rw [hlistcp]; exact hn
      obtain ⟨hlog, htgt⟩ := e5 n hn1 (fun w h => by
        simp only
        rw [hlookcp n]
        exact hbad w h)
      refine ⟨hlog, ?_⟩
      rw [htgt]
      simp only
      apply makedirs_key_untouched hmk
      intro pre x post hsplit hcon
      have hlen := split_child_len hsplit
      have := congrArg List.length hcon.1
      simp at this
      omega
    · have hd1 : fs1.lookup tgt c = some FsNode.dir := makedirs_creates_last hmk
      have := e2 tgt c (Or.inl (by
        intro hcon
        have := congrArg List.length hcon
        simp at this))
      rw [this]
      exact hd1
    · intro q hq
      exact e6 q hq
    · intro q hq
      rcases e7 q hq with hq' | ⟨n, _, hq'⟩
      · exact Or.inl hq'
      · exact Or.inr ⟨n, hq'⟩

theorem std_outer {fs0 : FS} {src tgt : Fpath} {W H : Nat} (hsep : sepPaths src tgt)
    (rest : List String) :
    ∀ (processed : List String) (st : PassSt),
    (processed ++ rest).Nodup →
    st.fs.Wf → st.err = none →
    (∀ d n, pathLE src d → st.fs.lookup d n = fs0.lookup d n) →
    (∀ d, pathLE src d → st.fs.listdir d = fs0.listdir d) →
    (∀ c' ∈ processed, fs0.isdir src c' = true →
      st.fs.lookup tgt c' = some FsNode.dir) →
    (∀ c' ∈ processed, fs0.isdir src c' = true → ∀ n w h,
      fs0.lookup (src ++ [c']) n = some (FsNode.file (Content.image w h)) →
      st.fs.lookup (tgt ++ [c']) n = some (FsNode.file (Content.image W H))) →
    (∀ c' ∈ processed, fs0.isdir src c' = true → ∀ n ∈ fs0.listdir (src ++ [c']),
      (∀ w h, fs0.lookup (src ++ [c']) n ≠ some (FsNode.file (Content.image w h))) →
      (src ++ [c', n]) ∈ st.logs ∧
      st.fs.lookup (tgt ++ [c']) n = fs0.lookup (tgt ++ [c']) n) →
    (∀ m, ¬ (m ∈ processed ∧ fs0.isdir src m = true) → ∀ n',
      st.fs.lookup (tgt ++ [m]) n' = fs0.lookup (tgt ++ [m]) n') →
    (∀ m, ¬ (m ∈ processed ∧ fs0.isdir src m = true) →
      st.fs.lookup tgt m = fs0.lookup tgt m) →
    (∀ q ∈ st.logs, q.length = src.length + 2) →
    (rest.foldl (stdClassStep src tgt (W, H)) st).err = none →
    (rest.foldl (stdClassStep src tgt (W, H)) st).fs.Wf ∧
    (∀ d n, pathLE src d →
      (rest.foldl (stdClassStep src tgt (W, H)) st).fs.lookup d n
        = fs0.lookup d n) ∧
    (∀ d, pathLE src d →
      (rest.foldl (stdClassStep src tgt (W, H)) st).fs.listdir d
        = fs0.listdir d) ∧
    (∀ c' ∈ processed ++ rest, fs0.isdir src c' = true →
      (rest.foldl (stdClassStep src tgt (W, H)) st).fs.lookup tgt c'
        = some FsNode.dir) ∧
    (∀ c' ∈ processed ++ rest, fs0.isdir src c' = true → ∀ n w h,
      fs0.lookup (src ++ [c']) n = some (FsNode.file (Content.image w h)) →
      (rest.foldl (stdClassStep src tgt (W, H)) st).fs.lookup (tgt ++ [c']) n
        = some (FsNode.file (Content.image W H))) ∧
    (∀ c' ∈ processed ++ rest, fs0.isdir src c' = true →
      ∀ n ∈ fs0.listdir (src ++ [c']),
      (∀ w h, fs0.lookup (src ++ [c']) n ≠ some (FsNode.file (Content.image w h))) →
      (src ++ [c', n]) ∈ (rest.foldl (stdClassStep src tgt (W, H)) st).logs ∧
      (rest.foldl (stdClassStep src tgt (W, H)) st).fs.lookup (tgt ++ [c']) n
        = fs0.lookup (tgt ++ [c']) n) ∧
    (∀ m, ¬ (m ∈ processed ++ rest ∧ fs0.isdir src m = true) → ∀ n',
      (rest.foldl (stdClassStep src tgt (W, H)) st).fs.lookup (tgt ++ [m]) n'
        = fs0.lookup (tgt ++ [m]) n') ∧
    (∀ m, ¬ (m ∈ processed ++ rest ∧ fs0.isdir src m = true) →
      (rest.foldl (stdClassStep src tgt (W, H)) st).fs.lookup tgt m
        = fs0.lookup tgt m) ∧
    (∀ q ∈ (rest.foldl (stdClassStep src tgt (W, H)) st).logs,
      q.length = src.length + 2) := by
  induction rest with
  | nil =>
    intro processed st hnd hwf herr i3 i4 i5 i6 i7 i8 i9 i10 hfin
    rw [List.foldl_nil]
    exact ⟨hwf, i3, i4, by simpa using i5, by simpa using i6, by simpa using i7,
      by simpa using i8, by simpa using i9, i10⟩
  | cons c rest' ih =>
    intro processed st hnd hwf herr i3 i4 i5 i6 i7 i8 i9 i10 hfin
    rw [List.foldl_cons] at hfin ⊢
    have hisdir : st.fs.isdir src c = fs0.isdir src c := by
      unfold FS.isdir
      rw [i3 src c (pathLE_refl src)]
    have hcne : c ∉ processed := by
      intro hcmem
      exact (List.nodup_append.mp hnd).2.2 hcmem (List.mem_cons.mpr (Or.inl rfl))
    have hnd' : ((processed ++ [c]) ++ rest').Nodup := by
      rwa [List.append_assoc, List.singleton_append]
    cases hdir0 : fs0.isdir src c with
    | false =>
      have hskip : stdClassStep src tgt (W, H) st c = st :=
        stdClassStep_skip herr (by rw [hisdir]; exact hdir0)
      rw [hskip] at hfin ⊢
      have hres := ih (processed ++ [c]) st hnd' hwf herr i3 i4
        (by
          intro c' hc' hd'
          rcases List.mem_append.mp hc' with hc' | hc'
          · exact i5 c' hc' hd'
          · rw [List.mem_singleton] at hc'
            rw [hc'] at hd'
            rw [hd'] at hdir0
            cases hdir0)
        (by
          intro c' hc' hd'
          rcases List.mem_append.mp hc' with hc' | hc'
          · exact i6 c' hc' hd'
          · rw [List.mem_singleton] at hc'
            rw [hc'] at hd'
            rw [hd'] at hdir0
            cases hdir0)
        (by
          intro c' hc' hd'
          rcases List.mem_append.mp hc' with hc' | hc'
          · exact i7 c' hc' hd'
          · rw [List.mem_singleton] at hc'
            rw [hc'] at hd'
            rw [hd'] at hdir0
            cases hdir0)
        (by
          intro m hm
          apply i8 m
          rintro ⟨hm1, hm2⟩
          exact hm ⟨List.mem_append.mpr (Or.inl hm1), hm2⟩)
        (by
          intro m hm
          apply i9 m
          rintro ⟨hm1, hm2⟩
          exact hm ⟨List.mem_append.mpr (Or.inl hm1), hm2⟩)
        i10 hfin
      rw [List.append_assoc, List.singleton_append] at hres
      exact hres
    | true =>
      have hdirst : st.fs.isdir src c = true := by rw [hisdir]; exact hdir0
      have hdone : (stdClassStep src tgt (W, H) st c).err = none := by
        cases he : (stdClassStep src tgt (W, H) st c).err with
        | none => rfl
        | some e =>
          rw [std_fold_frozen rest' (by rw [he]; rfl)] at hfin
          rw [he] at hfin
          cases hfin
      obtain ⟨sA, sB, sC, sD, sE, sF, sG, sH⟩ :=
        stdClassStep_spec herr hwf hsep hdirst hdone
      -- transported invariants for the state after processing class c
      have j3 : ∀ d n, pathLE src d →
          (stdClassStep src tgt (W, H) st c).fs.lookup d n = fs0.lookup d n := by
        intro d n hd
        rw [sA d n (by
            intro pre x post hsplit
            rintro ⟨hdp, _⟩
            exact sep_not_le_child hsep c
              (pathLE_trans (hdp ▸ hd) (split_child_pathLE hsplit)))
          (by
            intro hcon
            exact sep_not_le_child hsep c (hcon ▸ hd))]
        exact i3 d n hd
      have j4 : ∀ d, pathLE src d →
          (stdClassStep src tgt (W, H) st c).fs.listdir d = fs0.listdir d := by
        intro d hd
        rw [sB d (by
            intro i hi hcon
            exact sep_not_le_child hsep c (pathLE_of_take (hcon ▸ hd)))
          (by
            intro hcon
            exact sep_not_le_child hsep c (hcon ▸ hd))]
        exact i4 d hd
      have j5 : ∀ c' ∈ processed ++ [c], fs0.isdir src c' = true →
          (stdClassStep src tgt (W, H) st c).fs.lookup tgt c'
            = some FsNode.dir := by
        intro c' hc' hd'
        rcases List.mem_append.mp hc' with hc' | hc'
        · rw [sA tgt c' (by
              intro pre x post hsplit
              rintro ⟨hdp, hx⟩
              have hxc : x = c := split_child_parent_eq hsplit hdp.symm
              rw [hxc] at hx
              rw [hx] at hc'
              exact hcne hc')
            (by
              intro hcon
              have := congrArg List.length hcon
              simp at this)]
          exact i5 c' hc' hd'
        · rw [List.mem_singleton] at hc'
          rw [hc']
          exact sE
      have j6 : ∀ c' ∈ processed ++ [c], fs0.isdir src c' = true → ∀ n w h,
          fs0.lookup (src ++ [c']) n = some (FsNode.file (Content.image w h)) →
          (stdClassStep src tgt (W, H) st c).fs.lookup (tgt ++ [c']) n
            = some (FsNode.file (Content.image W H)) := by
        intro c' hc' hd' n w h hlk
        rcases List.mem_append.mp hc' with hc' | hc'
        · have hne' : c' ≠ c := fun hcon => hcne (hcon ▸ hc')
          rw [sA (tgt ++ [c']) n (by
              intro pre x post hsplit
              rintro ⟨hdp, _⟩
              have hlen := split_child_len hsplit
              have := congrArg List.length hdp
              simp at this
              omega)
            (fun hcon => hne' (append_last_inj hcon))]
          exact i6 c' hc' hd' n w h hlk
        · rw [List.mem_singleton] at hc'
          rw [hc']
          apply sC n w h
          rw [hc'] at hlk
          rw [i3 (src ++ [c]) n (pathLE_append_one src c)]
          exact hlk
      have j7 : ∀ c' ∈ processed ++ [c], fs0.isdir src c' = true →
          ∀ n ∈ fs0.listdir (src ++ [c']),
          (∀ w h, fs0.lookup (src ++ [c']) n
            ≠ some (FsNode.file (Content.image w h))) →
          (src ++ [c', n]) ∈ (stdClassStep src tgt (W, H) st c).logs ∧
          (stdClassStep src tgt (W, H) st c).fs.lookup (tgt ++ [c']) n
            = fs0.lookup (tgt ++ [c']) n := by
        intro c' hc' hd' n hn hbad
        rcases List.mem_append.mp hc' with hc' | hc'
        · obtain ⟨hlog, hlk⟩ := i7 c' hc' hd' n hn hbad
          have hne' : c' ≠ c := fun hcon => hcne (hcon ▸ hc')
          refine ⟨sF _ hlog, ?_⟩
          rw [sA (tgt ++ [c']) n (by
              intro pre x post hsplit
              rintro ⟨hdp, _⟩
              have hlen := split_child_len hsplit
              have := congrArg List.length hdp
              simp at this
              omega)
            (fun hcon => hne' (append_last_inj hcon))]
          exact hlk
        · rw [List.mem_singleton] at hc'
          subst hc'
          have hn' : n ∈ st.fs.listdir (src ++ [c']) := by
            rw [i4 (src ++ [c']) (pathLE_append_one src c')]
            exact hn
          obtain ⟨hlog, hlk⟩ := sD n hn' (fun w h => by
            rw [i3 (src ++ [c']) n (pathLE_append_one src c')]
            exact hbad w h)
          refine ⟨hlog, ?_⟩
          rw [hlk]
          exact i8 c' (fun hcon => hcne hcon.1) n
      have j8 : ∀ m, ¬ (m ∈ processed ++ [c] ∧ fs0.isdir src m = true) → ∀ n',
          (stdClassStep src tgt (W, H) st c).fs.lookup (tgt ++ [m]) n'
            = fs0.lookup (tgt ++ [m]) n' := by
        intro m hm n'
        have hmc : m ≠ c := by
          intro hcon
          exact hm ⟨List.mem_append.mpr (Or.inr (by rw [hcon]; simp)), by
            rw [hcon]; exact hdir0⟩
        rw [sA (tgt ++ [m]) n' (by
            intro pre x post hsplit
            rintro ⟨hdp, _⟩
            have hlen := split_child_len hsplit
            have := congrArg List.length hdp
            simp at this
            omega)
          (fun hcon => hmc (append_last_inj hcon))]
        exact i8 m (fun hcon => hm ⟨List.mem_append.mpr (Or.inl hcon.1), hcon.2⟩) n'
      have j9 : ∀ m, ¬ (m ∈ processed ++ [c] ∧ fs0.isdir src m = true) →
          (stdClassStep src tgt (W, H) st c).fs.lookup tgt m
            = fs0.lookup tgt m := by
        intro m hm
        have hmc : m ≠ c := by
          intro hcon
          exact hm ⟨List.mem_append.mpr (Or.inr (by rw [hcon]; simp)), by
            rw [hcon]; exact hdir0⟩
        rw [sA tgt m (by
            intro pre x post hsplit
            rintro ⟨hdp, hx⟩
            have hxc : x = c := split_child_parent_eq hsplit hdp.symm
            rw [hxc] at hx
            exact hmc hx)
          (by
            intro hcon
            have := congrArg List.length hcon
            simp at this)]
        exact i9 m (fun hcon => hm ⟨List.mem_append.mpr (Or.inl hcon.1), hcon.2⟩)
      have j10 : ∀ q ∈ (stdClassStep src tgt (W, H) st c).logs,
          q.length = src.length + 2 := by
        intro q hq
        rcases sG q hq with hq' | ⟨n, hq'⟩
        · exact i10 q hq'
        · rw [hq']
          simp
      have hres := ih (processed ++ [c]) (stdClassStep src tgt (W, H) st c)
        hnd' sH hdone j3 j4 j5 j6 j7 j8 j9 j10 hfin
      rw [List.append_assoc, List.singleton_append] at hres
      exact hres

theorem isImg_false_elim {fs : FS} {d : Fpath} {n : String}
    (h : isImg fs d n = false) :
    ∀ w ht, fs.lookup d n ≠ some (FsNode.file (Content.image w ht)) := by
  intro w ht hcon
  rw [isImg_of_lookup hcon] at h
  cases h

theorem std_main {fs0 : FS} {src tgt : Fpath} {W H : Nat} (hwf0 : fs0.Wf)
    (hsep : sepPaths src tgt)
    (hfin : (standardize_images fs0 src tgt (W, H)).err = none) :
    (standardize_images fs0 src tgt (W, H)).fs.Wf ∧
    (∀ d n, pathLE src d →
      (standardize_images fs0 src tgt (W, H)).fs.lookup d n = fs0.lookup d n) ∧
    (∀ d, pathLE src d →
      (standardize_images fs0 src tgt (W, H)).fs.listdir d = fs0.listdir d) ∧
    (∀ c' ∈ fs0.listdir src, fs0.isdir src c' = true →
      (standardize_images fs0 src tgt (W, H)).fs.lookup tgt c'
        = some FsNode.dir) ∧
    (∀ c' ∈ fs0.listdir src, fs0.isdir src c' = true → ∀ n w h,
      fs0.lookup (src ++ [c']) n = some (FsNode.file (Content.image w h)) →
      (standardize_images fs0 src tgt (W, H)).fs.lookup (tgt ++ [c']) n
        = some (FsNode.file (Content.image W H))) ∧
    (∀ c' ∈ fs0.listdir src, fs0.isdir src c' = true →
      ∀ n ∈ fs0.listdir (src ++ [c']),
      (∀ w h, fs0.lookup (src ++ [c']) n ≠ some (FsNode.file (Content.image w h))) →
      (src ++ [c', n]) ∈ (standardize_images fs0 src tgt (W, H)).logs ∧
      (standardize_images fs0 src tgt (W, H)).fs.lookup (tgt ++ [c']) n
        = fs0.lookup (tgt ++ [c']) n) ∧
    (∀ m, ¬ (m ∈ fs0.listdir src ∧ fs0.isdir src m = true) → ∀ n',
      (standardize_images fs0 src tgt (W, H)).fs.lookup (tgt ++ [m]) n'
        = fs0.lookup (tgt ++ [m]) n') ∧
    (∀ m, ¬ (m ∈ fs0.listdir src ∧ fs0.isdir src m = true) →
      (standardize_images fs0 src tgt (W, H)).fs.lookup tgt m
        = fs0.lookup tgt m) ∧
    (∀ q ∈ (standardize_images fs0 src tgt (W, H)).logs,
      q.length = src.length + 2) := by
  unfold standardize_images at hfin ⊢
  have h := std_outer hsep (fs0.listdir src) [] ⟨fs0, [], none⟩
    (by simpa using listdir_nodup hwf0 src) hwf0 rfl
    (fun d n _ => rfl) (fun d _ => rfl)
    (by simp) (by simp) (by simp)
    (fun m _ n' => rfl) (fun m _ => rfl) (by simp) hfin
  simpa using h

/-- Claim C3: for every file that `standardize_images` successfully
processes (a decodable image in a class subdirectory, of any dimensions),
an output image is written whose dimensions equal exactly the configured
target size, under the same filename as the source, inside the mirrored
subdirectory named after the source class. Hypotheses: distinct keys,
disjoint source and target subtrees, and the pass raised no exception. -/
theorem C3_standardize_output (fs0 : FS) (src tgt : Fpath) (W H : Nat)
    (hwf0 : fs0.Wf) (hsep : sepPaths src tgt)
    (hfin : (standardize_images fs0 src tgt (W, H)).err = none)
    (c : String) (hc : c ∈ fs0.listdir src) (hcd : fs0.isdir src c = true)
    (n : String) (w h : Nat)
    (hlk : fs0.lookup (src ++ [c]) n = some (FsNode.file (Content.image w h))) :
    (standardize_images fs0 src tgt (W, H)).fs.lookup (tgt ++ [c]) n
      = some (FsNode.file (Content.image W H)) := by
  obtain ⟨_, _, _, _, m5, _, _, _, _⟩ := std_main hwf0 hsep hfin
  exact m5 c hc hcd n w h hlk

/-- Claim C6: when `standardize_images` fails to process a file (its bytes
do not decode as an image), the failure is logged, the source file is left
untouched, no output file is written for it, and processing continues: every
decodable file of every class still gets its converted output. Hypotheses:
distinct keys, disjoint source and target subtrees, and the pass raised no
exception. -/
theorem C6_standardize_failure_skipped (fs0 : FS) (src tgt : Fpath) (W H : Nat)
    (hwf0 : fs0.Wf) (hsep : sepPaths src tgt)
    (hfin : (standardize_images fs0 src tgt (W, H)).err = none)
    (c : String) (hc : c ∈ fs0.listdir src) (hcd : fs0.isdir src c = true)
    (n : String) (hn : n ∈ fs0.listdir (src ++ [c]))
    (hbad : isImg fs0 (src ++ [c]) n = false) :
    (src ++ [c, n]) ∈ (standardize_images fs0 src tgt (W, H)).logs ∧
    (standardize_images fs0 src tgt (W, H)).fs.lookup (src ++ [c]) n
      = fs0.lookup (src ++ [c]) n ∧
    (standardize_images fs0 src tgt (W, H)).fs.lookup (tgt ++ [c]) n
      = fs0.lookup (tgt ++ [c]) n ∧
    (∀ c2 ∈ fs0.listdir src, fs0.isdir src c2 = true → ∀ n2 w2 h2,
      fs0.lookup (src ++ [c2]) n2 = some (FsNode.file (Content.image w2 h2)) →
      (standardize_images fs0 src tgt (W, H)).fs.lookup (tgt ++ [c2]) n2
        = some (FsNode.file (Content.image W H))) := by
  obtain ⟨_, m2, _, _, m5, m6, _, _, _⟩ := std_main hwf0 hsep hfin
  obtain ⟨hlog, htgt⟩ := m6 c hc hcd n hn (isImg_false_elim hbad)
  exact ⟨hlog, m2 (src ++ [c]) n (pathLE_append_one src c), htgt, m5⟩

/-! ### The splitting pass: copy loops -/

theorem copyLoop_frozen {classPath dstRoot : Fpath} {className : String}
    (names : List String) {acc : FS × Option String} (h : acc.2.isSome) :
    copyLoop classPath dstRoot className names acc = acc := by
  unfold copyLoop
  induction names with
  | nil => rfl
  | cons n rest ih =>
    rw [List.foldl_cons]
    rw [show (if acc.2.isSome then acc
        else match acc.1.makedirs (dstRoot ++ [className]) with
        | Except.error e => (acc.1, some e)
        | Except.ok fs1 =>
          match copyFileStep fs1 classPath n (dstRoot ++ [className]) with
          | Except.error e => (fs1, some e)
          | Except.ok fs2 => (fs2, none)) = acc from if_pos h]
    exact ih

theorem copyLoop_cons {classPath dstRoot : Fpath} {className : String}
    (n : String) (rest : List String) (fs : FS) :
    copyLoop classPath dstRoot className (n :: rest) (fs, none)
      = copyLoop classPath dstRoot className rest
          (match fs.makedirs (dstRoot ++ [className]) with
           | Except.error e => (fs, some e)
           | Except.ok fs1 =>
             match copyFileStep fs1 classPath n (dstRoot ++ [className]) with
             | Except.error e => (fs1, some e)
             | Except.ok fs2 => (fs2, none)) := by
  unfold copyLoop
  rw [List.foldl_cons]
  rfl

theorem copyLoop_cons_mkErr {classPath dstRoot : Fpath} {className n : String}
    {rest : List String} {fs : FS} {e : String}
    (hmk : fs.makedirs (dstRoot ++ [className]) = Except.error e) :
    copyLoop classPath dstRoot className (n :: rest) (fs, none) = (fs, some e) := by
  rw [copyLoop_cons]
  simp only [hmk]
  exact copyLoop_frozen rest rfl

theorem copyLoop_cons_cpErr {classPath dstRoot : Fpath} {className n : String}
    {rest : List String} {fs fs1 : FS} {e : String}
    (hmk : fs.makedirs (dstRoot ++ [className]) = Except.ok fs1)
    (hcp : copyFileStep fs1 classPath n (dstRoot ++ [className]) = Except.error e) :
    copyLoop classPath dstRoot className (n :: rest) (fs, none) = (fs1, some e) := by
  rw [copyLoop_cons]
  simp only [hmk, hcp]
  exact copyLoop_frozen rest rfl

theorem copyLoop_cons_ok {classPath dstRoot : Fpath} {className n : String}
    {rest : List String} {fs fs1 fs2 : FS}
    (hmk : fs.makedirs (dstRoot ++ [className]) = Except.ok fs1)
    (hcp : copyFileStep fs1 classPath n (dstRoot ++ [className]) = Except.ok fs2) :
    copyLoop classPath dstRoot className (n :: rest) (fs, none)
      = copyLoop classPath dstRoot className rest (fs2, none) := by
  rw [copyLoop_cons]
  simp only [hmk, hcp]

theorem copyFileStep_ok_elim {fs fs2 : FS} {src dst : Fpath} {n : String}
    (hcp : copyFileStep fs src n dst = Except.ok fs2) :
    ∃ cnt, fs.lookup src n = some (FsNode.file cnt)
      ∧ fs2 = fs.writeFile dst n cnt := by
  unfold copyFileStep at hcp
  cases hl : fs.lookup src n with
  | none => rw [hl] at hcp; cases hcp
  | some v =>
    rw [hl] at hcp
    cases v with
    | dir => cases hcp
    | file cnt =>
      simp only [Except.ok.injEq] at hcp
      exact ⟨cnt, rfl, hcp.symm⟩

theorem copyLoop_frame {classPath dstRoot : Fpath} {className : String}
    (names : List String) :
    ∀ acc : FS × Option String,
    (∀ d n', (∀ pre x post, dstRoot ++ [className] = pre ++ x :: post
        → ¬ (d = pre ∧ n' = x)) → (d ≠ dstRoot ++ [className] ∨ n' ∉ names) →
      (copyLoop classPath dstRoot className names acc).1.lookup d n'
        = acc.1.lookup d n') ∧
    (∀ d, (∀ i, i < (dstRoot ++ [className]).length
        → d ≠ (dstRoot ++ [className]).take i) → d ≠ dstRoot ++ [className] →
      (copyLoop classPath dstRoot className names acc).1.listdir d
        = acc.1.listdir d) ∧
    (∀ d n' v, d ≠ dstRoot ++ [className] → acc.1.lookup d n' = some v →
      (copyLoop classPath dstRoot className names acc).1.lookup d n' = some v) ∧
    (acc.1.Wf → (copyLoop classPath dstRoot className names acc).1.Wf) := by
  induction names with
  | nil =>
    intro acc
    exact ⟨fun d n' _ _ => rfl, fun d _ _ => rfl, fun d n' v _ h => h, fun h => h⟩
  | cons n rest ih =>
    intro acc
    by_cases hfz : acc.2.isSome
    · rw [copyLoop_frozen (n :: rest) hfz]
      exact ⟨fun d n' _ _ => rfl, fun d _ _ => rfl, fun d n' v _ h => h, fun h => h⟩
    · have hacc : acc = (acc.1, none) := by
        cases hval : acc.2 with
        | none => exact Prod.ext rfl hval
        | some e => rw [hval] at hfz; exact absurd rfl hfz
      rw [hacc]
      cases hmk : acc.1.makedirs (dstRoot ++ [className]) with
      | error e =>
        rw [copyLoop_cons_mkErr hmk]
        exact ⟨fun d n' _ _ => rfl, fun d _ _ => rfl, fun d n' v _ h => h,
          fun h => h⟩
      | ok fs1 =>
        cases hcp : copyFileStep fs1 classPath n (dstRoot ++ [className]) with
        | error e =>
          rw [copyLoop_cons_cpErr hmk hcp]
          refine ⟨?_, ?_, ?_, ?_⟩
          · intro d n' hc _
            exact makedirs_key_untouched hmk (fun pre x post hs => hc pre x post hs)
          · intro d hc _
            exact makedirs_listdir_untouched hmk hc
          · intro d n' v _ h
            exact makedirs_some_preserve hmk h
          · intro h
            exact makedirs_wf h hmk
        | ok fs2 =>
          obtain ⟨cnt, hl, hfs2⟩ := copyFileStep_ok_elim hcp
          rw [copyLoop_cons_ok hmk hcp]
          obtain ⟨f1, f2, f3, f4⟩ := ih (fs2, none)
          refine ⟨?_, ?_, ?_, ?_⟩
          · intro d n' hc hd
            have hd' : d ≠ dstRoot ++ [className] ∨ n' ∉ rest := by
              rcases hd with hd | hd
              · exact Or.inl hd
              · exact Or.inr (fun hmem => hd (List.mem_cons.mpr (Or.inr hmem)))
            rw [f1 d n' hc hd']
            show fs2.lookup d n' = acc.1.lookup d n'
            rw [hfs2]
            rw [lookup_writeFile_ne fs1 _ (by
              rintro ⟨h1, h2⟩
              rcases hd with hd | hd
              · exact hd h1
              · exact hd (by rw [h2]; exact List.mem_cons.mpr (Or.inl rfl)))]
            exact makedirs_key_untouched hmk (fun pre x post hs => hc pre x post hs)
          · intro d hc hd
            rw [f2 d hc hd]
            show fs2.listdir d = acc.1.listdir d
            rw [hfs2]
            rw [listdir_writeFile_ne fs1 _ _ hd]
            exact makedirs_listdir_untouched hmk hc
          · intro d n' v hd h
            apply f3 d n' v hd
            show fs2.lookup d n' = some v
            rw [hfs2]
            rw [lookup_writeFile_ne fs1 _ (fun hcon => hd hcon.1)]
            exact makedirs_some_preserve hmk h
          · intro h
            apply f4
            show fs2.Wf
            rw [hfs2]
            exact writeFile_wf (makedirs_wf h hmk) _ _ _

theorem key_cond_dst (t : Fpath) (c n' : String) :
    ∀ pre x post, t ++ [c] = pre ++ x :: post → ¬ (t ++ [c] = pre ∧ n' = x) := by
  rintro pre x post hs ⟨h1, _⟩
  have hlen := split_child_len hs
  rw [← h1] at hlen
  simp at hlen

theorem key_cond_sep {a t : Fpath} (hsep : sepPaths a t) {d : Fpath}
    (hd : pathLE a d) (c n' : String) :
    ∀ pre x post, t ++ [c] = pre ++ x :: post → ¬ (d = pre ∧ n' = x) := by
  rintro pre x post hs ⟨h1, _⟩
  rw [h1] at hd
  exact sep_not_le_child hsep c (pathLE_trans hd (split_child_pathLE hs))

theorem key_cond_root_ne {t : Fpath} {c m : String} (hmc : m ≠ c) :
    ∀ pre x post, t ++ [c] = pre ++ x :: post → ¬ (t = pre ∧ m = x) := by
  rintro pre x post hs ⟨h1, h2⟩
  exact hmc (h2.trans (split_child_parent_eq hs h1.symm))

theorem copyLoop_copies {classPath dstRoot : Fpath} {className : String}
    (hcpre : ∀ pre x post, dstRoot ++ [className] = pre ++ x :: post
      → pre ≠ classPath)
    (hne : classPath ≠ dstRoot ++ [className]) :
    ∀ names : List String, names.Nodup → ∀ fs : FS,
    (copyLoop classPath dstRoot className names (fs, none)).2 = none →
    (∀ n ∈ names,
      (copyLoop classPath dstRoot className names (fs, none)).1.lookup
        (dstRoot ++ [className]) n = fs.lookup classPath n) ∧
    (names ≠ [] →
      (copyLoop classPath dstRoot className names (fs, none)).1.lookup
        dstRoot className = some FsNode.dir) := by
  intro names
  induction names with
  | nil =>
    intro _ fs _
    exact ⟨fun n hn => absurd hn (List.not_mem_nil n), fun h => absurd rfl h⟩
  | cons n rest ih =>
    intro hnd fs hz
    have hnmem := (List.nodup_cons.mp hnd).1
    have hnd' := (List.nodup_cons.mp hnd).2
    cases hmk : fs.makedirs (dstRoot ++ [className]) with
    | error e =>
      rw [copyLoop_cons_mkErr hmk] at hz
      cases hz
    | ok fs1 =>
      cases hcp : copyFileStep fs1 classPath n (dstRoot ++ [className]) with
      | error e =>
        rw [copyLoop_cons_cpErr hmk hcp] at hz
        cases hz
      | ok fs2 =>
        rw [copyLoop_cons_ok hmk hcp] at hz ⊢
        obtain ⟨cnt, hl, hfs2⟩ := copyFileStep_ok_elim hcp
        have hsrc : ∀ m : String, fs1.lookup classPath m = fs.lookup classPath m :=
          fun m => makedirs_key_untouched hmk
            (by rintro pre x post hs ⟨h1, _⟩; exact hcpre pre x post hs h1.symm)
        obtain ⟨c1, c2⟩ := ih hnd' fs2 hz
        obtain ⟨f1, _, f3, _⟩ := copyLoop_frame rest (fs2, none)
        refine ⟨?_, ?_⟩
        · intro m hm
          rcases List.mem_cons.mp hm with hm | hm
          · rw [hm]
            rw [f1 (dstRoot ++ [className]) n (key_cond_dst dstRoot className n)
              (Or.inr hnmem)]
            show fs2.lookup (dstRoot ++ [className]) n = fs.lookup classPath n
            rw [hfs2, lookup_writeFile_self, ← hsrc n, hl]
          · rw [c1 m hm]
            rw [hfs2, lookup_writeFile_ne fs1 _ (fun hcon => hne hcon.1)]
            exact hsrc m
        · intro _
          have hdir : fs2.lookup dstRoot className = some FsNode.dir := by
            rw [hfs2, lookup_writeFile_ne fs1 _
              (fun hcon => child_ne_parent dstRoot className hcon.1.symm)]
            exact makedirs_creates_last hmk
          exact f3 dstRoot className FsNode.dir
            (fun h => child_ne_parent dstRoot className h.symm) hdir

/-! ### The splitting pass: one class step -/

theorem splitClassStep_frozen {src tr va te : Fpath} {r1 r2 : ℚ}
    {pA : Nat → List Nat} {pB : String → Nat → List Nat} {st : SplitSt}
    (h : st.err.isSome) (c : String) :
    splitClassStep src tr va te r1 r2 pA pB st c = st := by
  unfold splitClassStep
  rw [if_pos h]

theorem split_fold_frozen {src tr va te : Fpath} {r1 r2 : ℚ}
    {pA : Nat → List Nat} {pB : String → Nat → List Nat} (l : List String)
    {st : SplitSt} (h : st.err.isSome) :
    l.foldl (splitClassStep src tr va te r1 r2 pA pB) st = st := by
  induction l with
  | nil => rfl
  | cons c rest ih =>
    rw [List.foldl_cons, splitClassStep_frozen h]
    exact ih

theorem splitClassStep_skip {src tr va te : Fpath} {r1 r2 : ℚ}
    {pA : Nat → List Nat} {pB : String → Nat → List Nat} {st : SplitSt}
    (herr : st.err = none) {c : String} (hd : st.fs.isdir src c = false) :
    splitClassStep src tr va te r1 r2 pA pB st c = st := by
  unfold splitClassStep
  rw [herr]
  simp [hd]

theorem splitClassStep_eq {src tr va te : Fpath} {r1 r2 : ℚ}
    {pA : Nat → List Nat} {pB : String → Nat → List Nat} {st : SplitSt}
    {c : String} (herr : st.err = none) (hdir : st.fs.isdir src c = true) :
    splitClassStep src tr va te r1 r2 pA pB st c =
      match splitClass (st.fs.listdir (src ++ [c])) r1 r2
          (pA (st.fs.listdir (src ++ [c])).length) (pB c) with
      | Except.error e => { st with err := some e }
      | Except.ok (T, V, Te) =>
        { fs := (copyAll src tr va te c T V Te st.fs).1,
          asgn := st.asgn ++ [(c, T, V, Te)],
          err := (copyAll src tr va te c T V Te st.fs).2 } := by
  unfold splitClassStep copyAll
  rw [herr]
  simp [hdir]

theorem splitClassStep_eq_err {src tr va te : Fpath} {r1 r2 : ℚ}
    {pA : Nat → List Nat} {pB : String → Nat → List Nat} {st : SplitSt}
    {c : String} {e : String} (herr : st.err = none)
    (hdir : st.fs.isdir src c = true)
    (hsc : splitClass (st.fs.listdir (src ++ [c])) r1 r2
        (pA (st.fs.listdir (src ++ [c])).length) (pB c) = Except.error e) :
    splitClassStep src tr va te r1 r2 pA pB st c = { st with err := some e } := by
  rw [splitClassStep_eq herr hdir, hsc]

theorem splitClassStep_eq_ok {src tr va te : Fpath} {r1 r2 : ℚ}
    {pA : Nat → List Nat} {pB : String → Nat → List Nat} {st : SplitSt}
    {c : String} {T V Te : List String} (herr : st.err = none)
    (hdir : st.fs.isdir src c = true)
    (hsc : splitClass (st.fs.listdir (src ++ [c])) r1 r2
        (pA (st.fs.listdir (src ++ [c])).length) (pB c) = Except.ok (T, V, Te)) :
    splitClassStep src tr va te r1 r2 pA pB st c =
      { fs := (copyAll src tr va te c T V Te st.fs).1,
        asgn := st.asgn ++ [(c, T, V, Te)],
        err := (copyAll src tr va te c T V Te st.fs).2 } := by
  rw [splitClassStep_eq herr hdir, hsc]

theorem copyAll_frame {src tr va te : Fpath} {c : String} (T V Te : List String)
    (fs : FS) :
    (∀ d n',
      (∀ pre x post, tr ++ [c] = pre ++ x :: post → ¬ (d = pre ∧ n' = x)) →
      (∀ pre x post, va ++ [c] = pre ++ x :: post → ¬ (d = pre ∧ n' = x)) →
      (∀ pre x post, te ++ [c] = pre ++ x :: post → ¬ (d = pre ∧ n' = x)) →
      d ≠ tr ++ [c] → d ≠ va ++ [c] → d ≠ te ++ [c] →
      (copyAll src tr va te c T V Te fs).1.lookup d n' = fs.lookup d n') ∧
    (∀ d,
      (∀ i, i < (tr ++ [c]).length → d ≠ (tr ++ [c]).take i) →
      (∀ i, i < (va ++ [c]).length → d ≠ (va ++ [c]).take i) →
      (∀ i, i < (te ++ [c]).length → d ≠ (te ++ [c]).take i) →
      d ≠ tr ++ [c] → d ≠ va ++ [c] → d ≠ te ++ [c] →
      (copyAll src tr va te c T V Te fs).1.listdir d = fs.listdir d) ∧
    (fs.Wf → (copyAll src tr va te c T V Te fs).1.Wf) := by
  obtain ⟨a1, b1, _, w1⟩ := @copyLoop_frame (src ++ [c]) tr c T (fs, none)
  obtain ⟨a2, b2, _, w2⟩ := @copyLoop_frame (src ++ [c]) va c V
    (copyLoop (src ++ [c]) tr c T (fs, none))
  obtain ⟨a3, b3, _, w3⟩ := @copyLoop_frame (src ++ [c]) te c Te
    (copyLoop (src ++ [c]) va c V (copyLoop (src ++ [c]) tr c T (fs, none)))
  refine ⟨?_, ?_, ?_⟩
  · intro d n' hc1 hc2 hc3 hd1 hd2 hd3
    unfold copyAll
    rw [a3 d n' hc3 (Or.inl hd3), a2 d n' hc2 (Or.inl hd2)]
    exact a1 d n' hc1 (Or.inl hd1)
  · intro d hc1 hc2 hc3 hd1 hd2 hd3
    unfold copyAll
    rw [b3 d hc3 hd3, b2 d hc2 hd2]
    exact b1 d hc1 hd1
  · intro hwf
    unfold copyAll
    exact w3 (w2 (w1 hwf))

theorem copyAll_copies {src tr va te : Fpath} {c : String}
    (hstr : sepPaths src tr) (hsva : sepPaths src va) (hste : sepPaths src te)
    (htrva : sepPaths tr va) (htrte : sepPaths tr te) (hvate : sepPaths va te)
    {T V Te : List String} (hndT : T.Nodup) (hndV : V.Nodup) (hndTe : Te.Nodup)
    (fs : FS) (hz : (copyAll src tr va te c T V Te fs).2 = none) :
    (∀ n ∈ T, (copyAll src tr va te c T V Te fs).1.lookup (tr ++ [c]) n
      = fs.lookup (src ++ [c]) n) ∧
    (∀ n ∈ V, (copyAll src tr va te c T V Te fs).1.lookup (va ++ [c]) n
      = fs.lookup (src ++ [c]) n) ∧
    (∀ n ∈ Te, (copyAll src tr va te c T V Te fs).1.lookup (te ++ [c]) n
      = fs.lookup (src ++ [c]) n) ∧
    (T ≠ [] → (copyAll src tr va te c T V Te fs).1.lookup tr c = some FsNode.dir) ∧
    (V ≠ [] → (copyAll src tr va te c T V Te fs).1.lookup va c = some FsNode.dir) ∧
    (Te ≠ [] → (copyAll src tr va te c T V Te fs).1.lookup te c = some FsNode.dir)
    := by
  have hne1 : src ++ [c] ≠ tr ++ [c] := child_ne_of_sep (sepPaths_symm hstr) c c
  have hne2 : src ++ [c] ≠ va ++ [c] := child_ne_of_sep (sepPaths_symm hsva) c c
  have hne3 : src ++ [c] ≠ te ++ [c] := child_ne_of_sep (sepPaths_symm hste) c c
  have hcpre1 : ∀ pre x post, tr ++ [c] = pre ++ x :: post → pre ≠ src ++ [c] := by
    intro pre x post hs hcon
    have := split_child_pathLE hs
    rw [hcon] at this
    exact sep_not_le_child hstr c
      (pathLE_trans (pathLE_append_one src c) this)
  have hcpre2 : ∀ pre x post, va ++ [c] = pre ++ x :: post → pre ≠ src ++ [c] := by
    intro pre x post hs hcon
    have := split_child_pathLE hs
    rw [hcon] at this
    exact sep_not_le_child hsva c
      (pathLE_trans (pathLE_append_one src c) this)
  have hcpre3 : ∀ pre x post, te ++ [c] = pre ++ x :: post → pre ≠ src ++ [c] := by
    intro pre x post hs hcon
    have := split_child_pathLE hs
    rw [hcon] at this
    exact sep_not_le_child hste c
      (pathLE_trans (pathLE_append_one src c) this)
  have hz2 : (copyLoop (src ++ [c]) va c V
      (copyLoop (src ++ [c]) tr c T (fs, none))).2 = none := by
    cases h : (copyLoop (src ++ [c]) va c V
        (copyLoop (src ++ [c]) tr c T (fs, none))).2 with
    | none => rfl
    | some e =>
      unfold copyAll at hz
      rw [copyLoop_frozen Te (by rw [h]; rfl)] at hz
      rw [h] at hz
      cases hz
  have hz1 : (copyLoop (src ++ [c]) tr c T (fs, none)).2 = none := by
    cases h : (copyLoop (src ++ [c]) tr c T (fs, none)).2 with
    | none => rfl
    | some e =>
      rw [copyLoop_frozen V (by rw [h]; rfl)] at hz2
      rw [h] at hz2
      cases hz2
  have hL1p : copyLoop (src ++ [c]) tr c T (fs, none)
      = ((copyLoop (src ++ [c]) tr c T (fs, none)).1, none) := Prod.ext rfl hz1
  have hL2p : copyLoop (src ++ [c]) va c V (copyLoop (src ++ [c]) tr c T (fs, none))
      = ((copyLoop (src ++ [c]) va c V
          (copyLoop (src ++ [c]) tr c T (fs, none))).1, none) := Prod.ext rfl hz2
  obtain ⟨p1, q1⟩ := @copyLoop_copies (src ++ [c]) tr c hcpre1 hne1 T hndT fs hz1
  obtain ⟨p2, q2⟩ := @copyLoop_copies (src ++ [c]) va c hcpre2 hne2 V hndV
    (copyLoop (src ++ [c]) tr c T (fs, none)).1 (by rw [← hL1p]; exact hz2)
  obtain ⟨p3, q3⟩ := @copyLoop_copies (src ++ [c]) te c hcpre3 hne3 Te hndTe
    (copyLoop (src ++ [c]) va c V (copyLoop (src ++ [c]) tr c T (fs, none))).1
    (by rw [← hL2p]; unfold copyAll at hz; exact hz)
  obtain ⟨f1, _, g1, _⟩ := @copyLoop_frame (src ++ [c]) tr c T (fs, none)
  obtain ⟨f2, _, g2, _⟩ := @copyLoop_frame (src ++ [c]) va c V
    (copyLoop (src ++ [c]) tr c T (fs, none))
  obtain ⟨f3, _, g3, _⟩ := @copyLoop_frame (src ++ [c]) te c Te
    (copyLoop (src ++ [c]) va c V (copyLoop (src ++ [c]) tr c T (fs, none)))
  refine ⟨?_, ?_, ?_, ?_, ?_, ?_⟩
  · intro n hn
    unfold copyAll
    rw [f3 (tr ++ [c]) n (key_cond_sep htrte (pathLE_append_one tr c) c n)
      (Or.inl (child_ne_of_sep (sepPaths_symm htrte) c c))]
    rw [f2 (tr ++ [c]) n (key_cond_sep htrva (pathLE_append_one tr c) c n)
      (Or.inl (child_ne_of_sep (sepPaths_symm htrva) c c))]
    exact p1 n hn
  · intro n hn
    unfold copyAll
    rw [f3 (va ++ [c]) n (key_cond_sep hvate (pathLE_append_one va c) c n)
      (Or.inl (child_ne_of_sep (sepPaths_symm hvate) c c))]
    rw [hL1p, p2 n hn]
    exact f1 (src ++ [c]) n (key_cond_sep hstr (pathLE_append_one src c) c n)
      (Or.inl hne1)
  · intro n hn
    unfold copyAll
    rw [hL2p, p3 n hn]
    rw [f2 (src ++ [c]) n (key_cond_sep hsva (pathLE_append_one src c) c n)
      (Or.inl hne2)]
    exact f1 (src ++ [c]) n (key_cond_sep hstr (pathLE_append_one src c) c n)
      (Or.inl hne1)
  · intro hTne
    unfold copyAll
    apply g3 tr c FsNode.dir (fun h => htrte.2 (by rw [h]; exact pathLE_append_one te c))
    apply g2 tr c FsNode.dir (fun h => htrva.2 (by rw [h]; exact pathLE_append_one va c))
    exact q1 hTne
  · intro hVne
    unfold copyAll
    apply g3 va c FsNode.dir (fun h => hvate.2 (by rw [h]; exact pathLE_append_one te c))
    rw [hL1p]
    exact q2 hVne
  · intro hTeNe
    unfold copyAll
    rw [hL2p]
    exact q3 hTeNe

theorem key_cond_same_child {t : Fpath} {m c : String} (hmc : m ≠ c) (n' : String) :
    ∀ pre x post, t ++ [c] = pre ++ x :: post → ¬ (t ++ [m] = pre ∧ n' = x) := by
  rintro pre x post hs ⟨h1, _⟩
  have hle := split_child_pathLE hs
  rw [← h1] at hle
  unfold pathLE at hle
  rw [List.take_of_length_le (by simp)] at hle
  exact hmc (append_last_inj hle.symm)

theorem splitClassStep_key_frame {src tr va te : Fpath} {r1 r2 : ℚ}
    {pA : Nat → List Nat} {pB : String → Nat → List Nat} {st : SplitSt}
    (c : String) : ∀ d n',
    (∀ pre x post, tr ++ [c] = pre ++ x :: post → ¬ (d = pre ∧ n' = x)) →
    (∀ pre x post, va ++ [c] = pre ++ x :: post → ¬ (d = pre ∧ n' = x)) →
    (∀ pre x post, te ++ [c] = pre ++ x :: post → ¬ (d = pre ∧ n' = x)) →
    d ≠ tr ++ [c] → d ≠ va ++ [c] → d ≠ te ++ [c] →
    (splitClassStep src tr va te r1 r2 pA pB st c).fs.lookup d n'
      = st.fs.lookup d n' := by
  intro d n' hc1 hc2 hc3 hd1 hd2 hd3
  cases herr : st.err with
  | some e => rw [splitClassStep_frozen (by rw [herr]; rfl) c]
  | none =>
    cases hdir : st.fs.isdir src c with
    | false => rw [splitClassStep_skip herr hdir]
    | true =>
      cases hsc : splitClass (st.fs.listdir (src ++ [c])) r1 r2
          (pA (st.fs.listdir (src ++ [c])).length) (pB c) with
      | error e => rw [splitClassStep_eq_err herr hdir hsc]
      | ok t3 =>
        obtain ⟨T, V, Te⟩ := t3
        rw [splitClassStep_eq_ok herr hdir hsc]
        obtain ⟨fa, _, _⟩ := @copyAll_frame src tr va te c T V Te st.fs
        exact fa d n' hc1 hc2 hc3 hd1 hd2 hd3

theorem split_tframe {src tr va te : Fpath} {r1 r2 : ℚ}
    {pA : Nat → List Nat} {pB : String → Nat → List Nat}
    (htrva : sepPaths tr va) (htrte : sepPaths tr te) (hvate : sepPaths va te)
    (l : List String) :
    ∀ st : SplitSt, ∀ m : String, m ∉ l →
    (l.foldl (splitClassStep src tr va te r1 r2 pA pB) st).fs.lookup tr m
      = st.fs.lookup tr m ∧
    (l.foldl (splitClassStep src tr va te r1 r2 pA pB) st).fs.lookup va m
      = st.fs.lookup va m ∧
    (l.foldl (splitClassStep src tr va te r1 r2 pA pB) st).fs.lookup te m
      = st.fs.lookup te m ∧
    (∀ n', (l.foldl (splitClassStep src tr va te r1 r2 pA pB) st).fs.lookup
      (tr ++ [m]) n' = st.fs.lookup (tr ++ [m]) n') ∧
    (∀ n', (l.foldl (splitClassStep src tr va te r1 r2 pA pB) st).fs.lookup
      (va ++ [m]) n' = st.fs.lookup (va ++ [m]) n') ∧
    (∀ n', (l.foldl (splitClassStep src tr va te r1 r2 pA pB) st).fs.lookup
      (te ++ [m]) n' = st.fs.lookup (te ++ [m]) n') := by
  induction l with
  | nil =>
    intro st m _
    exact ⟨rfl, rfl, rfl, fun _ => rfl, fun _ => rfl, fun _ => rfl⟩
  | cons c rest ih =>
    intro st m hm
    have hmc : m ≠ c := fun h => hm (h ▸ List.mem_cons_self c rest)
    have hmrest : m ∉ rest := fun h => hm (List.mem_cons.mpr (Or.inr h))
    rw [List.foldl_cons]
    obtain ⟨i1, i2, i3, i4, i5, i6⟩ :=
      ih (splitClassStep src tr va te r1 r2 pA pB st c) m hmrest
    refine ⟨?_, ?_, ?_, ?_, ?_, ?_⟩
    · rw [i1]
      exact splitClassStep_key_frame c tr m
        (key_cond_root_ne hmc)
        (key_cond_sep htrva (pathLE_refl tr) c m)
        (key_cond_sep htrte (pathLE_refl tr) c m)
        (root_ne_child tr c)
        (fun h => htrva.2 (by rw [h]; exact pathLE_append_one va c))
        (fun h => htrte.2 (by rw [h]; exact pathLE_append_one te c))
    · rw [i2]
      exact splitClassStep_key_frame c va m
        (key_cond_sep (sepPaths_symm htrva) (pathLE_refl va) c m)
        (key_cond_root_ne hmc)
        (key_cond_sep hvate (pathLE_refl va) c m)
        (fun h => (sepPaths_symm htrva).2 (by rw [h]; exact pathLE_append_one tr c))
        (root_ne_child va c)
        (fun h => hvate.2 (by rw [h]; exact pathLE_append_one te c))
    · rw [i3]
      exact splitClassStep_key_frame c te m
        (key_cond_sep (sepPaths_symm htrte) (pathLE_refl te) c m)
        (key_cond_sep (sepPaths_symm hvate) (pathLE_refl te) c m)
        (key_cond_root_ne hmc)
        (fun h => (sepPaths_symm htrte).2 (by rw [h]; exact pathLE_append_one tr c))
        (fun h => (sepPaths_symm hvate).2 (by rw [h]; exact pathLE_append_one va c))
        (root_ne_child te c)
    · intro n'
      rw [i4 n']
      exact splitClassStep_key_frame c (tr ++ [m]) n'
        (key_cond_same_child hmc n')
        (key_cond_sep htrva (pathLE_append_one tr m) c n')
        (key_cond_sep htrte (pathLE_append_one tr m) c n')
        (fun h => hmc (append_last_inj h))
        (child_ne_of_sep (sepPaths_symm htrva) m c)
        (child_ne_of_sep (sepPaths_symm htrte) m c)
    · intro n'
      rw [i5 n']
      exact splitClassStep_key_frame c (va ++ [m]) n'
        (key_cond_sep (sepPaths_symm htrva) (pathLE_append_one va m) c n')
        (key_cond_same_child hmc n')
        (key_cond_sep hvate (pathLE_append_one va m) c n')
        (child_ne_of_sep htrva m c)
        (fun h => hmc (append_last_inj h))
        (child_ne_of_sep (sepPaths_symm hvate) m c)
    · intro n'
      rw [i6 n']
      exact splitClassStep_key_frame c (te ++ [m]) n'
        (key_cond_sep (sepPaths_symm htrte) (pathLE_append_one te m) c n')
        (key_cond_sep (sepPaths_symm hvate) (pathLE_append_one te m) c n')
        (key_cond_same_child hmc n')
        (child_ne_of_sep htrte m c)
        (child_ne_of_sep hvate m c)
        (fun h => hmc (append_last_inj h))

theorem split_outer_weak {fs0 : FS} {src tr va te : Fpath} {r1 r2 : ℚ}
    {pA : Nat → List Nat} {pB : String → Nat → List Nat}
    (hstr : sepPaths src tr) (hsva : sepPaths src va) (hste : sepPaths src te)
    (l : List String) :
    ∀ st : SplitSt,
    st.fs.Wf →
    (∀ d n', pathLE src d → st.fs.lookup d n' = fs0.lookup d n') →
    (∀ d, pathLE src d → st.fs.listdir d = fs0.listdir d) →
    (∀ e ∈ st.asgn, fs0.isdir src e.1 = true ∧
      splitClass (fs0.listdir (src ++ [e.1])) r1 r2
        (pA (fs0.listdir (src ++ [e.1])).length) (pB e.1) = Except.ok e.2) →
    (l.foldl (splitClassStep src tr va te r1 r2 pA pB) st).fs.Wf ∧
    (∀ d n', pathLE src d →
      (l.foldl (splitClassStep src tr va te r1 r2 pA pB) st).fs.lookup d n'
        = fs0.lookup d n') ∧
    (∀ d, pathLE src d →
      (l.foldl (splitClassStep src tr va te r1 r2 pA pB) st).fs.listdir d
        = fs0.listdir d) ∧
    (∀ e ∈ (l.foldl (splitClassStep src tr va te r1 r2 pA pB) st).asgn,
      fs0.isdir src e.1 = true ∧
      splitClass (fs0.listdir (src ++ [e.1])) r1 r2
        (pA (fs0.listdir (src ++ [e.1])).length) (pB e.1) = Except.ok e.2) := by
  induction l with
  | nil =>
    intro st w1 w2 w3 w4
    exact ⟨w1, w2, w3, w4⟩
  | cons c rest ih =>
    intro st w1 w2 w3 w4
    rw [List.foldl_cons]
    apply ih
    · cases herr : st.err with
      | some e => rw [splitClassStep_frozen (by rw [herr]; rfl) c]; exact w1
      | none =>
        cases hdir : st.fs.isdir src c with
        | false => rw [splitClassStep_skip herr hdir]; exact w1
        | true =>
          cases hsc : splitClass (st.fs.listdir (src ++ [c])) r1 r2
              (pA (st.fs.listdir (src ++ [c])).length) (pB c) with
          | error e => rw [splitClassStep_eq_err herr hdir hsc]; exact w1
          | ok t3 =>
            obtain ⟨T, V, Te⟩ := t3
            rw [splitClassStep_eq_ok herr hdir hsc]
            obtain ⟨_, _, fw⟩ := @copyAll_frame src tr va te c T V Te st.fs
            exact fw w1
    · intro d n' hd
      rw [← w2 d n' hd]
      exact splitClassStep_key_frame c d n'
        (key_cond_sep hstr hd c n')
        (key_cond_sep hsva hd c n')
        (key_cond_sep hste hd c n')
        (fun h => sep_not_le_child hstr c (h ▸ hd))
        (fun h => sep_not_le_child hsva c (h ▸ hd))
        (fun h => sep_not_le_child hste c (h ▸ hd))
    · intro d hd
      rw [← w3 d hd]
      cases herr : st.err with
      | some e => rw [splitClassStep_frozen (by rw [herr]; rfl) c]
      | none =>
        cases hdir : st.fs.isdir src c with
        | false => rw [splitClassStep_skip herr hdir]
        | true =>
          cases hsc : splitClass (st.fs.listdir (src ++ [c])) r1 r2
              (pA (st.fs.listdir (src ++ [c])).length) (pB c) with
          | error e => rw [splitClassStep_eq_err herr hdir hsc]
          | ok t3 =>
            obtain ⟨T, V, Te⟩ := t3
            rw [splitClassStep_eq_ok herr hdir hsc]
            obtain ⟨_, fl, _⟩ := @copyAll_frame src tr va te c T V Te st.fs
            exact fl d
              (untouched_cond_of_sep hstr hd c)
              (untouched_cond_of_sep hsva hd c)
              (untouched_cond_of_sep hste hd c)
              (fun h => sep_not_le_child hstr c (h ▸ hd))
              (fun h => sep_not_le_child hsva c (h ▸ hd))
              (fun h => sep_not_le_child hste c (h ▸ hd))
    · intro e he
      cases herr : st.err with
      | some er =>
        rw [splitClassStep_frozen (by rw [herr]; rfl) c] at he
        exact w4 e he
      | none =>
        cases hdir : st.fs.isdir src c with
        | false =>
          rw [splitClassStep_skip herr hdir] at he
          exact w4 e he
        | true =>
          cases hsc : splitClass (st.fs.listdir (src ++ [c])) r1 r2
              (pA (st.fs.listdir (src ++ [c])).length) (pB c) with
          | error er =>
            rw [splitClassStep_eq_err herr hdir hsc] at he
            exact w4 e he
          | ok t3 =>
            obtain ⟨T, V, Te⟩ := t3
            rw [splitClassStep_eq_ok herr hdir hsc] at he
            simp only [List.mem_append, List.mem_singleton] at he
            rcases he with he | he
            · exact w4 e he
            · have hld : st.fs.listdir (src ++ [c]) = fs0.listdir (src ++ [c]) :=
                w3 (src ++ [c]) (pathLE_append_one src c)
              rw [he]
              refine ⟨?_, ?_⟩
              · show fs0.isdir src c = true
                unfold FS.isdir at hdir ⊢
                rw [← w2 src c (pathLE_refl src)]
                exact hdir
              · show splitClass (fs0.listdir (src ++ [c])) r1 r2
                    (pA (fs0.listdir (src ++ [c])).length) (pB c)
                  = Except.ok (T, V, Te)
                rw [← hld]
                exact hsc

theorem split_fold_err_none {src tr va te : Fpath} {r1 r2 : ℚ}
    {pA : Nat → List Nat} {pB : String → Nat → List Nat} (l : List String)
    {st : SplitSt}
    (h : (l.foldl (splitClassStep src tr va te r1 r2 pA pB) st).err = none) :
    st.err = none := by
  cases he : st.err with
  | none => rfl
  | some e =>
    rw [split_fold_frozen l (by rw [he]; rfl)] at h
    rw [he] at h
    cases h

theorem copyAll_other_frame {src tr va te : Fpath} {c : String}
    (htrva : sepPaths tr va) (htrte : sepPaths tr te) (hvate : sepPaths va te)
    (T V Te : List String) (fs : FS) :
    ∀ m, m ≠ c →
    (copyAll src tr va te c T V Te fs).1.lookup tr m = fs.lookup tr m ∧
    (copyAll src tr va te c T V Te fs).1.lookup va m = fs.lookup va m ∧
    (copyAll src tr va te c T V Te fs).1.lookup te m = fs.lookup te m ∧
    (∀ n', (copyAll src tr va te c T V Te fs).1.lookup (tr ++ [m]) n'
      = fs.lookup (tr ++ [m]) n') ∧
    (∀ n', (copyAll src tr va te c T V Te fs).1.lookup (va ++ [m]) n'
      = fs.lookup (va ++ [m]) n') ∧
    (∀ n', (copyAll src tr va te c T V Te fs).1.lookup (te ++ [m]) n'
      = fs.lookup (te ++ [m]) n') := by
  intro m hmc
  obtain ⟨fa, _, _⟩ := @copyAll_frame src tr va te c T V Te fs
  refine ⟨?_, ?_, ?_, ?_, ?_, ?_⟩
  · exact fa tr m
      (key_cond_root_ne hmc)
      (key_cond_sep htrva (pathLE_refl tr) c m)
      (key_cond_sep htrte (pathLE_refl tr) c m)
      (root_ne_child tr c)
      (fun h => htrva.2 (by rw [h]; exact pathLE_append_one va c))
      (fun h => htrte.2 (by rw [h]; exact pathLE_append_one te c))
  · exact fa va m
      (key_cond_sep (sepPaths_symm htrva) (pathLE_refl va) c m)
      (key_cond_root_ne hmc)
      (key_cond_sep hvate (pathLE_refl va) c m)
      (fun h => (sepPaths_symm htrva).2 (by rw [h]; exact pathLE_append_one tr c))
      (root_ne_child va c)
      (fun h => hvate.2 (by rw [h]; exact pathLE_append_one te c))
  · exact fa te m
      (key_cond_sep (sepPaths_symm htrte) (pathLE_refl te) c m)
      (key_cond_sep (sepPaths_symm hvate) (pathLE_refl te) c m)
      (key_cond_root_ne hmc)
      (fun h => (sepPaths_symm htrte).2 (by rw [h]; exact pathLE_append_one tr c))
      (fun h => (sepPaths_symm hvate).2 (by rw [h]; exact pathLE_append_one va c))
      (root_ne_child te c)
  · intro n'
    exact fa (tr ++ [m]) n'
      (key_cond_same_child hmc n')
      (key_cond_sep htrva (pathLE_append_one tr m) c n')
      (key_cond_sep htrte (pathLE_append_one tr m) c n')
      (fun h => hmc (append_last_inj h))
      (child_ne_of_sep (sepPaths_symm htrva) m c)
      (child_ne_of_sep (sepPaths_symm htrte) m c)
  · intro n'
    exact fa (va ++ [m]) n'
      (key_cond_sep (sepPaths_symm htrva) (pathLE_append_one va m) c n')
      (key_cond_same_child hmc n')
      (key_cond_sep hvate (pathLE_append_one va m) c n')
      (child_ne_of_sep htrva m c)
      (fun h => hmc (append_last_inj h))
      (child_ne_of_sep (sepPaths_symm hvate) m c)
  · intro n'
    exact fa (te ++ [m]) n'
      (key_cond_sep (sepPaths_symm htrte) (pathLE_append_one te m) c n')
      (key_cond_sep (sepPaths_symm hvate) (pathLE_append_one te m) c n')
      (key_cond_same_child hmc n')
      (child_ne_of_sep htrte m c)
      (child_ne_of_sep hvate m c)
      (fun h => hmc (append_last_inj h))

theorem split_outer_strong {fs0 : FS} {src tr va te : Fpath} {r1 r2 : ℚ}
    {pA : Nat → List Nat} {pB : String → Nat → List Nat}
    (hstr : sepPaths src tr) (hsva : sepPaths src va) (hste : sepPaths src te)
    (htrva : sepPaths tr va) (htrte : sepPaths tr te) (hvate : sepPaths va te)
    (hpa : ∀ n, (pA n).Perm (List.range n))
    (hpb : ∀ c m, (pB c m).Perm (List.range m))
    (rest : List String) :
    ∀ (processed : List String) (st : SplitSt),
    (processed ++ rest).Nodup →
    st.fs.Wf → st.err = none →
    (∀ d n', pathLE src d → st.fs.lookup d n' = fs0.lookup d n') →
    (∀ d, pathLE src d → st.fs.listdir d = fs0.listdir d) →
    (∀ e ∈ st.asgn, e.1 ∈ processed ∧ fs0.isdir src e.1 = true ∧
      splitClass (fs0.listdir (src ++ [e.1])) r1 r2
        (pA (fs0.listdir (src ++ [e.1])).length) (pB e.1) = Except.ok e.2 ∧
      (∀ n ∈ e.2.1, st.fs.lookup (tr ++ [e.1]) n = fs0.lookup (src ++ [e.1]) n) ∧
      (∀ n ∈ e.2.2.1, st.fs.lookup (va ++ [e.1]) n = fs0.lookup (src ++ [e.1]) n) ∧
      (∀ n ∈ e.2.2.2, st.fs.lookup (te ++ [e.1]) n = fs0.lookup (src ++ [e.1]) n) ∧
      st.fs.lookup tr e.1 = some FsNode.dir ∧
      st.fs.lookup va e.1 = some FsNode.dir ∧
      st.fs.lookup te e.1 = some FsNode.dir) →
    (∀ m ∈ processed, fs0.isdir src m = true → ∃ p, (m, p) ∈ st.asgn) →
    (∀ m, ¬ (m ∈ processed ∧ fs0.isdir src m = true) →
      st.fs.lookup tr m = fs0.lookup tr m ∧
      st.fs.lookup va m = fs0.lookup va m ∧
      st.fs.lookup te m = fs0.lookup te m ∧
      (∀ n', st.fs.lookup (tr ++ [m]) n' = fs0.lookup (tr ++ [m]) n') ∧
      (∀ n', st.fs.lookup (va ++ [m]) n' = fs0.lookup (va ++ [m]) n') ∧
      (∀ n', st.fs.lookup (te ++ [m]) n' = fs0.lookup (te ++ [m]) n')) →
    (rest.foldl (splitClassStep src tr va te r1 r2 pA pB) st).err = none →
    (rest.foldl (splitClassStep src tr va te r1 r2 pA pB) st).fs.Wf ∧
    (∀ d n', pathLE src d →
      (rest.foldl (splitClassStep src tr va te r1 r2 pA pB) st).fs.lookup d n'
        = fs0.lookup d n') ∧
    (∀ d, pathLE src d →
      (rest.foldl (splitClassStep src tr va te r1 r2 pA pB) st).fs.listdir d
        = fs0.listdir d) ∧
    (∀ e ∈ (rest.foldl (splitClassStep src tr va te r1 r2 pA pB) st).asgn,
      e.1 ∈ processed ++ rest ∧ fs0.isdir src e.1 = true ∧
      splitClass (fs0.listdir (src ++ [e.1])) r1 r2
        (pA (fs0.listdir (src ++ [e.1])).length) (pB e.1) = Except.ok e.2 ∧
      (∀ n ∈ e.2.1,
        (rest.foldl (splitClassStep src tr va te r1 r2 pA pB) st).fs.lookup
          (tr ++ [e.1]) n = fs0.lookup (src ++ [e.1]) n) ∧
      (∀ n ∈ e.2.2.1,
        (rest.foldl (splitClassStep src tr va te r1 r2 pA pB) st).fs.lookup
          (va ++ [e.1]) n = fs0.lookup (src ++ [e.1]) n) ∧
      (∀ n ∈ e.2.2.2,
        (rest.foldl (splitClassStep src tr va te r1 r2 pA pB) st).fs.lookup
          (te ++ [e.1]) n = fs0.lookup (src ++ [e.1]) n) ∧
      (rest.foldl (splitClassStep src tr va te r1 r2 pA pB) st).fs.lookup tr e.1
        = some FsNode.dir ∧
      (rest.foldl (splitClassStep src tr va te r1 r2 pA pB) st).fs.lookup va e.1
        = some FsNode.dir ∧
      (rest.foldl (splitClassStep src tr va te r1 r2 pA pB) st).fs.lookup te e.1
        = some FsNode.dir) ∧
    (∀ m ∈ processed ++ rest, fs0.isdir src m = true →
      ∃ p, (m, p) ∈ (rest.foldl (splitClassStep src tr va te r1 r2 pA pB) st).asgn) ∧
    (∀ m, ¬ (m ∈ processed ++ rest ∧ fs0.isdir src m = true) →
      (rest.foldl (splitClassStep src tr va te r1 r2 pA pB) st).fs.lookup tr m
        = fs0.lookup tr m ∧
      (rest.foldl (splitClassStep src tr va te r1 r2 pA pB) st).fs.lookup va m
        = fs0.lookup va m ∧
      (rest.foldl (splitClassStep src tr va te r1 r2 pA pB) st).fs.lookup te m
        = fs0.lookup te m ∧
      (∀ n', (rest.foldl (splitClassStep src tr va te r1 r2 pA pB) st).fs.lookup
        (tr ++ [m]) n' = fs0.lookup (tr ++ [m]) n') ∧
      (∀ n', (rest.foldl (splitClassStep src tr va te r1 r2 pA pB) st).fs.lookup
        (va ++ [m]) n' = fs0.lookup (va ++ [m]) n') ∧
      (∀ n', (rest.foldl (splitClassStep src tr va te r1 r2 pA pB) st).fs.lookup
        (te ++ [m]) n' = fs0.lookup (te ++ [m]) n')) := by
  induction rest with
  | nil =>
    intro processed st hnd hwf herr a3 a4 a5 a6 a7 hfin
    rw [List.foldl_nil]
    exact ⟨hwf, a3, a4, by simpa using a5, by simpa using a6, by simpa using a7⟩
  | cons c rest' ih =>
    intro processed st hnd hwf herr a3 a4 a5 a6 a7 hfin
    rw [List.foldl_cons] at hfin ⊢
    have hisdir : st.fs.isdir src c = fs0.isdir src c := by
      unfold FS.isdir
      rw [a3 src c (pathLE_refl src)]
    have hcne : c ∉ processed := by
      intro hcmem
      exact (List.nodup_append.mp hnd).2.2 hcmem (List.mem_cons.mpr (Or.inl rfl))
    have hnd' : ((processed ++ [c]) ++ rest').Nodup := by
      rwa [List.append_assoc, List.singleton_append]
    cases hdir0 : fs0.isdir src c with
    | false =>
      have hskip : splitClassStep src tr va te r1 r2 pA pB st c = st :=
        splitClassStep_skip herr (by rw [hisdir]; exact hdir0)
      rw [hskip] at hfin ⊢
      have hres := ih (processed ++ [c]) st hnd' hwf herr a3 a4
        (fun e he => by
          obtain ⟨h1, hrest⟩ := a5 e he
          exact ⟨List.mem_append.mpr (Or.inl h1), hrest⟩)
        (fun m hm hd => by
          rcases List.mem_append.mp hm with hm | hm
          · exact a6 m hm hd
          · rw [List.mem_singleton] at hm
            rw [hm] at hd
            rw [hd] at hdir0
            cases hdir0)
        (fun m hm => a7 m (fun hcon => hm ⟨List.mem_append.mpr (Or.inl hcon.1),
          hcon.2⟩))
        hfin
      rwa [List.append_assoc, List.singleton_append] at hres
    | true =>
      have hdirst : st.fs.isdir src c = true := by rw [hisdir]; exact hdir0
      have hld : st.fs.listdir (src ++ [c]) = fs0.listdir (src ++ [c]) :=
        a4 (src ++ [c]) (pathLE_append_one src c)
      cases hsc : splitClass (st.fs.listdir (src ++ [c])) r1 r2
          (pA (st.fs.listdir (src ++ [c])).length) (pB c) with
      | error e =>
        exfalso
        rw [splitClassStep_eq_err herr hdirst hsc] at hfin
        have hcon := split_fold_err_none rest' hfin
        cases hcon
      | ok t3 =>
        obtain ⟨T, V, Te⟩ := t3
        rw [splitClassStep_eq_ok herr hdirst hsc] at hfin ⊢
        have hz : (copyAll src tr va te c T V Te st.fs).2 = none :=
          split_fold_err_none rest' hfin
        have hndimg : (st.fs.listdir (src ++ [c])).Nodup := listdir_nodup hwf _
        have hperm := splitClass_perm hsc (hpa _) (hpb c)
        have hndall : ((Te ++ V) ++ T).Nodup := hperm.symm.nodup hndimg
        have hndT : T.Nodup := (List.nodup_append.mp hndall).2.1
        have hndTe : Te.Nodup :=
          (List.nodup_append.mp (List.nodup_append.mp hndall).1).1
        have hndV : V.Nodup :=
          (List.nodup_append.mp (List.nodup_append.mp hndall).1).2.1
        have hnonempty := splitClass_nonempty hsc (hpa _) (hpb c)
        obtain ⟨p1, p2, p3, q1, q2, q3⟩ :=
          copyAll_copies hstr hsva hste htrva htrte hvate hndT hndV hndTe st.fs hz
        obtain ⟨fa, fl, fw⟩ := @copyAll_frame src tr va te c T V Te st.fs
        have hofr := @copyAll_other_frame src tr va te c htrva htrte hvate T V Te st.fs
        have b3 : ∀ d n', pathLE src d →
            (copyAll src tr va te c T V Te st.fs).1.lookup d n'
              = fs0.lookup d n' := by
          intro d n' hd
          rw [fa d n' (key_cond_sep hstr hd c n') (key_cond_sep hsva hd c n')
            (key_cond_sep hste hd c n')
            (fun h => sep_not_le_child hstr c (h ▸ hd))
            (fun h => sep_not_le_child hsva c (h ▸ hd))
            (fun h => sep_not_le_child hste c (h ▸ hd))]
          exact a3 d n' hd
        have b4 : ∀ d, pathLE src d →
            (copyAll src tr va te c T V Te st.fs).1.listdir d
              = fs0.listdir d := by
          intro d hd
          rw [fl d (untouched_cond_of_sep hstr hd c)
            (untouched_cond_of_sep hsva hd c) (untouched_cond_of_sep hste hd c)
            (fun h => sep_not_le_child hstr c (h ▸ hd))
            (fun h => sep_not_le_child hsva c (h ▸ hd))
            (fun h => sep_not_le_child hste c (h ▸ hd))]
          exact a4 d hd
        have b5 : ∀ e ∈ st.asgn ++ [(c, T, V, Te)],
            e.1 ∈ processed ++ [c] ∧ fs0.isdir src e.1 = true ∧
            splitClass (fs0.listdir (src ++ [e.1])) r1 r2
              (pA (fs0.listdir (src ++ [e.1])).length) (pB e.1)
              = Except.ok e.2 ∧
            (∀ n ∈ e.2.1, (copyAll src tr va te c T V Te st.fs).1.lookup
              (tr ++ [e.1]) n = fs0.lookup (src ++ [e.1]) n) ∧
            (∀ n ∈ e.2.2.1, (copyAll src tr va te c T V Te st.fs).1.lookup
              (va ++ [e.1]) n = fs0.lookup (src ++ [e.1]) n) ∧
            (∀ n ∈ e.2.2.2, (copyAll src tr va te c T V Te st.fs).1.lookup
              (te ++ [e.1]) n = fs0.lookup (src ++ [e.1]) n) ∧
            (copyAll src tr va te c T V Te st.fs).1.lookup tr e.1
              = some FsNode.dir ∧
            (copyAll src tr va te c T V Te st.fs).1.lookup va e.1
              = some FsNode.dir ∧
            (copyAll src tr va te c T V Te st.fs).1.lookup te e.1
              = some FsNode.dir := by
          intro e he
          rcases List.mem_append.mp he with he | he
          · obtain ⟨m1, m2, m3, m4, m5, m6, m7, m8, m9⟩ := a5 e he
            have hec : e.1 ≠ c := fun h => hcne (h ▸ m1)
            obtain ⟨o1, o2, o3, o4, o5, o6⟩ := hofr e.1 hec
            refine ⟨List.mem_append.mpr (Or.inl m1), m2, m3, ?_, ?_, ?_, ?_, ?_, ?_⟩
            · intro n hn
              rw [o4 n]
              exact m4 n hn
            · intro n hn
              rw [o5 n]
              exact m5 n hn
            · intro n hn
              rw [o6 n]
              exact m6 n hn
            · rw [o1]; exact m7
            · rw [o2]; exact m8
            · rw [o3]; exact m9
          · rw [List.mem_singleton] at he
            rw [he]
            refine ⟨List.mem_append.mpr (Or.inr (List.mem_singleton.mpr rfl)),
              hdir0, ?_, ?_, ?_, ?_, ?_, ?_, ?_⟩
            · show splitClass (fs0.listdir (src ++ [c])) r1 r2
                  (pA (fs0.listdir (src ++ [c])).length) (pB c)
                = Except.ok (T, V, Te)
              rw [← hld]
              exact hsc
            · intro n hn
              rw [p1 n hn]
              exact a3 (src ++ [c]) n (pathLE_append_one src c)
            · intro n hn
              rw [p2 n hn]
              exact a3 (src ++ [c]) n (pathLE_append_one src c)
            · intro n hn
              rw [p3 n hn]
              exact a3 (src ++ [c]) n (pathLE_append_one src c)
            · exact q1 hnonempty.1
            · exact q2 hnonempty.2.1
            · exact q3 hnonempty.2.2
        have b6 : ∀ m ∈ processed ++ [c], fs0.isdir src m = true →
            ∃ p, (m, p) ∈ st.asgn ++ [(c, T, V, Te)] := by
          intro m hm hd
          rcases List.mem_append.mp hm with hm | hm
          · obtain ⟨p, hp⟩ := a6 m hm hd
            exact ⟨p, List.mem_append.mpr (Or.inl hp)⟩
          · rw [List.mem_singleton] at hm
            rw [hm]
            exact ⟨(T, V, Te), List.mem_append.mpr (Or.inr (List.mem_singleton.mpr
              rfl))⟩
        have b7 : ∀ m, ¬ (m ∈ processed ++ [c] ∧ fs0.isdir src m = true) →
            (copyAll src tr va te c T V Te st.fs).1.lookup tr m
              = fs0.lookup tr m ∧
            (copyAll src tr va te c T V Te st.fs).1.lookup va m
              = fs0.lookup va m ∧
            (copyAll src tr va te c T V Te st.fs).1.lookup te m
              = fs0.lookup te m ∧
            (∀ n', (copyAll src tr va te c T V Te st.fs).1.lookup (tr ++ [m]) n'
              = fs0.lookup (tr ++ [m]) n') ∧
            (∀ n', (copyAll src tr va te c T V Te st.fs).1.lookup (va ++ [m]) n'
              = fs0.lookup (va ++ [m]) n') ∧
            (∀ n', (copyAll src tr va te c T V Te st.fs).1.lookup (te ++ [m]) n'
              = fs0.lookup (te ++ [m]) n') := by
          intro m hm
          by_cases hmc : m = c
          · exact absurd ⟨List.mem_append.mpr (Or.inr (List.mem_singleton.mpr hmc)),
              by rw [hmc]; exact hdir0⟩ hm
          · obtain ⟨o1, o2, o3, o4, o5, o6⟩ := hofr m hmc
            obtain ⟨u1, u2, u3, u4, u5, u6⟩ := a7 m
              (fun hcon => hm ⟨List.mem_append.mpr (Or.inl hcon.1), hcon.2⟩)
            refine ⟨?_, ?_, ?_, ?_, ?_, ?_⟩
            · rw [o1]; exact u1
            · rw [o2]; exact u2
            · rw [o3]; exact u3
            · intro n'
              rw [o4 n']
              exact u4 n'
            · intro n'
              rw [o5 n']
              exact u5 n'
            · intro n'
              rw [o6 n']
              exact u6 n'
        have hres := ih (processed ++ [c])
          { fs := (copyAll src tr va te c T V Te st.fs).1,
            asgn := st.asgn ++ [(c, T, V, Te)],
            err := (copyAll src tr va te c T V Te st.fs).2 }
          hnd' (fw hwf) hz b3 b4 b5 b6 b7 hfin
        rwa [List.append_assoc, List.singleton_append] at hres

theorem split_outer_det {fs0 : FS} {src tr va te : Fpath} {r1 r2 : ℚ}
    {pA : Nat → List Nat} {pB pB2 : String → Nat → List Nat}
    (hstr : sepPaths src tr) (hsva : sepPaths src va) (hste : sepPaths src te)
    (l : List String) :
    ∀ st st2 : SplitSt,
    st.err = none → st2.err = none →
    (∀ d n', pathLE src d → st.fs.lookup d n' = fs0.lookup d n') →
    (∀ d n', pathLE src d → st2.fs.lookup d n' = fs0.lookup d n') →
    (∀ d, pathLE src d → st.fs.listdir d = fs0.listdir d) →
    (∀ d, pathLE src d → st2.fs.listdir d = fs0.listdir d) →
    st.asgn.map (fun e => (e.1, e.2.1)) = st2.asgn.map (fun e => (e.1, e.2.1)) →
    (l.foldl (splitClassStep src tr va te r1 r2 pA pB) st).err = none →
    (l.foldl (splitClassStep src tr va te r1 r2 pA pB2) st2).err = none →
    (l.foldl (splitClassStep src tr va te r1 r2 pA pB) st).asgn.map
        (fun e => (e.1, e.2.1))
      = (l.foldl (splitClassStep src tr va te r1 r2 pA pB2) st2).asgn.map
        (fun e => (e.1, e.2.1)) := by
  induction l with
  | nil =>
    intro st st2 _ _ _ _ _ _ hasgn _ _
    exact hasgn
  | cons c rest ih =>
    intro st st2 herr herr2 a3 a32 a4 a42 hasgn hfin hfin2
    rw [List.foldl_cons] at hfin hfin2
    rw [List.foldl_cons, List.foldl_cons]
    have hisdir : st.fs.isdir src c = fs0.isdir src c := by
      unfold FS.isdir
      rw [a3 src c (pathLE_refl src)]
    have hisdir2 : st2.fs.isdir src c = fs0.isdir src c := by
      unfold FS.isdir
      rw [a32 src c (pathLE_refl src)]
    have hld : st.fs.listdir (src ++ [c]) = fs0.listdir (src ++ [c]) :=
      a4 (src ++ [c]) (pathLE_append_one src c)
    have hld2 : st2.fs.listdir (src ++ [c]) = fs0.listdir (src ++ [c]) :=
      a42 (src ++ [c]) (pathLE_append_one src c)
    cases hdir0 : fs0.isdir src c with
    | false =>
      rw [splitClassStep_skip herr (by rw [hisdir]; exact hdir0)] at hfin ⊢
      rw [splitClassStep_skip herr2 (by rw [hisdir2]; exact hdir0)] at hfin2 ⊢
      exact ih st st2 herr herr2 a3 a32 a4 a42 hasgn hfin hfin2
    | true =>
      have hdirst : st.fs.isdir src c = true := by rw [hisdir]; exact hdir0
      have hdirst2 : st2.fs.isdir src c = true := by rw [hisdir2]; exact hdir0
      have hindep := splitClass_train_indep (fs0.listdir (src ++ [c])) r1 r2
        (pA (fs0.listdir (src ++ [c])).length) (pB c) (pB2 c)
      cases hsc : splitClass (st.fs.listdir (src ++ [c])) r1 r2
          (pA (st.fs.listdir (src ++ [c])).length) (pB c) with
      | error e =>
        exfalso
        rw [splitClassStep_eq_err herr hdirst hsc] at hfin
        have hcon := split_fold_err_none rest hfin
        cases hcon
      | ok t3 =>
        obtain ⟨T, V, Te⟩ := t3
        rw [hld] at hsc
        cases hsc2 : splitClass (st2.fs.listdir (src ++ [c])) r1 r2
            (pA (st2.fs.listdir (src ++ [c])).length) (pB2 c) with
        | error e =>
          exfalso
          rw [splitClassStep_eq_err herr2 hdirst2 hsc2] at hfin2
          have hcon := split_fold_err_none rest hfin2
          cases hcon
        | ok t4 =>
          obtain ⟨T2, V2, Te2⟩ := t4
          rw [hld2] at hsc2
          have hTT2 : T = T2 := by
            rw [hsc, hsc2] at hindep
            simp only [Except.map] at hindep
            exact Except.ok.inj hindep
          rw [splitClassStep_eq_ok herr hdirst (by rw [hld]; exact hsc)] at hfin ⊢
          rw [splitClassStep_eq_ok herr2 hdirst2 (by rw [hld2]; exact hsc2)]
            at hfin2 ⊢
          have hz : (copyAll src tr va te c T V Te st.fs).2 = none :=
            split_fold_err_none rest hfin
          have hz2 : (copyAll src tr va te c T2 V2 Te2 st2.fs).2 = none :=
            split_fold_err_none rest hfin2
          obtain ⟨fa, fl, _⟩ := @copyAll_frame src tr va te c T V Te st.fs
          obtain ⟨fa2, fl2, _⟩ := @copyAll_frame src tr va te c T2 V2 Te2 st2.fs
          apply ih
          · exact hz
          · exact hz2
          · intro d n' hd
            rw [fa d n' (key_cond_sep hstr hd c n') (key_cond_sep hsva hd c n')
              (key_cond_sep hste hd c n')
              (fun h => sep_not_le_child hstr c (h ▸ hd))
              (fun h => sep_not_le_child hsva c (h ▸ hd))
              (fun h => sep_not_le_child hste c (h ▸ hd))]
            exact a3 d n' hd
          · intro d n' hd
            rw [fa2 d n' (key_cond_sep hstr hd c n') (key_cond_sep hsva hd c n')
              (key_cond_sep hste hd c n')
              (fun h => sep_not_le_child hstr c (h ▸ hd))
              (fun h => sep_not_le_child hsva c (h ▸ hd))
              (fun h => sep_not_le_child hste c (h ▸ hd))]
            exact a32 d n' hd
          · intro d hd
            rw [fl d (untouched_cond_of_sep hstr hd c)
              (untouched_cond_of_sep hsva hd c)
              (untouched_cond_of_sep hste hd c)
              (fun h => sep_not_le_child hstr c (h ▸ hd))
              (fun h => sep_not_le_child hsva c (h ▸ hd))
              (fun h => sep_not_le_child hste c (h ▸ hd))]
            exact a4 d hd
          · intro d hd
            rw [fl2 d (untouched_cond_of_sep hstr hd c)
              (untouched_cond_of_sep hsva hd c)
              (untouched_cond_of_sep hste hd c)
              (fun h => sep_not_le_child hstr c (h ▸ hd))
              (fun h => sep_not_le_child hsva c (h ▸ hd))
              (fun h => sep_not_le_child hste c (h ▸ hd))]
            exact a42 d hd
          · show (st.asgn ++ [(c, T, V, Te)]).map (fun e => (e.1, e.2.1))
                = (st2.asgn ++ [(c, T2, V2, Te2)]).map (fun e => (e.1, e.2.1))
            rw [List.map_append, List.map_append, hasgn, hTT2]
            simp
          · exact hfin
          · exact hfin2

theorem split_main {fs0 : FS} {src tr va te : Fpath} {r1 r2 : ℚ}
    {pA : Nat → List Nat} {pB : String → Nat → List Nat} (hwf0 : fs0.Wf)
    (hstr : sepPaths src tr) (hsva : sepPaths src va) (hste : sepPaths src te)
    (htrva : sepPaths tr va) (htrte : sepPaths tr te) (hvate : sepPaths va te)
    (hpa : ∀ n, (pA n).Perm (List.range n))
    (hpb : ∀ c m, (pB c m).Perm (List.range m))
    (hfin : (split_data fs0 src tr va te r1 r2 pA pB).err = none) :
    (split_data fs0 src tr va te r1 r2 pA pB).fs.Wf ∧
    (∀ d n', pathLE src d →
      (split_data fs0 src tr va te r1 r2 pA pB).fs.lookup d n'
        = fs0.lookup d n') ∧
    (∀ d, pathLE src d →
      (split_data fs0 src tr va te r1 r2 pA pB).fs.listdir d = fs0.listdir d) ∧
    (∀ e ∈ (split_data fs0 src tr va te r1 r2 pA pB).asgn,
      e.1 ∈ fs0.listdir src ∧ fs0.isdir src e.1 = true ∧
      splitClass (fs0.listdir (src ++ [e.1])) r1 r2
        (pA (fs0.listdir (src ++ [e.1])).length) (pB e.1) = Except.ok e.2 ∧
      (∀ n ∈ e.2.1,
        (split_data fs0 src tr va te r1 r2 pA pB).fs.lookup (tr ++ [e.1]) n
          = fs0.lookup (src ++ [e.1]) n) ∧
      (∀ n ∈ e.2.2.1,
        (split_data fs0 src tr va te r1 r2 pA pB).fs.lookup (va ++ [e.1]) n
          = fs0.lookup (src ++ [e.1]) n) ∧
      (∀ n ∈ e.2.2.2,
        (split_data fs0 src tr va te r1 r2 pA pB).fs.lookup (te ++ [e.1]) n
          = fs0.lookup (src ++ [e.1]) n) ∧
      (split_data fs0 src tr va te r1 r2 pA pB).fs.lookup tr e.1
        = some FsNode.dir ∧
      (split_data fs0 src tr va te r1 r2 pA pB).fs.lookup va e.1
        = some FsNode.dir ∧
      (split_data fs0 src tr va te r1 r2 pA pB).fs.lookup te e.1
        = some FsNode.dir) ∧
    (∀ m ∈ fs0.listdir src, fs0.isdir src m = true →
      ∃ p, (m, p) ∈ (split_data fs0 src tr va te r1 r2 pA pB).asgn) ∧
    (∀ m, ¬ (m ∈ fs0.listdir src ∧ fs0.isdir src m = true) →
      (split_data fs0 src tr va te r1 r2 pA pB).fs.lookup tr m
        = fs0.lookup tr m ∧
      (split_data fs0 src tr va te r1 r2 pA pB).fs.lookup va m
        = fs0.lookup va m ∧
      (split_data fs0 src tr va te r1 r2 pA pB).fs.lookup te m
        = fs0.lookup te m ∧
      (∀ n', (split_data fs0 src tr va te r1 r2 pA pB).fs.lookup (tr ++ [m]) n'
        = fs0.lookup (tr ++ [m]) n') ∧
      (∀ n', (split_data fs0 src tr va te r1 r2 pA pB).fs.lookup (va ++ [m]) n'
        = fs0.lookup (va ++ [m]) n') ∧
      (∀ n', (split_data fs0 src tr va te r1 r2 pA pB).fs.lookup (te ++ [m]) n'
        = fs0.lookup (te ++ [m]) n')) := by
  unfold split_data at hfin ⊢
  have h := split_outer_strong hstr hsva hste htrva htrte hvate hpa hpb
    (fs0.listdir src) [] ⟨fs0, [], none⟩
    (by simpa using listdir_nodup hwf0 src) hwf0 rfl
    (fun d n' _ => rfl) (fun d _ => rfl)
    (by simp)
    (by simp)
    (fun m _ => ⟨rfl, rfl, rfl, fun _ => rfl, fun _ => rfl, fun _ => rfl⟩)
    hfin
  simpa using h

/-- Claim C1: for every class subdirectory of the source, the
`(train, val, test)` filename lists that `split_data` records for that class
are pairwise disjoint and their union is exactly the set of files listed in
the class directory at the start of the split. Hypotheses: distinct keys,
the three target roots lie outside the source subtree, and the two shuffle
oracles are permutations (as `np.random.permutation` is). -/
theorem C1_split_partition (fs0 : FS) (src tr va te : Fpath) (r1 r2 : ℚ)
    (pA : Nat → List Nat) (pB : String → Nat → List Nat) (hwf0 : fs0.Wf)
    (hstr : sepPaths src tr) (hsva : sepPaths src va) (hste : sepPaths src te)
    (hpa : ∀ n, (pA n).Perm (List.range n))
    (hpb : ∀ c m, (pB c m).Perm (List.range m))
    (c : String) (T V Te : List String)
    (hmem : (c, T, V, Te) ∈ (split_data fs0 src tr va te r1 r2 pA pB).asgn) :
    (∀ x, x ∈ fs0.listdir (src ++ [c]) ↔ x ∈ T ∨ x ∈ V ∨ x ∈ Te) ∧
    (∀ x, x ∈ T → x ∉ V) ∧ (∀ x, x ∈ T → x ∉ Te) ∧ (∀ x, x ∈ V → x ∉ Te) := by
  unfold split_data at hmem
  obtain ⟨_, _, _, w4⟩ := split_outer_weak hstr hsva hste (fs0.listdir src)
    ⟨fs0, [], none⟩ hwf0 (fun d n' _ => rfl) (fun d _ => rfl)
    (fun e he => absurd he (List.not_mem_nil e))
  obtain ⟨_, hsc⟩ := w4 (c, T, V, Te) hmem
  exact splitClass_parts hsc (hpa _) (hpb c) (listdir_nodup hwf0 _)

/-- Claim C5: rerunning `split_data` on the same source tree with the same
seeded first-stage shuffle but an arbitrarily different (unseeded)
second-stage shuffle yields an identical per-class train assignment; no
such guarantee is claimed or proved for the val/test boundary. Stated for
two complete runs that both finish without an exception. -/
theorem C5_seeded_first_stage_deterministic (fs0 : FS) (src tr va te : Fpath)
    (r1 r2 : ℚ) (pA : Nat → List Nat) (pB pB2 : String → Nat → List Nat)
    (hstr : sepPaths src tr) (hsva : sepPaths src va) (hste : sepPaths src te)
    (hfin : (split_data fs0 src tr va te r1 r2 pA pB).err = none)
    (hfin2 : (split_data fs0 src tr va te r1 r2 pA pB2).err = none) :
    (split_data fs0 src tr va te r1 r2 pA pB).asgn.map (fun e => (e.1, e.2.1))
      = (split_data fs0 src tr va te r1 r2 pA pB2).asgn.map
          (fun e => (e.1, e.2.1)) := by
  unfold split_data at hfin hfin2 ⊢
  exact split_outer_det hstr hsva hste (fs0.listdir src) ⟨fs0, [], none⟩
    ⟨fs0, [], none⟩ rfl rfl (fun d n' _ => rfl) (fun d n' _ => rfl)
    (fun d _ => rfl) (fun d _ => rfl) rfl hfin hfin2

/-- Claim C7: `split_data` copies rather than moves: whatever happens, every
lookup and listing inside the source subtree is exactly as before the run,
and when the run finishes without an exception every assigned file is
present in its per-class target directory with the same bytes as the source
file. Hypotheses: distinct keys, pairwise-disjoint source and target
subtrees, permutation shuffle oracles. -/
theorem C7_split_copies_sources_intact (fs0 : FS) (src tr va te : Fpath)
    (r1 r2 : ℚ) (pA : Nat → List Nat) (pB : String → Nat → List Nat)
    (hwf0 : fs0.Wf)
    (hstr : sepPaths src tr) (hsva : sepPaths src va) (hste : sepPaths src te)
    (htrva : sepPaths tr va) (htrte : sepPaths tr te) (hvate : sepPaths va te)
    (hpa : ∀ n, (pA n).Perm (List.range n))
    (hpb : ∀ c m, (pB c m).Perm (List.range m)) :
    (∀ d n', pathLE src d →
      (split_data fs0 src tr va te r1 r2 pA pB).fs.lookup d n'
        = fs0.lookup d n') ∧
    (∀ d, pathLE src d →
      (split_data fs0 src tr va te r1 r2 pA pB).fs.listdir d = fs0.listdir d) ∧
    ((split_data fs0 src tr va te r1 r2 pA pB).err = none →
      ∀ e ∈ (split_data fs0 src tr va te r1 r2 pA pB).asgn,
      (∀ n ∈ e.2.1,
        (split_data fs0 src tr va te r1 r2 pA pB).fs.lookup (tr ++ [e.1]) n
          = fs0.lookup (src ++ [e.1]) n) ∧
      (∀ n ∈ e.2.2.1,
        (split_data fs0 src tr va te r1 r2 pA pB).fs.lookup (va ++ [e.1]) n
          = fs0.lookup (src ++ [e.1]) n) ∧
      (∀ n ∈ e.2.2.2,
        (split_data fs0 src tr va te r1 r2 pA pB).fs.lookup (te ++ [e.1]) n
          = fs0.lookup (src ++ [e.1]) n)) := by
  refine ⟨?_, ?_, ?_⟩
  · intro d n' hd
    have h := @split_outer_weak fs0 src tr va te r1 r2 pA pB hstr hsva hste
      (fs0.listdir src) ⟨fs0, [], none⟩ hwf0 (fun d n' _ => rfl)
      (fun d _ => rfl) (fun e he => absurd he (List.not_mem_nil e))
    exact h.2.1 d n' hd
  · intro d hd
    have h := @split_outer_weak fs0 src tr va te r1 r2 pA pB hstr hsva hste
      (fs0.listdir src) ⟨fs0, [], none⟩ hwf0 (fun d n' _ => rfl)
      (fun d _ => rfl) (fun e he => absurd he (List.not_mem_nil e))
    exact h.2.2.1 d hd
  · intro hfin e he
    obtain ⟨_, _, _, s4, _, _⟩ :=
      split_main hwf0 hstr hsva hste htrva htrte hvate hpa hpb hfin
    obtain ⟨_, _, _, c4, c5, c6, _, _, _⟩ := s4 e he
    exact ⟨c4, c5, c6⟩

/-- Claim C8: a class directory holding fewer than two files makes
`split_data` (at the default 0.7/0.2 ratios) raise the underlying split
function's `ValueError` — there is no clamping or special-casing — the pass
halts there, and neither that class nor any class listed after it has
anything copied: all their keys under the three target roots are exactly as
before the run. Hypotheses: distinct keys, pairwise-disjoint subtrees, and
the classes listed before the failing one were processed without an
exception. -/
theorem C8_small_class_raises (fs0 : FS) (src tr va te : Fpath)
    (pA : Nat → List Nat) (pB : String → Nat → List Nat) (hwf0 : fs0.Wf)
    (hstr : sepPaths src tr) (hsva : sepPaths src va) (hste : sepPaths src te)
    (htrva : sepPaths tr va) (htrte : sepPaths tr te) (hvate : sepPaths va te)
    (c : String) (pre post : List String)
    (hsplit : fs0.listdir src = pre ++ c :: post)
    (hdir : fs0.isdir src c = true)
    (hsmall : (fs0.listdir (src ++ [c])).length < 2)
    (hpre : (pre.foldl (splitClassStep src tr va te (7/10) (2/10) pA pB)
        ⟨fs0, [], none⟩).err = none) :
    (split_data fs0 src tr va te (7/10) (2/10) pA pB).err
      = some "ValueError: one of the resulting splits would be empty" ∧
    (∀ m ∈ c :: post,
      (split_data fs0 src tr va te (7/10) (2/10) pA pB).fs.lookup tr m
        = fs0.lookup tr m ∧
      (split_data fs0 src tr va te (7/10) (2/10) pA pB).fs.lookup va m
        = fs0.lookup va m ∧
      (split_data fs0 src tr va te (7/10) (2/10) pA pB).fs.lookup te m
        = fs0.lookup te m ∧
      (∀ n', (split_data fs0 src tr va te (7/10) (2/10) pA pB).fs.lookup
        (tr ++ [m]) n' = fs0.lookup (tr ++ [m]) n') ∧
      (∀ n', (split_data fs0 src tr va te (7/10) (2/10) pA pB).fs.lookup
        (va ++ [m]) n' = fs0.lookup (va ++ [m]) n') ∧
      (∀ n', (split_data fs0 src tr va te (7/10) (2/10) pA pB).fs.lookup
        (te ++ [m]) n' = fs0.lookup (te ++ [m]) n')) := by
  have hweak := @split_outer_weak fs0 src tr va te (7/10) (2/10) pA pB hstr
    hsva hste pre ⟨fs0, [], none⟩ hwf0 (fun d n' _ => rfl) (fun d _ => rfl)
    (fun e he => absurd he (List.not_mem_nil e))
  obtain ⟨_, w2, w3, _⟩ := hweak
  have hdirst : (pre.foldl (splitClassStep src tr va te (7/10) (2/10) pA pB)
      ⟨fs0, [], none⟩).fs.isdir src c = true := by
    unfold FS.isdir at hdir ⊢
    rw [w2 src c (pathLE_refl src)]
    exact hdir
  have hsc : splitClass ((pre.foldl (splitClassStep src tr va te (7/10) (2/10)
        pA pB) ⟨fs0, [], none⟩).fs.listdir (src ++ [c])) (7/10) (2/10)
      (pA ((pre.foldl (splitClassStep src tr va te (7/10) (2/10) pA pB)
        ⟨fs0, [], none⟩).fs.listdir (src ++ [c])).length) (pB c)
      = Except.error "ValueError: one of the resulting splits would be empty" :=
    splitClass_small_err _ _ _
      (by rw [w3 (src ++ [c]) (pathLE_append_one src c)]; exact hsmall)
  have hfz : post.foldl (splitClassStep src tr va te (7/10) (2/10) pA pB)
      { pre.foldl (splitClassStep src tr va te (7/10) (2/10) pA pB)
          ⟨fs0, [], none⟩ with
        err := some "ValueError: one of the resulting splits would be empty" }
    = { pre.foldl (splitClassStep src tr va te (7/10) (2/10) pA pB)
          ⟨fs0, [], none⟩ with
        err := some "ValueError: one of the resulting splits would be empty" } :=
    split_fold_frozen post rfl
  unfold split_data
  rw [hsplit, List.foldl_append, List.foldl_cons,
    splitClassStep_eq_err hpre hdirst hsc, hfz]
  have hnodup : (pre ++ c :: post).Nodup := by
    rw [← hsplit]
    exact listdir_nodup hwf0 src
  refine ⟨rfl, ?_⟩
  intro m hm
  have hmnotpre : m ∉ pre := fun hmem =>
    (List.nodup_append.mp hnodup).2.2 hmem hm
  obtain ⟨t1, t2, t3, t4, t5, t6⟩ :=
    split_tframe htrva htrte hvate pre ⟨fs0, [], none⟩ m hmnotpre
  exact ⟨t1, t2, t3, t4, t5, t6⟩

/-- Claim C9: a filesystem entry directly under the source root that is a
file, not a directory, is skipped and left unchanged by all three passes:
`clean_data` neither deletes it nor logs it, `standardize_images` leaves it
untouched and writes nothing for it under the target root, and `split_data`
records no assignment for it and leaves it untouched. Hypotheses: distinct
keys, no nested directories inside class directories, disjoint subtrees. -/
theorem C9_nondir_root_entry_skipped (fs0 : FS) (src tgt tr va te : Fpath)
    (W H : Nat) (r1 r2 : ℚ) (pA : Nat → List Nat) (pB : String → Nat → List Nat)
    (hwf0 : fs0.Wf)
    (hflat0 : ∀ c n, fs0.isdir src c = true →
      fs0.lookup (src ++ [c]) n ≠ some FsNode.dir)
    (hsep : sepPaths src tgt)
    (hstr : sepPaths src tr) (hsva : sepPaths src va) (hste : sepPaths src te)
    (name : String) (v : Content)
    (hfile : fs0.lookup src name = some (FsNode.file v)) :
    ((clean_data fs0 src).fs.lookup src name = some (FsNode.file v) ∧
      (src ++ [name]) ∉ (clean_data fs0 src).logs) ∧
    ((standardize_images fs0 src tgt (W, H)).err = none →
      (standardize_images fs0 src tgt (W, H)).fs.lookup src name
        = some (FsNode.file v) ∧
      (standardize_images fs0 src tgt (W, H)).fs.lookup tgt name
        = fs0.lookup tgt name ∧
      (∀ n', (standardize_images fs0 src tgt (W, H)).fs.lookup
        (tgt ++ [name]) n' = fs0.lookup (tgt ++ [name]) n')) ∧
    ((split_data fs0 src tr va te r1 r2 pA pB).fs.lookup src name
        = some (FsNode.file v) ∧
      (∀ p, (name, p) ∉ (split_data fs0 src tr va te r1 r2 pA pB).asgn)) := by
  have hnotdir : ¬ (name ∈ fs0.listdir src ∧ fs0.isdir src name = true) := by
    rintro ⟨_, hd⟩
    unfold FS.isdir at hd
    have hd2 := of_decide_eq_true hd
    rw [hfile] at hd2
    simp at hd2
  unfold split_data
  refine ⟨?_, ?_, ?_⟩
  · obtain ⟨_, mc2, _, mc4⟩ := clean_main hwf0 hflat0
    have hfs : (clean_data fs0 src).fs
        = ⟨fs0.ents.filter (cleanKeep fs0 src (fs0.listdir src))⟩ := by
      cases hcl : (clean_data fs0 src).fs with
      | mk ents =>
        rw [hcl] at mc2
        exact congrArg FS.mk mc2
    constructor
    · rw [hfs]
      have heq : (⟨fs0.ents.filter (cleanKeep fs0 src (fs0.listdir src))⟩ :
          FS).lookup src name = fs0.lookup src name := by
        apply lookup_filter_eq
        intro e he hk
        rw [keyMatches_iff] at hk
        unfold cleanKeep
        rw [Bool.not_eq_true', decide_eq_false_iff_not]
        rintro ⟨c2, _, _, hpar, _⟩
        rw [hk.1] at hpar
        exact root_ne_child src c2 hpar
      rw [heq]
      exact hfile
    · intro hmem
      have hlen := mc4 _ hmem
      simp only [List.length_append, List.length_cons, List.length_nil] at hlen
      omega
  · intro hfin
    obtain ⟨_, m2, _, _, _, _, m7, m8, _⟩ := std_main hwf0 hsep hfin
    exact ⟨(m2 src name (pathLE_refl src)).trans hfile, m8 name hnotdir,
      fun n' => m7 name hnotdir n'⟩
  · have hweak := @split_outer_weak fs0 src tr va te r1 r2 pA pB hstr hsva hste
      (fs0.listdir src) ⟨fs0, [], none⟩ hwf0 (fun d n' _ => rfl)
      (fun d _ => rfl) (fun e he => absurd he (List.not_mem_nil e))
    obtain ⟨_, w2, _, w4⟩ := hweak
    constructor
    · exact (w2 src name (pathLE_refl src)).trans hfile
    · intro p hp
      exact hnotdir ⟨lookup_some_mem_listdir hfile, (w4 (name, p) hp).1⟩

/-- Claim C10: under `split_data` a per-class directory appears beneath a
target root exactly when at least one file is assigned to that subset
(directory creation sits inside the per-file copy loop, and on a clean run
every recorded subset is nonempty, so assigned classes always get their
directory), whereas `standardize_images` creates the mirrored target class
directory for every class subdirectory unconditionally, whether or not any
of its files converts. Hypotheses: distinct keys, pairwise-disjoint
subtrees, permutation shuffle oracles, clean runs, and target roots that do
not already hold an entry of the class's name. -/
theorem C10_target_dir_creation (fs0 : FS) (src tgt tr va te : Fpath)
    (W H : Nat) (r1 r2 : ℚ) (pA : Nat → List Nat) (pB : String → Nat → List Nat)
    (hwf0 : fs0.Wf) (hsep : sepPaths src tgt)
    (hstr : sepPaths src tr) (hsva : sepPaths src va) (hste : sepPaths src te)
    (htrva : sepPaths tr va) (htrte : sepPaths tr te) (hvate : sepPaths va te)
    (hpa : ∀ n, (pA n).Perm (List.range n))
    (hpb : ∀ c m, (pB c m).Perm (List.range m))
    (hfin : (split_data fs0 src tr va te r1 r2 pA pB).err = none) :
    (∀ m, fs0.lookup tr m = none →
      ((split_data fs0 src tr va te r1 r2 pA pB).fs.isdir tr m = true ↔
        ∃ T V Te, (m, T, V, Te) ∈ (split_data fs0 src tr va te r1 r2 pA pB).asgn
          ∧ T ≠ [])) ∧
    (∀ m, fs0.lookup va m = none →
      ((split_data fs0 src tr va te r1 r2 pA pB).fs.isdir va m = true ↔
        ∃ T V Te, (m, T, V, Te) ∈ (split_data fs0 src tr va te r1 r2 pA pB).asgn
          ∧ V ≠ [])) ∧
    (∀ m, fs0.lookup te m = none →
      ((split_data fs0 src tr va te r1 r2 pA pB).fs.isdir te m = true ↔
        ∃ T V Te, (m, T, V, Te) ∈ (split_data fs0 src tr va te r1 r2 pA pB).asgn
          ∧ Te ≠ [])) ∧
    (∀ c ∈ fs0.listdir src, fs0.isdir src c = true →
      (standardize_images fs0 src tgt (W, H)).err = none →
      (standardize_images fs0 src tgt (W, H)).fs.lookup tgt c
        = some FsNode.dir) := by
  obtain ⟨_, _, _, s4, s5, s6⟩ :=
    split_main hwf0 hstr hsva hste htrva htrte hvate hpa hpb hfin
  refine ⟨?_, ?_, ?_, ?_⟩
  · intro m hm
    constructor
    · intro hdirm
      by_cases hdirc : fs0.isdir src m = true
      · have hmem : m ∈ fs0.listdir src := by
          unfold FS.isdir at hdirc
          exact lookup_some_mem_listdir (of_decide_eq_true hdirc)
        obtain ⟨p, hp⟩ := s5 m hmem hdirc
        obtain ⟨T, V, Te⟩ := p
        refine ⟨T, V, Te, hp, ?_⟩
        exact (splitClass_nonempty (s4 _ hp).2.2.1 (hpa _) (hpb m)).1
      · exfalso
        have hfr := (s6 m (fun hcon => hdirc hcon.2)).1
        unfold FS.isdir at hdirm
        have hd2 := of_decide_eq_true hdirm
        rw [hfr, hm] at hd2
        cases hd2
    · rintro ⟨T, V, Te, hp, _⟩
      have hdir := (s4 _ hp).2.2.2.2.2.2.1
      unfold FS.isdir
      rw [hdir]
      exact decide_eq_true rfl
  · intro m hm
    constructor
    · intro hdirm
      by_cases hdirc : fs0.isdir src m = true
      · have hmem : m ∈ fs0.listdir src := by
          unfold FS.isdir at hdirc
          exact lookup_some_mem_listdir (of_decide_eq_true hdirc)
        obtain ⟨p, hp⟩ := s5 m hmem hdirc
        obtain ⟨T, V, Te⟩ := p
        refine ⟨T, V, Te, hp, ?_⟩
        exact (splitClass_nonempty (s4 _ hp).2.2.1 (hpa _) (hpb m)).2.1
      · exfalso
        have hfr := (s6 m (fun hcon => hdirc hcon.2)).2.1
        unfold FS.isdir at hdirm
        have hd2 := of_decide_eq_true hdirm
        rw [hfr, hm] at hd2
        cases hd2
    · rintro ⟨T, V, Te, hp, _⟩
      have hdir := (s4 _ hp).2.2.2.2.2.2.2.1
      unfold FS.isdir
      rw [hdir]
      exact decide_eq_true rfl
  · intro m hm
    constructor
    · intro hdirm
      by_cases hdirc : fs0.isdir src m = true
      · have hmem : m ∈ fs0.listdir src := by
          unfold FS.isdir at hdirc
          exact lookup_some_mem_listdir (of_decide_eq_true hdirc)
        obtain ⟨p, hp⟩ := s5 m hmem hdirc
        obtain ⟨T, V, Te⟩ := p
        refine ⟨T, V, Te, hp, ?_⟩
        exact (splitClass_nonempty (s4 _ hp).2.2.1 (hpa _) (hpb m)).2.2
      · exfalso
        have hfr := (s6 m (fun hcon => hdirc hcon.2)).2.2.1
        unfold FS.isdir at hdirm
        have hd2 := of_decide_eq_true hdirm
        rw [hfr, hm] at hd2
        cases hd2
    · rintro ⟨T, V, Te, hp, _⟩
      have hdir := (s4 _ hp).2.2.2.2.2.2.2.2
      unfold FS.isdir
      rw [hdir]
      exact decide_eq_true rfl
  · intro c hc hcd hfinstd
    obtain ⟨_, _, _, m4, _, _, _, _, _⟩ := std_main hwf0 hsep hfinstd
    exact m4 c hc hcd

unseal Rat.mul Rat.inv Rat.sub Rat.add in
/-- Claim C2 (refuted: code bug). At the default ratios 0.7/0.2 the second
stage of `split_data` recomputes its test fraction as
`(1-0.7-0.2)/(0.2+(1-0.7))`, which equals `1/5` of the 30-file remainder
rather than the `1/3` that would reproduce the configured 0.70/0.20/0.10:
on a class of 100 files the code's split comes out 70/24/6, while the
fraction `1/3` applied to the same remainder yields the claimed 20/10, so
the 24/6 outcome is not rounding of the underlying split function (whose
floor/ceil rounding moves each count by less than one). -/
theorem C2_second_stage_ratio_bug :
    computedTestSize (7/10) (2/10) = 1/5 ∧
    splitCountsTest 30 (computedTestSize (7/10) (2/10)) = (24, 6) ∧
    splitCountsTest 30 (1/3) = (20, 10) ∧
    (splitClass ((List.range 100).map (fun i => toString i)) (7/10) (2/10)
        (List.range 100) (fun m => List.range m)).map
        (fun t => (t.1.length, t.2.1.length, t.2.2.length))
      = Except.ok (70, 24, 6) := by
  refine ⟨by decide, by decide, by decide, by rfl⟩

theorem flat_of_no_deep_dirs {fs : FS} {src : Fpath}
    (h : ∀ e ∈ fs.ents, e.1.length = src.length + 1 → pathLE src e.1 →
      e.2.2 ≠ FsNode.dir) :
    ∀ c n, fs.isdir src c = true →
      fs.lookup (src ++ [c]) n ≠ some FsNode.dir := by
  intro c n _ hlk
  unfold FS.lookup at hlk
  cases hf : fs.ents.find? (keyMatches (src ++ [c]) n) with
  | none => rw [hf] at hlk; cases hlk
  | some e =>
    rw [hf] at hlk
    have hmem := List.mem_of_find?_eq_some hf
    have hk := List.find?_some hf
    rw [keyMatches_iff] at hk
    refine h e hmem ?_ ?_ (Option.some.inj hlk)
    · rw [hk.1]
      simp
    · rw [hk.1]
      exact pathLE_append_one src c

unseal Rat.mul Rat.inv Rat.sub Rat.add in
/-- Concrete witness for C1: one class `c` with five files split at the
default ratios under identity shuffles. -/
theorem C1_split_partition_witness :
    (FS.mk [(["s"], "c", FsNode.dir),
      (["s","c"], "a", FsNode.file (Content.image 5 7)),
      (["s","c"], "b", FsNode.file (Content.image 3 4)),
      (["s","c"], "d", FsNode.file Content.invalid),
      (["s","c"], "e", FsNode.file (Content.image 2 2)),
      (["s","c"], "g", FsNode.file (Content.image 9 9)),
      (["s"], "f", FsNode.file (Content.image 1 1))]).Wf ∧
    sepPaths ["s"] ["t"] ∧
    ("c", ["d","e","g"], ["b"], ["a"]) ∈ (split_data
      (FS.mk [(["s"], "c", FsNode.dir),
        (["s","c"], "a", FsNode.file (Content.image 5 7)),
        (["s","c"], "b", FsNode.file (Content.image 3 4)),
        (["s","c"], "d", FsNode.file Content.invalid),
        (["s","c"], "e", FsNode.file (Content.image 2 2)),
        (["s","c"], "g", FsNode.file (Content.image 9 9)),
        (["s"], "f", FsNode.file (Content.image 1 1))])
      ["s"] ["t"] ["v"] ["u"] (7/10) (2/10)
      (fun n => List.range n) (fun _ n => List.range n)).asgn ∧
    ("a" ∈ (FS.mk [(["s"], "c", FsNode.dir),
      (["s","c"], "a", FsNode.file (Content.image 5 7)),
      (["s","c"], "b", FsNode.file (Content.image 3 4)),
      (["s","c"], "d", FsNode.file Content.invalid),
      (["s","c"], "e", FsNode.file (Content.image 2 2)),
      (["s","c"], "g", FsNode.file (Content.image 9 9)),
      (["s"], "f", FsNode.file (Content.image 1 1))]).listdir (["s"] ++ ["c"])
      ↔ "a" ∈ (["d","e","g"] : List String) ∨ "a" ∈ (["b"] : List String)
        ∨ "a" ∈ (["a"] : List String)) :=
  ⟨by decide, by decide, by decide,
    (C1_split_partition
      (FS.mk [(["s"], "c", FsNode.dir),
        (["s","c"], "a", FsNode.file (Content.image 5 7)),
        (["s","c"], "b", FsNode.file (Content.image 3 4)),
        (["s","c"], "d", FsNode.file Content.invalid),
        (["s","c"], "e", FsNode.file (Content.image 2 2)),
        (["s","c"], "g", FsNode.file (Content.image 9 9)),
        (["s"], "f", FsNode.file (Content.image 1 1))])
      ["s"] ["t"] ["v"] ["u"] (7/10) (2/10)
      (fun n => List.range n) (fun _ n => List.range n)
      (by decide) (by decide) (by decide) (by decide)
      (fun n => List.Perm.refl _) (fun c m => List.Perm.refl _)
      "c" ["d","e","g"] ["b"] ["a"] (by decide)).1 "a"⟩


/-- Concrete witness for C3: the five-file class standardized to 2x2. -/
theorem C3_standardize_output_witness :
    (FS.mk [(["s"], "c", FsNode.dir),
      (["s","c"], "a", FsNode.file (Content.image 5 7)),
      (["s","c"], "b", FsNode.file (Content.image 3 4)),
      (["s","c"], "d", FsNode.file Content.invalid),
      (["s","c"], "e", FsNode.file (Content.image 2 2)),
      (["s","c"], "g", FsNode.file (Content.image 9 9)),
      (["s"], "f", FsNode.file (Content.image 1 1))]).Wf ∧ sepPaths ["s"] ["g2"] ∧
    (standardize_images (FS.mk [(["s"], "c", FsNode.dir),
      (["s","c"], "a", FsNode.file (Content.image 5 7)),
      (["s","c"], "b", FsNode.file (Content.image 3 4)),
      (["s","c"], "d", FsNode.file Content.invalid),
      (["s","c"], "e", FsNode.file (Content.image 2 2)),
      (["s","c"], "g", FsNode.file (Content.image 9 9)),
      (["s"], "f", FsNode.file (Content.image 1 1))]) ["s"] ["g2"] (2, 2)).err = none ∧
    (standardize_images (FS.mk [(["s"], "c", FsNode.dir),
      (["s","c"], "a", FsNode.file (Content.image 5 7)),
      (["s","c"], "b", FsNode.file (Content.image 3 4)),
      (["s","c"], "d", FsNode.file Content.invalid),
      (["s","c"], "e", FsNode.file (Content.image 2 2)),
      (["s","c"], "g", FsNode.file (Content.image 9 9)),
      (["s"], "f", FsNode.file (Content.image 1 1))]) ["s"] ["g2"] (2, 2)).fs.lookup (["g2"] ++ ["c"]) "a"
      = some (FsNode.file (Content.image 2 2)) :=
  ⟨by decide, by decide, by decide,
    C3_standardize_output (FS.mk [(["s"], "c", FsNode.dir),
      (["s","c"], "a", FsNode.file (Content.image 5 7)),
      (["s","c"], "b", FsNode.file (Content.image 3 4)),
      (["s","c"], "d", FsNode.file Content.invalid),
      (["s","c"], "e", FsNode.file (Content.image 2 2)),
      (["s","c"], "g", FsNode.file (Content.image 9 9)),
      (["s"], "f", FsNode.file (Content.image 1 1))]) ["s"] ["g2"] 2 2 (by decide) (by decide)
      (by decide) "c" (by decide) (by decide) "a" 5 7 (by decide)⟩

/-- Concrete witness for C4: the invalid file `d` is removed and logged,
the valid file `a` is kept. -/
theorem C4_clean_data_removes_invalid_witness :
    (FS.mk [(["s"], "c", FsNode.dir),
      (["s","c"], "a", FsNode.file (Content.image 5 7)),
      (["s","c"], "b", FsNode.file (Content.image 3 4)),
      (["s","c"], "d", FsNode.file Content.invalid),
      (["s","c"], "e", FsNode.file (Content.image 2 2)),
      (["s","c"], "g", FsNode.file (Content.image 9 9)),
      (["s"], "f", FsNode.file (Content.image 1 1))]).Wf ∧
    (clean_data (FS.mk [(["s"], "c", FsNode.dir),
      (["s","c"], "a", FsNode.file (Content.image 5 7)),
      (["s","c"], "b", FsNode.file (Content.image 3 4)),
      (["s","c"], "d", FsNode.file Content.invalid),
      (["s","c"], "e", FsNode.file (Content.image 2 2)),
      (["s","c"], "g", FsNode.file (Content.image 9 9)),
      (["s"], "f", FsNode.file (Content.image 1 1))]) ["s"]).err = none ∧
    (clean_data (FS.mk [(["s"], "c", FsNode.dir),
      (["s","c"], "a", FsNode.file (Content.image 5 7)),
      (["s","c"], "b", FsNode.file (Content.image 3 4)),
      (["s","c"], "d", FsNode.file Content.invalid),
      (["s","c"], "e", FsNode.file (Content.image 2 2)),
      (["s","c"], "g", FsNode.file (Content.image 9 9)),
      (["s"], "f", FsNode.file (Content.image 1 1))]) ["s"]).fs.lookup (["s"] ++ ["c"]) "d" = none ∧
    (["s"] ++ ["c", "d"]) ∈ (clean_data (FS.mk [(["s"], "c", FsNode.dir),
      (["s","c"], "a", FsNode.file (Content.image 5 7)),
      (["s","c"], "b", FsNode.file (Content.image 3 4)),
      (["s","c"], "d", FsNode.file Content.invalid),
      (["s","c"], "e", FsNode.file (Content.image 2 2)),
      (["s","c"], "g", FsNode.file (Content.image 9 9)),
      (["s"], "f", FsNode.file (Content.image 1 1))]) ["s"]).logs ∧
    (clean_data (FS.mk [(["s"], "c", FsNode.dir),
      (["s","c"], "a", FsNode.file (Content.image 5 7)),
      (["s","c"], "b", FsNode.file (Content.image 3 4)),
      (["s","c"], "d", FsNode.file Content.invalid),
      (["s","c"], "e", FsNode.file (Content.image 2 2)),
      (["s","c"], "g", FsNode.file (Content.image 9 9)),
      (["s"], "f", FsNode.file (Content.image 1 1))]) ["s"]).fs.lookup (["s"] ++ ["c"]) "a"
      = (FS.mk [(["s"], "c", FsNode.dir),
      (["s","c"], "a", FsNode.file (Content.image 5 7)),
      (["s","c"], "b", FsNode.file (Content.image 3 4)),
      (["s","c"], "d", FsNode.file Content.invalid),
      (["s","c"], "e", FsNode.file (Content.image 2 2)),
      (["s","c"], "g", FsNode.file (Content.image 9 9)),
      (["s"], "f", FsNode.file (Content.image 1 1))]).lookup (["s"] ++ ["c"]) "a" := by
  have h := C4_clean_data_removes_invalid (FS.mk [(["s"], "c", FsNode.dir),
      (["s","c"], "a", FsNode.file (Content.image 5 7)),
      (["s","c"], "b", FsNode.file (Content.image 3 4)),
      (["s","c"], "d", FsNode.file Content.invalid),
      (["s","c"], "e", FsNode.file (Content.image 2 2)),
      (["s","c"], "g", FsNode.file (Content.image 9 9)),
      (["s"], "f", FsNode.file (Content.image 1 1))]) ["s"] (by decide)
    (flat_of_no_deep_dirs (by decide)) "c" (by decide) (by decide)
  exact ⟨by decide, h.1, (h.2.2.1 "d" (by decide) (by decide)).1,
    (h.2.2.1 "d" (by decide) (by decide)).2, h.2.2.2 "a" (by decide)⟩

unseal Rat.mul Rat.inv Rat.sub Rat.add in
/-- Concrete witness for C5: two runs over the same tree with identity and
reversed second-stage shuffles finish cleanly and agree on the train map. -/
theorem C5_seeded_first_stage_deterministic_witness :
    (split_data (FS.mk [(["s"], "c", FsNode.dir),
      (["s","c"], "a", FsNode.file (Content.image 5 7)),
      (["s","c"], "b", FsNode.file (Content.image 3 4)),
      (["s","c"], "d", FsNode.file Content.invalid),
      (["s","c"], "e", FsNode.file (Content.image 2 2)),
      (["s","c"], "g", FsNode.file (Content.image 9 9)),
      (["s"], "f", FsNode.file (Content.image 1 1))]) ["s"] ["t"] ["v"] ["u"] (7/10) (2/10)
      (fun n => List.range n) (fun _ n => List.range n)).err = none ∧
    (split_data (FS.mk [(["s"], "c", FsNode.dir),
      (["s","c"], "a", FsNode.file (Content.image 5 7)),
      (["s","c"], "b", FsNode.file (Content.image 3 4)),
      (["s","c"], "d", FsNode.file Content.invalid),
      (["s","c"], "e", FsNode.file (Content.image 2 2)),
      (["s","c"], "g", FsNode.file (Content.image 9 9)),
      (["s"], "f", FsNode.file (Content.image 1 1))]) ["s"] ["t"] ["v"] ["u"] (7/10) (2/10)
      (fun n => List.range n) (fun _ n => (List.range n).reverse)).err = none ∧
    (split_data (FS.mk [(["s"], "c", FsNode.dir),
      (["s","c"], "a", FsNode.file (Content.image 5 7)),
      (["s","c"], "b", FsNode.file (Content.image 3 4)),
      (["s","c"], "d", FsNode.file Content.invalid),
      (["s","c"], "e", FsNode.file (Content.image 2 2)),
      (["s","c"], "g", FsNode.file (Content.image 9 9)),
      (["s"], "f", FsNode.file (Content.image 1 1))]) ["s"] ["t"] ["v"] ["u"] (7/10) (2/10)
      (fun n => List.range n) (fun _ n => List.range n)).asgn.map (fun e => (e.1, e.2.1))
      = (split_data (FS.mk [(["s"], "c", FsNode.dir),
      (["s","c"], "a", FsNode.file (Content.image 5 7)),
      (["s","c"], "b", FsNode.file (Content.image 3 4)),
      (["s","c"], "d", FsNode.file Content.invalid),
      (["s","c"], "e", FsNode.file (Content.image 2 2)),
      (["s","c"], "g", FsNode.file (Content.image 9 9)),
      (["s"], "f", FsNode.file (Content.image 1 1))]) ["s"] ["t"] ["v"] ["u"] (7/10) (2/10)
      (fun n => List.range n) (fun _ n => (List.range n).reverse)).asgn.map (fun e => (e.1, e.2.1)) :=
  ⟨by decide, by decide,
    C5_seeded_first_stage_deterministic (FS.mk [(["s"], "c", FsNode.dir),
      (["s","c"], "a", FsNode.file (Content.image 5 7)),
      (["s","c"], "b", FsNode.file (Content.image 3 4)),
      (["s","c"], "d", FsNode.file Content.invalid),
      (["s","c"], "e", FsNode.file (Content.image 2 2)),
      (["s","c"], "g", FsNode.file (Content.image 9 9)),
      (["s"], "f", FsNode.file (Content.image 1 1))]) ["s"] ["t"] ["v"] ["u"]
      (7/10) (2/10) (fun n => List.range n) (fun _ n => List.range n)
      (fun _ n => (List.range n).reverse)
      (by decide) (by decide) (by decide) (by decide) (by decide)⟩

/-- Concrete witness for C6: the undecodable file `d` is logged and gets no
output, while the pass still converts `a`. -/
theorem C6_standardize_failure_skipped_witness :
    (standardize_images (FS.mk [(["s"], "c", FsNode.dir),
      (["s","c"], "a", FsNode.file (Content.image 5 7)),
      (["s","c"], "b", FsNode.file (Content.image 3 4)),
      (["s","c"], "d", FsNode.file Content.invalid),
      (["s","c"], "e", FsNode.file (Content.image 2 2)),
      (["s","c"], "g", FsNode.file (Content.image 9 9)),
      (["s"], "f", FsNode.file (Content.image 1 1))]) ["s"] ["g2"] (2, 2)).err = none ∧
    (["s"] ++ ["c", "d"]) ∈ (standardize_images (FS.mk [(["s"], "c", FsNode.dir),
      (["s","c"], "a", FsNode.file (Content.image 5 7)),
      (["s","c"], "b", FsNode.file (Content.image 3 4)),
      (["s","c"], "d", FsNode.file Content.invalid),
      (["s","c"], "e", FsNode.file (Content.image 2 2)),
      (["s","c"], "g", FsNode.file (Content.image 9 9)),
      (["s"], "f", FsNode.file (Content.image 1 1))]) ["s"] ["g2"] (2, 2)).logs ∧
    (standardize_images (FS.mk [(["s"], "c", FsNode.dir),
      (["s","c"], "a", FsNode.file (Content.image 5 7)),
      (["s","c"], "b", FsNode.file (Content.image 3 4)),
      (["s","c"], "d", FsNode.file Content.invalid),
      (["s","c"], "e", FsNode.file (Content.image 2 2)),
      (["s","c"], "g", FsNode.file (Content.image 9 9)),
      (["s"], "f", FsNode.file (Content.image 1 1))]) ["s"] ["g2"] (2, 2)).fs.lookup (["s"] ++ ["c"]) "d" = (FS.mk [(["s"], "c", FsNode.dir),
      (["s","c"], "a", FsNode.file (Content.image 5 7)),
      (["s","c"], "b", FsNode.file (Content.image 3 4)),
      (["s","c"], "d", FsNode.file Content.invalid),
      (["s","c"], "e", FsNode.file (Content.image 2 2)),
      (["s","c"], "g", FsNode.file (Content.image 9 9)),
      (["s"], "f", FsNode.file (Content.image 1 1))]).lookup (["s"] ++ ["c"]) "d" ∧
    (standardize_images (FS.mk [(["s"], "c", FsNode.dir),
      (["s","c"], "a", FsNode.file (Content.image 5 7)),
      (["s","c"], "b", FsNode.file (Content.image 3 4)),
      (["s","c"], "d", FsNode.file Content.invalid),
      (["s","c"], "e", FsNode.file (Content.image 2 2)),
      (["s","c"], "g", FsNode.file (Content.image 9 9)),
      (["s"], "f", FsNode.file (Content.image 1 1))]) ["s"] ["g2"] (2, 2)).fs.lookup (["g2"] ++ ["c"]) "d"
      = (FS.mk [(["s"], "c", FsNode.dir),
      (["s","c"], "a", FsNode.file (Content.image 5 7)),
      (["s","c"], "b", FsNode.file (Content.image 3 4)),
      (["s","c"], "d", FsNode.file Content.invalid),
      (["s","c"], "e", FsNode.file (Content.image 2 2)),
      (["s","c"], "g", FsNode.file (Content.image 9 9)),
      (["s"], "f", FsNode.file (Content.image 1 1))]).lookup (["g2"] ++ ["c"]) "d" := by
  have h := C6_standardize_failure_skipped (FS.mk [(["s"], "c", FsNode.dir),
      (["s","c"], "a", FsNode.file (Content.image 5 7)),
      (["s","c"], "b", FsNode.file (Content.image 3 4)),
      (["s","c"], "d", FsNode.file Content.invalid),
      (["s","c"], "e", FsNode.file (Content.image 2 2)),
      (["s","c"], "g", FsNode.file (Content.image 9 9)),
      (["s"], "f", FsNode.file (Content.image 1 1))]) ["s"] ["g2"] 2 2 (by decide)
    (by decide) (by decide) "c" (by decide) (by decide) "d" (by decide)
    (by decide)
  exact ⟨by decide, h.1, h.2.1, h.2.2.1⟩

unseal Rat.mul Rat.inv Rat.sub Rat.add in
/-- Concrete witness for C7: after the split the source entry `a` is intact
and the assigned train file `e` carries the source bytes. -/
theorem C7_split_copies_sources_intact_witness :
    (FS.mk [(["s"], "c", FsNode.dir),
      (["s","c"], "a", FsNode.file (Content.image 5 7)),
      (["s","c"], "b", FsNode.file (Content.image 3 4)),
      (["s","c"], "d", FsNode.file Content.invalid),
      (["s","c"], "e", FsNode.file (Content.image 2 2)),
      (["s","c"], "g", FsNode.file (Content.image 9 9)),
      (["s"], "f", FsNode.file (Content.image 1 1))]).Wf ∧ sepPaths ["t"] ["v"] ∧
    (split_data (FS.mk [(["s"], "c", FsNode.dir),
      (["s","c"], "a", FsNode.file (Content.image 5 7)),
      (["s","c"], "b", FsNode.file (Content.image 3 4)),
      (["s","c"], "d", FsNode.file Content.invalid),
      (["s","c"], "e", FsNode.file (Content.image 2 2)),
      (["s","c"], "g", FsNode.file (Content.image 9 9)),
      (["s"], "f", FsNode.file (Content.image 1 1))]) ["s"] ["t"] ["v"] ["u"] (7/10) (2/10)
      (fun n => List.range n) (fun _ n => List.range n)).fs.lookup ["s","c"] "a" = (FS.mk [(["s"], "c", FsNode.dir),
      (["s","c"], "a", FsNode.file (Content.image 5 7)),
      (["s","c"], "b", FsNode.file (Content.image 3 4)),
      (["s","c"], "d", FsNode.file Content.invalid),
      (["s","c"], "e", FsNode.file (Content.image 2 2)),
      (["s","c"], "g", FsNode.file (Content.image 9 9)),
      (["s"], "f", FsNode.file (Content.image 1 1))]).lookup ["s","c"] "a" ∧
    (split_data (FS.mk [(["s"], "c", FsNode.dir),
      (["s","c"], "a", FsNode.file (Content.image 5 7)),
      (["s","c"], "b", FsNode.file (Content.image 3 4)),
      (["s","c"], "d", FsNode.file Content.invalid),
      (["s","c"], "e", FsNode.file (Content.image 2 2)),
      (["s","c"], "g", FsNode.file (Content.image 9 9)),
      (["s"], "f", FsNode.file (Content.image 1 1))]) ["s"] ["t"] ["v"] ["u"] (7/10) (2/10)
      (fun n => List.range n) (fun _ n => List.range n)).fs.lookup (["t"] ++ ["c"]) "e"
      = (FS.mk [(["s"], "c", FsNode.dir),
      (["s","c"], "a", FsNode.file (Content.image 5 7)),
      (["s","c"], "b", FsNode.file (Content.image 3 4)),
      (["s","c"], "d", FsNode.file Content.invalid),
      (["s","c"], "e", FsNode.file (Content.image 2 2)),
      (["s","c"], "g", FsNode.file (Content.image 9 9)),
      (["s"], "f", FsNode.file (Content.image 1 1))]).lookup (["s"] ++ ["c"]) "e" := by
  have h := C7_split_copies_sources_intact (FS.mk [(["s"], "c", FsNode.dir),
      (["s","c"], "a", FsNode.file (Content.image 5 7)),
      (["s","c"], "b", FsNode.file (Content.image 3 4)),
      (["s","c"], "d", FsNode.file Content.invalid),
      (["s","c"], "e", FsNode.file (Content.image 2 2)),
      (["s","c"], "g", FsNode.file (Content.image 9 9)),
      (["s"], "f", FsNode.file (Content.image 1 1))]) ["s"] ["t"] ["v"] ["u"]
    (7/10) (2/10) (fun n => List.range n) (fun _ n => List.range n)
    (by decide) (by decide) (by decide) (by decide) (by decide) (by decide)
    (by decide) (fun n => List.Perm.refl _) (fun c m => List.Perm.refl _)
  exact ⟨by decide, by decide, h.1 ["s","c"] "a" (by decide),
    (h.2.2 (by decide) ("c", ["d","e","g"], ["b"], ["a"]) (by decide)).1 "e"
      (by decide)⟩

unseal Rat.mul Rat.inv Rat.sub Rat.add in
/-- Concrete witness for C8: a one-file class raises the ValueError and the
target keys of that class stay untouched. -/
theorem C8_small_class_raises_witness :
    (FS.mk [(["s"], "c", FsNode.dir),
      (["s","c"], "a", FsNode.file (Content.image 1 1))]).Wf ∧
    (FS.mk [(["s"], "c", FsNode.dir),
      (["s","c"], "a", FsNode.file (Content.image 1 1))]).listdir ["s"] = [] ++ "c" :: [] ∧
    ((FS.mk [(["s"], "c", FsNode.dir),
      (["s","c"], "a", FsNode.file (Content.image 1 1))]).listdir (["s"] ++ ["c"])).length < 2 ∧
    (split_data (FS.mk [(["s"], "c", FsNode.dir),
      (["s","c"], "a", FsNode.file (Content.image 1 1))]) ["s"] ["t"] ["v"] ["u"] (7/10) (2/10)
      (fun n => List.range n) (fun _ n => List.range n)).err
      = some "ValueError: one of the resulting splits would be empty" ∧
    (split_data (FS.mk [(["s"], "c", FsNode.dir),
      (["s","c"], "a", FsNode.file (Content.image 1 1))]) ["s"] ["t"] ["v"] ["u"] (7/10) (2/10)
      (fun n => List.range n) (fun _ n => List.range n)).fs.lookup (["t"] ++ ["c"]) "a"
      = (FS.mk [(["s"], "c", FsNode.dir),
      (["s","c"], "a", FsNode.file (Content.image 1 1))]).lookup (["t"] ++ ["c"]) "a" := by
  have h := C8_small_class_raises (FS.mk [(["s"], "c", FsNode.dir),
      (["s","c"], "a", FsNode.file (Content.image 1 1))]) ["s"] ["t"] ["v"] ["u"]
    (fun n => List.range n) (fun _ n => List.range n) (by decide)
    (by decide) (by decide) (by decide) (by decide) (by decide) (by decide)
    "c" [] [] (by decide) (by decide) (by decide) rfl
  exact ⟨by decide, by decide, by decide, h.1,
    (h.2 "c" (by decide)).2.2.2.1 "a"⟩

/-- Concrete witness for C9: the root file `f` survives all three passes
with no log, no mirrored output and no split assignment. -/
theorem C9_nondir_root_entry_skipped_witness :
    (FS.mk [(["s"], "c", FsNode.dir),
      (["s","c"], "a", FsNode.file (Content.image 5 7)),
      (["s","c"], "b", FsNode.file (Content.image 3 4)),
      (["s","c"], "d", FsNode.file Content.invalid),
      (["s","c"], "e", FsNode.file (Content.image 2 2)),
      (["s","c"], "g", FsNode.file (Content.image 9 9)),
      (["s"], "f", FsNode.file (Content.image 1 1))]).lookup ["s"] "f" = some (FsNode.file (Content.image 1 1)) ∧
    (clean_data (FS.mk [(["s"], "c", FsNode.dir),
      (["s","c"], "a", FsNode.file (Content.image 5 7)),
      (["s","c"], "b", FsNode.file (Content.image 3 4)),
      (["s","c"], "d", FsNode.file Content.invalid),
      (["s","c"], "e", FsNode.file (Content.image 2 2)),
      (["s","c"], "g", FsNode.file (Content.image 9 9)),
      (["s"], "f", FsNode.file (Content.image 1 1))]) ["s"]).fs.lookup ["s"] "f" = some (FsNode.file (Content.image 1 1)) ∧
    (["s"] ++ ["f"]) ∉ (clean_data (FS.mk [(["s"], "c", FsNode.dir),
      (["s","c"], "a", FsNode.file (Content.image 5 7)),
      (["s","c"], "b", FsNode.file (Content.image 3 4)),
      (["s","c"], "d", FsNode.file Content.invalid),
      (["s","c"], "e", FsNode.file (Content.image 2 2)),
      (["s","c"], "g", FsNode.file (Content.image 9 9)),
      (["s"], "f", FsNode.file (Content.image 1 1))]) ["s"]).logs ∧
    (standardize_images (FS.mk [(["s"], "c", FsNode.dir),
      (["s","c"], "a", FsNode.file (Content.image 5 7)),
      (["s","c"], "b", FsNode.file (Content.image 3 4)),
      (["s","c"], "d", FsNode.file Content.invalid),
      (["s","c"], "e", FsNode.file (Content.image 2 2)),
      (["s","c"], "g", FsNode.file (Content.image 9 9)),
      (["s"], "f", FsNode.file (Content.image 1 1))]) ["s"] ["g2"] (2, 2)).fs.lookup ["g2"] "f" = (FS.mk [(["s"], "c", FsNode.dir),
      (["s","c"], "a", FsNode.file (Content.image 5 7)),
      (["s","c"], "b", FsNode.file (Content.image 3 4)),
      (["s","c"], "d", FsNode.file Content.invalid),
      (["s","c"], "e", FsNode.file (Content.image 2 2)),
      (["s","c"], "g", FsNode.file (Content.image 9 9)),
      (["s"], "f", FsNode.file (Content.image 1 1))]).lookup ["g2"] "f" ∧
    (split_data (FS.mk [(["s"], "c", FsNode.dir),
      (["s","c"], "a", FsNode.file (Content.image 5 7)),
      (["s","c"], "b", FsNode.file (Content.image 3 4)),
      (["s","c"], "d", FsNode.file Content.invalid),
      (["s","c"], "e", FsNode.file (Content.image 2 2)),
      (["s","c"], "g", FsNode.file (Content.image 9 9)),
      (["s"], "f", FsNode.file (Content.image 1 1))]) ["s"] ["t"] ["v"] ["u"] (7/10) (2/10)
      (fun n => List.range n) (fun _ n => List.range n)).fs.lookup ["s"] "f" = some (FsNode.file (Content.image 1 1)) ∧
    ("f", (["a"] : List String), (["b"] : List String), (["d"] : List String))
      ∉ (split_data (FS.mk [(["s"], "c", FsNode.dir),
      (["s","c"], "a", FsNode.file (Content.image 5 7)),
      (["s","c"], "b", FsNode.file (Content.image 3 4)),
      (["s","c"], "d", FsNode.file Content.invalid),
      (["s","c"], "e", FsNode.file (Content.image 2 2)),
      (["s","c"], "g", FsNode.file (Content.image 9 9)),
      (["s"], "f", FsNode.file (Content.image 1 1))]) ["s"] ["t"] ["v"] ["u"] (7/10) (2/10)
      (fun n => List.range n) (fun _ n => List.range n)).asgn := by
  have h := C9_nondir_root_entry_skipped (FS.mk [(["s"], "c", FsNode.dir),
      (["s","c"], "a", FsNode.file (Content.image 5 7)),
      (["s","c"], "b", FsNode.file (Content.image 3 4)),
      (["s","c"], "d", FsNode.file Content.invalid),
      (["s","c"], "e", FsNode.file (Content.image 2 2)),
      (["s","c"], "g", FsNode.file (Content.image 9 9)),
      (["s"], "f", FsNode.file (Content.image 1 1))]) ["s"] ["g2"] ["t"] ["v"] ["u"]
    2 2 (7/10) (2/10) (fun n => List.range n) (fun _ n => List.range n)
    (by decide) (flat_of_no_deep_dirs (by decide)) (by decide) (by decide)
    (by decide) (by decide) "f" (Content.image 1 1) (by decide)
  exact ⟨by decide, h.1.1, h.1.2, (h.2.1 (by decide)).2.1, h.2.2.1,
    h.2.2.2 (["a"], ["b"], ["d"])⟩

unseal Rat.mul Rat.inv Rat.sub Rat.add in
/-- Concrete witness for C10: under the split the train root's class
directory appears exactly when a nonempty train list is recorded, and the
standardizer creates the mirrored class directory unconditionally. -/
theorem C10_target_dir_creation_witness :
    (FS.mk [(["s"], "c", FsNode.dir),
      (["s","c"], "a", FsNode.file (Content.image 5 7)),
      (["s","c"], "b", FsNode.file (Content.image 3 4)),
      (["s","c"], "d", FsNode.file Content.invalid),
      (["s","c"], "e", FsNode.file (Content.image 2 2)),
      (["s","c"], "g", FsNode.file (Content.image 9 9)),
      (["s"], "f", FsNode.file (Content.image 1 1))]).lookup ["t"] "c" = none ∧
    (split_data (FS.mk [(["s"], "c", FsNode.dir),
      (["s","c"], "a", FsNode.file (Content.image 5 7)),
      (["s","c"], "b", FsNode.file (Content.image 3 4)),
      (["s","c"], "d", FsNode.file Content.invalid),
      (["s","c"], "e", FsNode.file (Content.image 2 2)),
      (["s","c"], "g", FsNode.file (Content.image 9 9)),
      (["s"], "f", FsNode.file (Content.image 1 1))]) ["s"] ["t"] ["v"] ["u"] (7/10) (2/10)
      (fun n => List.range n) (fun _ n => List.range n)).err = none ∧
    ((split_data (FS.mk [(["s"], "c", FsNode.dir),
      (["s","c"], "a", FsNode.file (Content.image 5 7)),
      (["s","c"], "b", FsNode.file (Content.image 3 4)),
      (["s","c"], "d", FsNode.file Content.invalid),
      (["s","c"], "e", FsNode.file (Content.image 2 2)),
      (["s","c"], "g", FsNode.file (Content.image 9 9)),
      (["s"], "f", FsNode.file (Content.image 1 1))]) ["s"] ["t"] ["v"] ["u"] (7/10) (2/10)
      (fun n => List.range n) (fun _ n => List.range n)).fs.isdir ["t"] "c" = true ↔
      ∃ T V Te, ("c", T, V, Te) ∈ (split_data (FS.mk [(["s"], "c", FsNode.dir),
      (["s","c"], "a", FsNode.file (Content.image 5 7)),
      (["s","c"], "b", FsNode.file (Content.image 3 4)),
      (["s","c"], "d", FsNode.file Content.invalid),
      (["s","c"], "e", FsNode.file (Content.image 2 2)),
      (["s","c"], "g", FsNode.file (Content.image 9 9)),
      (["s"], "f", FsNode.file (Content.image 1 1))]) ["s"] ["t"] ["v"] ["u"] (7/10) (2/10)
      (fun n => List.range n) (fun _ n => List.range n)).asgn ∧ T ≠ []) ∧
    (standardize_images (FS.mk [(["s"], "c", FsNode.dir),
      (["s","c"], "a", FsNode.file (Content.image 5 7)),
      (["s","c"], "b", FsNode.file (Content.image 3 4)),
      (["s","c"], "d", FsNode.file Content.invalid),
      (["s","c"], "e", FsNode.file (Content.image 2 2)),
      (["s","c"], "g", FsNode.file (Content.image 9 9)),
      (["s"], "f", FsNode.file (Content.image 1 1))]) ["s"] ["g2"] (2, 2)).fs.lookup ["g2"] "c" = some FsNode.dir := by
  have h := C10_target_dir_creation (FS.mk [(["s"], "c", FsNode.dir),
      (["s","c"], "a", FsNode.file (Content.image 5 7)),
      (["s","c"], "b", FsNode.file (Content.image 3 4)),
      (["s","c"], "d", FsNode.file Content.invalid),
      (["s","c"], "e", FsNode.file (Content.image 2 2)),
      (["s","c"], "g", FsNode.file (Content.image 9 9)),
      (["s"], "f", FsNode.file (Content.image 1 1))]) ["s"] ["g2"] ["t"] ["v"] ["u"] 2 2
    (7/10) (2/10) (fun n => List.range n) (fun _ n => List.range n)
    (by decide) (by decide) (by decide) (by decide) (by decide) (by decide)
    (by decide) (by decide) (fun n => List.Perm.refl _)
    (fun c m => List.Perm.refl _) (by decide)
  exact ⟨by decide, by decide, h.1 "c" (by decide),
    h.2.2.2 "c" (by decide) (by decide) (by decide)⟩
